import Mathlib

/-!
Verification development for the csuite23 legal-document RTF recovery tools.

The repository consists of three Python modules that turn RTF-flavoured text
into HTML: advanced_rtf_processor.py, extract_rtf_content.py and
manual_rtf_cleaner.py.  Python strings are modelled as `List Char`; each
`re.sub` call is modelled by `subst` below, a single left-to-right
leftmost-match substitution pass whose matcher returns the length of the
(always non-empty) match starting at the head of its argument, exactly the
semantics `re.sub` has for the deterministic patterns used by the sources.
-/

set_option maxRecDepth 10000

namespace RtfSpec

/-- Whitespace recognized by Python str.strip, str.split and the regex
class for whitespace, restricted to the ASCII range used by the documents. -/
def wsChar (c : Char) : Bool :=
  c == ' ' || c == '\t' || c == '\n' || c == '\r' || c == '\x0b' || c == '\x0c'

/-- Word characters of the regex word class (ASCII range). -/
def wordChar (c : Char) : Bool := c.isAlphanum || c == '_'

/-- ASCII letter, the regex class of lower and upper case letters. -/
def alphaChar (c : Char) : Bool := c.isAlpha

/-- hasLead p s decides whether p is a leading run of s (Python startswith). -/
def hasLead : List Char → List Char → Bool
  | [], _ => true
  | _ :: _, [] => false
  | p :: ps, c :: cs => p == c && hasLead ps cs

/-- Python str.strip, left part. -/
def lstrip (l : List Char) : List Char := l.dropWhile wsChar

/-- Python str.strip, right part. -/
def rstrip (l : List Char) : List Char := (l.reverse.dropWhile wsChar).reverse

/-- Python str.strip. -/
def pstrip (l : List Char) : List Char := rstrip (lstrip l)

/-- Python str.split on a newline character. -/
def splitNl : List Char → List (List Char)
  | [] => [[]]
  | c :: cs =>
    if c == '\n' then [] :: splitNl cs
    else
      match splitNl cs with
      | [] => [[c]]
      | l :: ls => (c :: l) :: ls

/-- Python newline join of a list of lines. -/
def joinNl : List (List Char) → List Char
  | [] => []
  | [l] => l
  | l :: ls => l ++ '\n' :: joinNl ls

/-- Python single-space join of a list of words. -/
def joinSp : List (List Char) → List Char
  | [] => []
  | [l] => l
  | l :: ls => l ++ ' ' :: joinSp ls

/-- One substitution pass in the style of Python re.sub: mlen gives the length
of the (non-empty) match at the head of its argument, or none.  The fuel
argument serves termination only; subst below always supplies enough. -/
def substFuel (mlen : List Char → Option Nat) (repl : List Char) : Nat → List Char → List Char
  | 0, s => s
  | _ + 1, [] => []
  | fuel + 1, c :: cs =>
    match mlen (c :: cs) with
    | some n => repl ++ substFuel mlen repl fuel (cs.drop (n - 1))
    | none => c :: substFuel mlen repl fuel cs

/-- re.sub with pattern matcher mlen and replacement repl. -/
def subst (mlen : List Char → Option Nat) (repl : List Char) (s : List Char) : List Char :=
  substFuel mlen repl s.length s

/-- Matcher of a literal pattern; with subst this is Python str.replace. -/
def litLen (pat : List Char) (s : List Char) : Option Nat :=
  if hasLead pat s then some pat.length else none

/-- Python str.replace with a fixed non-empty pattern. -/
def replaceAll (pat repl : List Char) (s : List Char) : List Char :=
  subst (litLen pat) repl s

theorem substFuel_nil (m : List Char → Option Nat) (r : List Char) :
    ∀ fuel, substFuel m r fuel [] = []
  | 0 => rfl
  | _ + 1 => rfl

theorem substFuel_congr (m : List Char → Option Nat) (r : List Char) :
    ∀ (f : Nat) (s : List Char) (g : Nat), s.length ≤ f → s.length ≤ g →
      substFuel m r f s = substFuel m r g s := by
  intro f
  induction f with
  | zero =>
    intro s g hf _
    have hs : s = [] := List.eq_nil_of_length_eq_zero (Nat.le_zero.mp hf)
    subst hs
    rw [substFuel_nil, substFuel_nil]
  | succ f ih =>
    intro s g hf hg
    cases s with
    | nil => rw [substFuel_nil, substFuel_nil]
    | cons c cs =>
      cases g with
      | zero => simp at hg
      | succ g =>
        simp only [List.length_cons] at hf hg
        simp only [substFuel]
        cases hm : m (c :: cs) with
        | some n =>
          have h1 : (cs.drop (n - 1)).length ≤ f := by
            rw [List.length_drop]
            omega
          have h2 : (cs.drop (n - 1)).length ≤ g := by
            rw [List.length_drop]
            omega
          exact congrArg (r ++ ·) (ih _ g h1 h2)
        | none =>
          exact congrArg (c :: ·) (ih cs g (by omega) (by omega))

theorem subst_nil (m : List Char → Option Nat) (r : List Char) : subst m r [] = [] := rfl

theorem subst_cons_nomatch (m : List Char → Option Nat) (r : List Char) (c : Char)
    (cs : List Char) (h : m (c :: cs) = none) :
    subst m r (c :: cs) = c :: subst m r cs := by
  show substFuel m r (c :: cs).length (c :: cs) = _
  simp only [List.length_cons, substFuel, h]
  rfl

theorem subst_cons_match (m : List Char → Option Nat) (r : List Char) (c : Char)
    (cs : List Char) (n : Nat) (h : m (c :: cs) = some n) :
    subst m r (c :: cs) = r ++ subst m r (cs.drop (n - 1)) := by
  show substFuel m r (c :: cs).length (c :: cs) = _
  simp only [List.length_cons, substFuel, h]
  exact congrArg (r ++ ·)
    (substFuel_congr m r cs.length _ _ (by rw [List.length_drop]; omega) (Nat.le_refl _))

/-- The matcher m never fires at a position whose character comes from a. -/
def NoFireOn (m : List Char → Option Nat) (a : List Char) : Prop :=
  ∀ x ∈ a, ∀ t : List Char, m (x :: t) = none

theorem subst_append_nofire (m : List Char → Option Nat) (r : List Char) {a : List Char}
    (b : List Char) (h : NoFireOn m a) :
    subst m r (a ++ b) = a ++ subst m r b := by
  induction a with
  | nil => rfl
  | cons x xs ih =>
    have hx : m (x :: (xs ++ b)) = none := h x (by simp) _
    rw [List.cons_append, subst_cons_nomatch _ _ _ _ hx,
      ih (fun y hy t => h y (by simp [hy]) t), List.cons_append]

theorem subst_eq_self (m : List Char → Option Nat) (r : List Char) {s : List Char}
    (h : ∀ c cs, (c :: cs) <:+ s → m (c :: cs) = none) : subst m r s = s := by
  induction s with
  | nil => rfl
  | cons c cs ih =>
    rw [subst_cons_nomatch _ _ _ _ (h c cs (List.suffix_refl _)),
      ih fun d ds hsuf => h d ds (hsuf.trans (List.suffix_cons c cs))]

/-- The matcher can only fire when the head character satisfies p. -/
def FireHead (m : List Char → Option Nat) (p : Char → Bool) : Prop :=
  ∀ c cs n, m (c :: cs) = some n → p c = true

theorem nofire_of_head {m : List Char → Option Nat} {p : Char → Bool} (hm : FireHead m p)
    {a : List Char} (ha : ∀ c ∈ a, p c = false) : NoFireOn m a := by
  intro x hx t
  cases hmx : m (x :: t) with
  | none => rfl
  | some n =>
    have := hm x t n hmx
    rw [ha x hx] at this
    cases this

theorem subst_id_of_no_head {m : List Char → Option Nat} {p : Char → Bool} (r : List Char)
    (hm : FireHead m p) {s : List Char} (hs : ∀ c ∈ s, p c = false) : subst m r s = s := by
  have h2 := subst_append_nofire m r ([] : List Char) (nofire_of_head hm hs)
  simpa [subst_nil] using h2

theorem takeWhile_append_of_all {p : Char → Bool} {a : List Char} (b : List Char)
    (h : ∀ c ∈ a, p c = true) : (a ++ b).takeWhile p = a ++ b.takeWhile p := by
  induction a with
  | nil => rfl
  | cons x xs ih =>
    simp only [List.cons_append, List.takeWhile_cons, h x (by simp), if_true]
    rw [ih fun c hc => h c (by simp [hc])]

theorem takeWhile_cons_of_neg {p : Char → Bool} {x : Char} (xs : List Char) (h : p x = false) :
    (x :: xs).takeWhile p = [] := by
  simp [List.takeWhile_cons, h]

theorem hasLead_append_self (p q : List Char) : hasLead p (p ++ q) = true := by
  induction p with
  | nil => rfl
  | cons x xs ih => simp [hasLead, ih]

end RtfSpec

namespace RtfSpec

/-! ## advanced_rtf_processor.py -/

namespace AdvProc

open RtfSpec

/-- Length of the leading digit run. -/
def digitsLen (s : List Char) : Nat := (s.takeWhile Char.isDigit).length

/-- Matcher for a literal control word followed by one or more digits. -/
def litDig (lit : List Char) (s : List Char) : Option Nat :=
  if hasLead lit s then
    if digitsLen (s.drop lit.length) == 0 then none
    else some (lit.length + digitsLen (s.drop lit.length))
  else none

/-- Matcher for a sequence of control words, each followed by digits. -/
def chainLitDig : List (List Char) → List Char → Option Nat
  | [], _ => some 0
  | lit :: lits, s =>
    match litDig lit s with
    | none => none
    | some n =>
      match chainLitDig lits (s.drop n) with
      | none => none
      | some k => some (n + k)

def litRtf1 : List Char := "\\rtf1".toList
def litCocoartf : List Char := "\\cocoartf".toList
def litCocoaScale : List Char := "\\cocoatextscaling".toList
def litCocoaPlat : List Char := "\\cocoaplatform".toList
def litFonttbl : List Char := "\x7b\\fonttbl".toList
def litColortbl : List Char := "\x7b\\colortbl".toList
def litBraceBs : List Char := "\x7b\\".toList
def litExpanded : List Char := "expandedcolortbl".toList
def litDeftab : List Char := "\\deftab".toList
def litPard : List Char := "\\pard".toList
def litPardeftab : List Char := "\\pardeftab".toList
def litF0bFs : List Char := "\\f0\\b\\fs".toList
def litF0b : List Char := "\\f0\\b".toList
def litF1b0 : List Char := "\\f1\\b0".toList
def litF2i : List Char := "\\f2\\i".toList
def litF1i0 : List Char := "\\f1\\i0".toList
def ucRupee : List Char := "\\uc0\\u8377".toList
def ucLineSep : List Char := "\\uc0\\u8232".toList

/-- Matcher of the rtf1-header pattern: backslash rtf1 then everything up to a brace. -/
def mRtf1 (s : List Char) : Option Nat :=
  if hasLead litRtf1 s then
    some (litRtf1.length + ((s.drop litRtf1.length).takeWhile (· != '\x7d')).length)
  else none

def mCocoartf (s : List Char) : Option Nat := litDig litCocoartf s

def mCocoaScale (s : List Char) : Option Nat := chainLitDig [litCocoaScale, litCocoaPlat] s

/-- Matcher of a brace-opened table group: literal opener, then non-brace characters,
then one or more closing braces. -/
def tblMatch (lit : List Char) (s : List Char) : Option Nat :=
  if hasLead lit s then
    let nb := ((s.drop lit.length).takeWhile (· != '\x7d')).length
    let br := ((s.drop (lit.length + nb)).takeWhile (· == '\x7d')).length
    if br == 0 then none else some (lit.length + nb + br)
  else none

def mFonttbl (s : List Char) : Option Nat := tblMatch litFonttbl s

def mColortbl (s : List Char) : Option Nat := tblMatch litColortbl s

/-- Lazy scan (regex dot, which never crosses a newline) for the first position
where tgt starts; returns the number of characters skipped. -/
def lazyFind (tgt : List Char) : List Char → Option Nat
  | [] => if hasLead tgt [] then some 0 else none
  | c :: cs =>
    if hasLead tgt (c :: cs) then some 0
    else if c == '\n' then none
    else (lazyFind tgt cs).map (· + 1)

def mExpColortbl (s : List Char) : Option Nat :=
  if hasLead litBraceBs s then
    match lazyFind litExpanded (s.drop litBraceBs.length) with
    | none => none
    | some k =>
      let base := litBraceBs.length + k + litExpanded.length
      let nb := ((s.drop base).takeWhile (· != '\x7d')).length
      let br := ((s.drop (base + nb)).takeWhile (· == '\x7d')).length
      if br == 0 then none else some (base + nb + br)
  else none

def mPaperw (s : List Char) : Option Nat :=
  chainLitDig ["\\paperw".toList, "\\paperh".toList, "\\margl".toList, "\\margr".toList,
    "\\vieww".toList, "\\viewh".toList, "\\viewkind".toList] s

def mDeftab (s : List Char) : Option Nat := litDig litDeftab s

/-- Matcher of the paragraph-reset pattern: backslash pard then all following
non-backslash characters. -/
def mPard (s : List Char) : Option Nat :=
  if hasLead litPard s then
    some (litPard.length + ((s.drop litPard.length).takeWhile (· != '\\')).length)
  else none

/-- Matcher of the pardeftab pattern: literal, then word characters, then digits,
then non-backslash characters. -/
def mPardeftab (s : List Char) : Option Nat :=
  if hasLead litPardeftab s then
    let w := ((s.drop litPardeftab.length).takeWhile wordChar).length
    let d := digitsLen (s.drop (litPardeftab.length + w))
    let nb := ((s.drop (litPardeftab.length + w + d)).takeWhile (· != '\\')).length
    some (litPardeftab.length + w + d + nb)
  else none

def mBoldFs (s : List Char) : Option Nat := litDig litF0bFs s

/-- Matcher of the bare bold switch with a negative lookahead for a backslash. -/
def mBoldBare (s : List Char) : Option Nat :=
  if hasLead litF0b s then
    match s.drop litF0b.length with
    | '\\' :: _ => none
    | _ => some litF0b.length
  else none

def mBoldEnd (s : List Char) : Option Nat := litLen litF1b0 s

def mItalStart (s : List Char) : Option Nat := litLen litF2i s

def mItalEnd (s : List Char) : Option Nat := litLen litF1i0 s

def mFnum (s : List Char) : Option Nat := litDig "\\f".toList s

def mFsNum (s : List Char) : Option Nat := litDig "\\fs".toList s

def mCfNum (s : List Char) : Option Nat := litDig "\\cf".toList s

def mStrokec (s : List Char) : Option Nat := litDig "\\strokec".toList s

def mExpnd (s : List Char) : Option Nat :=
  chainLitDig ["\\expnd".toList, "\\expndtw".toList, "\\kerning".toList] s

def mOutl (s : List Char) : Option Nat :=
  chainLitDig ["\\outl".toList, "\\strokewidth".toList] s

/-- Matcher of the residual control pattern: backslash, letters, optional digits,
optional trailing whitespace. -/
def mResidual (s : List Char) : Option Nat :=
  match s with
  | '\\' :: rest =>
    if (rest.takeWhile alphaChar).length == 0 then none
    else
      some (1 + (rest.takeWhile alphaChar).length +
        digitsLen (rest.drop (rest.takeWhile alphaChar).length) +
        ((rest.drop ((rest.takeWhile alphaChar).length +
          digitsLen (rest.drop (rest.takeWhile alphaChar).length))).takeWhile wsChar).length)
  | _ => none

/-- Matcher of a whitespace run (the whitespace-squashing pattern). -/
def mWsRun (s : List Char) : Option Nat :=
  match s with
  | c :: _ => if wsChar c then some ((s.takeWhile wsChar).length) else none
  | [] => none

def pbRepl : List Char := "\n\nPARA_BREAK\n".toList
def pbTok : List Char := "PARA_BREAK".toList
def boldStartTok : List Char := "BOLD_START".toList
def boldEndTok : List Char := "BOLD_END".toList
def italStartTok : List Char := "ITALIC_START".toList
def italEndTok : List Char := "ITALIC_END".toList
def strongOpen : List Char := "<strong>".toList
def strongClose : List Char := "</strong>".toList
def emOpen : List Char := "<em>".toList
def emClose : List Char := "</em>".toList
def rupeeCh : List Char := ['₹']

/-- Whitespace normalization: consecutive whitespace collapses to one space. -/
def squash (s : List Char) : List Char := subst mWsRun [' '] s

/-- Removal of leading asterisks and whitespace (the anchored leading-junk pattern). -/
def starStrip (l : List Char) : List Char := l.dropWhile fun c => c == '*' || wsChar c

/-- The four formatting-marker replacements of step 8, in source order. -/
def markSub (l : List Char) : List Char :=
  replaceAll italEndTok emClose
    (replaceAll italStartTok emOpen
      (replaceAll boldEndTok strongClose
        (replaceAll boldStartTok strongOpen l)))

/-- The processing of one kept line in step 8: marker substitution, whitespace
normalization, leading-junk removal. -/
def procLineOut (l : List Char) : List Char := starStrip (squash (markSub l))

/-- The per-line loop of step 8 of clean_rtf_content. -/
def procLines : List (List Char) → List (List Char)
  | [] => []
  | l :: ls =>
    if pstrip l == [] then procLines ls
    else if hasLead pbTok (pstrip l) then [] :: procLines ls
    else if (pstrip l).length < 3 then procLines ls
    else if procLineOut (pstrip l) == [] then procLines ls
    else procLineOut (pstrip l) :: procLines ls

/-- clean_rtf_content of advanced_rtf_processor.py: the sequence of re.sub and
replace calls of steps 1-7 in source order, then the line loop of step 8. -/
def clean_rtf_content (content : List Char) : List Char :=
  let c := subst mRtf1 [] content
  let c := subst mCocoartf [] c
  let c := subst mCocoaScale [] c
  let c := subst mFonttbl [] c
  let c := subst mColortbl [] c
  let c := subst mExpColortbl [] c
  let c := subst mPaperw [] c
  let c := subst mDeftab [] c
  let c := subst mPard pbRepl c
  let c := subst mPardeftab [] c
  let c := subst mBoldFs boldStartTok c
  let c := subst mBoldBare boldStartTok c
  let c := subst mBoldEnd boldEndTok c
  let c := subst mItalStart italStartTok c
  let c := subst mItalEnd italEndTok c
  let c := subst mFnum [] c
  let c := subst mFsNum [] c
  let c := subst mCfNum [] c
  let c := subst mStrokec [] c
  let c := subst mExpnd [] c
  let c := subst mOutl [] c
  let c := replaceAll ucRupee rupeeCh c
  let c := replaceAll ucLineSep ['\n'] c
  let c := subst mResidual [' '] c
  let c := replaceAll ['\x7b'] [] c
  let c := replaceAll ['\x7d'] [] c
  let c := replaceAll ['\\'] ['\n'] c
  joinNl (procLines (splitNl c))

/-- The paragraph-accumulation loop of structure_legal_document. -/
def asmParas (cur : List Char) : List (List Char) → List (List Char)
  | [] => if cur == [] then [] else [pstrip cur]
  | l :: ls =>
    if pstrip l == [] then
      if cur == [] then asmParas [] ls else pstrip cur :: asmParas [] ls
    else if cur == [] then asmParas (pstrip l) ls
    else asmParas (cur ++ ' ' :: pstrip l) ls

/-- Python str.split with no separator: words between whitespace runs. -/
def pySplitFuel : Nat → List Char → List (List Char)
  | 0, _ => []
  | fuel + 1, s =>
    let t := s.dropWhile wsChar
    if t == [] then []
    else
      let w := t.takeWhile fun c => !wsChar c
      w :: pySplitFuel fuel (t.drop w.length)

def pySplit (s : List Char) : List (List Char) := pySplitFuel s.length s

/-- Python split on a single space with maxsplit one. -/
def splitOnceSp (s : List Char) : List (List Char) :=
  let a := s.takeWhile (· != ' ')
  match s.drop a.length with
  | [] => [a]
  | _ :: rest => [a, rest]

/-- Anchored match of the numbered-section pattern: digits, a dot, digits. -/
def numMatch (s : List Char) : Bool :=
  let d1 := s.takeWhile Char.isDigit
  if d1 == [] then false
  else
    match s.drop d1.length with
    | '.' :: r => !(r.takeWhile Char.isDigit == [])
    | _ => false

def whereasTok : List Char := "WHEREAS".toList
def andWhereasTok : List Char := "AND WHEREAS".toList
def nowThereforeTok : List Char := "NOW THEREFORE".toList
def articleTok : List Char := "ARTICLE".toList

/-- The legal-keyword wrap of the html loop: a paragraph led by a recognized
keyword gets its first word wrapped in strong markup. -/
def whereasWrap (para : List Char) : List Char :=
  if hasLead whereasTok para || hasLead andWhereasTok para ||
      hasLead nowThereforeTok para then
    match pySplit para with
    | [] => para
    | w :: ws => strongOpen ++ w ++ strongClose ++ ' ' :: joinSp ws
  else para

/-- The article-header wrap of the html loop. -/
def articleWrap (para : List Char) : List Char :=
  if hasLead articleTok para && para.contains ':' then strongOpen ++ para ++ strongClose
  else para

/-- The numbered-section wrap of the html loop. -/
def numWrap (para : List Char) : List Char :=
  if numMatch para then
    match splitOnceSp para with
    | [p0, p1] =>
      match pySplit p1 with
      | [] => para
      | w :: ws => strongOpen ++ p0 ++ ' ' :: w ++ strongClose ++ ' ' :: joinSp ws
    | _ => para
  else para

/-- The per-paragraph transformation of the html loop of structure_legal_document:
skip blank paragraphs, squash whitespace, then the three sequential wraps. -/
def htmlPara (para0 : List Char) : Option (List Char) :=
  if pstrip para0 == [] then none
  else some (numWrap (articleWrap (whereasWrap (squash para0))))

/-- structure_legal_document of advanced_rtf_processor.py (the title argument is
unused by the source). -/
def structure_legal_document (content : List Char) : List (List Char) :=
  (asmParas [] (splitNl content)).filterMap htmlPara

/-- The full recovery engine of the advanced processor: clean_rtf_content
followed by structure_legal_document, on Lean strings. -/
def recoverAdvanced (s : String) : List String :=
  (structure_legal_document (clean_rtf_content s.toList)).map fun l => String.mk l

end AdvProc

end RtfSpec

namespace RtfSpec

/-! ## Document-level predicates -/

/-- A line or paragraph has content when some character is not whitespace. -/
def hasContent (l : List Char) : Bool := l.any fun c => !wsChar c

/-- State of the emphasis scanner: outside any span, inside a strong span,
or inside an em span. -/
inductive EmphState
  | closed
  | inStrong
  | inEm
deriving DecidableEq

/-- Scan a character stream for the four emphasis tags, enforcing that every
opening tag is closed by the matching closing tag before any other tag and
that no two kinds are open at once; returns none on a violation. -/
def tagScanF : Nat → EmphState → List Char → Option EmphState
  | 0, st, _ => some st
  | _ + 1, st, [] => some st
  | fuel + 1, st, c :: cs =>
    if hasLead AdvProc.strongOpen (c :: cs) then
      match st with
      | .closed => tagScanF fuel .inStrong ((c :: cs).drop AdvProc.strongOpen.length)
      | _ => none
    else if hasLead AdvProc.strongClose (c :: cs) then
      match st with
      | .inStrong => tagScanF fuel .closed ((c :: cs).drop AdvProc.strongClose.length)
      | _ => none
    else if hasLead AdvProc.emOpen (c :: cs) then
      match st with
      | .closed => tagScanF fuel .inEm ((c :: cs).drop AdvProc.emOpen.length)
      | _ => none
    else if hasLead AdvProc.emClose (c :: cs) then
      match st with
      | .inEm => tagScanF fuel .closed ((c :: cs).drop AdvProc.emClose.length)
      | _ => none
    else tagScanF fuel st cs

/-- The emphasis stream of a Document: its paragraphs in order. -/
def docStream (paras : List (List Char)) : List Char := paras.foldr (· ++ ·) []

/-- Emphasis balance of a Document: every strong or em START has exactly one
matching END downstream and no two kinds are ever open at the same time. -/
def balancedDoc (paras : List (List Char)) : Bool :=
  match tagScanF (docStream paras).length EmphState.closed (docStream paras) with
  | some EmphState.closed => true
  | _ => false

/-- Emphasis balance on string paragraphs. -/
def balancedDocS (paras : List String) : Bool := balancedDoc (paras.map String.toList)

end RtfSpec

namespace RtfSpec

/-! ## Concrete claim theorems on the advanced recovery engine -/

/-- Claim C1 (content preservation) — evidence that the code drops content
characters: the paragraph-reset substitution of clean_rtf_content consumes all
text following the reset marker up to the next control marker, so the input
below, whose visible textual content is hello world, recovers to a Document
with no paragraphs at all.  This contradicts the stated invariant that
recovery never drops a content character. -/
theorem c1_pard_drops_content :
    AdvProc.recoverAdvanced "\\pard hello world" = [] := by decide

/-- Claim C2 (example scenario) — evaluation of the recovery engine at the
exact input of the claim: the engine produces one paragraph, not two; the text
next paragraph. is consumed by the paragraph-reset substitution, and a stray
space is kept inside the strong markup. -/
theorem c2_example_single_paragraph :
    AdvProc.recoverAdvanced
        "\\pard\\f0\\b\\fs24 WHEREAS the parties agree\\f1\\b0 as follows.\\pard next paragraph." =
      ["<strong> WHEREAS the parties agree</strong> as follows."] := by decide

/-- Claim C3 counterexample: a bold switch that is never closed yields a
Document whose single paragraph contains a strong START with no END, so
emphasis balance fails for this recovered Document. -/
theorem c3_counterexample :
    AdvProc.recoverAdvanced "\\f0\\b hello" = ["<strong> hello"] ∧
      balancedDocS (AdvProc.recoverAdvanced "\\f0\\b hello") = false := by
  constructor <;> decide

/-- Claim C5 counterexample: a clean plain-text document with two non-empty
line groups separated by a blank line recovers to a single merged paragraph,
not one paragraph per line group, because clean_rtf_content drops blank lines
instead of keeping them as paragraph boundaries. -/
theorem c5_counterexample :
    AdvProc.recoverAdvanced "hello world\n\ngoodbye now" = ["hello world goodbye now"] := by
  decide

/-- Claim C8 counterexample: an input containing the rupee escape whose
surrounding content is shorter than the three-character line minimum recovers
to an empty Document, so the rupee glyph is not emitted at that position. -/
theorem c8_counterexample :
    AdvProc.recoverAdvanced "x\\uc0\\u8377" = [] := by decide

end RtfSpec

namespace RtfSpec

/-! ## extract_rtf_content.py -/

namespace ExtProc

open RtfSpec

/-- Matcher of the rtf1-header pattern of the extract variant: backslash rtf1,
non-brace characters, then a required closing brace. -/
def mRtf1E (s : List Char) : Option Nat :=
  if hasLead AdvProc.litRtf1 s then
    let nb := ((s.drop AdvProc.litRtf1.length).takeWhile (· != '\x7d')).length
    match s.drop (AdvProc.litRtf1.length + nb) with
    | '\x7d' :: _ => some (AdvProc.litRtf1.length + nb + 1)
    | _ => none
  else none

def litFonttblE : List Char := "\\fonttbl".toList
def litColortblE : List Char := "\\colortbl".toList
def litExpColortblE : List Char := "\\expandedcolortbl".toList

/-- Matcher of the pardeftab pattern of the extract variant: literal, required
digits, then non-backslash characters. -/
def mPardeftabE (s : List Char) : Option Nat :=
  if hasLead AdvProc.litPardeftab s then
    let d := AdvProc.digitsLen (s.drop AdvProc.litPardeftab.length)
    if d == 0 then none
    else
      let nb := ((s.drop (AdvProc.litPardeftab.length + d)).takeWhile (· != '\\')).length
      some (AdvProc.litPardeftab.length + d + nb)
  else none

/-- Matcher of a newline run of length at least three. -/
def mNl3 (s : List Char) : Option Nat :=
  match s with
  | '\n' :: _ =>
    let n := (s.takeWhile (· == '\n')).length
    if 3 ≤ n then some n else none
  | _ => none

/-- Matcher of a space run of length at least two. -/
def mSp2 (s : List Char) : Option Nat :=
  match s with
  | ' ' :: _ =>
    let n := (s.takeWhile (· == ' ')).length
    if 2 ≤ n then some n else none
  | _ => none

/-- Matcher of the residual control pattern of the extract variant: backslash,
letters, optional digits (no trailing whitespace). -/
def mResidualE (s : List Char) : Option Nat :=
  match s with
  | '\\' :: rest =>
    let a := (rest.takeWhile alphaChar).length
    if a == 0 then none
    else
      let d := AdvProc.digitsLen (rest.drop a)
      some (1 + a + d)
  | _ => none

/-- Matcher of a single grouping brace. -/
def mBrace (s : List Char) : Option Nat :=
  match s with
  | c :: _ => if c == '\x7b' || c == '\x7d' then some 1 else none
  | [] => none

def bTok : List Char := "**BOLD**".toList
def nTok : List Char := "**NORMAL**".toList
def iTok : List Char := "**ITALIC**".toList

/-- Substitution of an open-token, a starless capture, and a close-token by
pre, the capture, and post — the capture-group re.sub of the line loop. -/
def pairSubFuel (openTok closeTok pre post : List Char) : Nat → List Char → List Char
  | 0, s => s
  | _ + 1, [] => []
  | fuel + 1, c :: cs =>
    if hasLead openTok (c :: cs) then
      let rest1 := (c :: cs).drop openTok.length
      let mid := rest1.takeWhile (· != '*')
      let rest2 := rest1.drop mid.length
      if hasLead closeTok rest2 then
        pre ++ mid ++ post ++
          pairSubFuel openTok closeTok pre post fuel (rest2.drop closeTok.length)
      else c :: pairSubFuel openTok closeTok pre post fuel cs
    else c :: pairSubFuel openTok closeTok pre post fuel cs

def pairSub (openTok closeTok pre post s : List Char) : List Char :=
  pairSubFuel openTok closeTok pre post s.length s

/-- The marker substitutions of the line loop of extract_rtf_text, in order. -/
def extLineSub (l : List Char) : List Char :=
  replaceAll iTok AdvProc.emOpen
    (replaceAll nTok AdvProc.strongClose
      (replaceAll bTok AdvProc.strongOpen
        (pairSub iTok nTok AdvProc.emOpen AdvProc.emClose
          (pairSub bTok nTok AdvProc.strongOpen AdvProc.strongClose l))))

/-- The line loop of extract_rtf_text. -/
def extLines : List (List Char) → List (List Char)
  | [] => []
  | l :: ls =>
    if pstrip l == [] then extLines ls
    else if hasLead ['\x7b'] (pstrip l) || hasLead ['\x7d'] (pstrip l) then extLines ls
    else if extLineSub (pstrip l) == [] then extLines ls
    else extLineSub (pstrip l) :: extLines ls

/-- extract_rtf_text of extract_rtf_content.py: its re.sub and replace calls in
source order, then the line loop. -/
def extract_rtf_text (content : List Char) : List Char :=
  let c := subst mRtf1E [] content
  let c := subst AdvProc.mCocoartf [] c
  let c := subst AdvProc.mCocoaScale [] c
  let c := subst (AdvProc.tblMatch litFonttblE) [] c
  let c := subst (AdvProc.tblMatch litColortblE) [] c
  let c := subst (AdvProc.tblMatch litExpColortblE) [] c
  let c := subst AdvProc.mPaperw [] c
  let c := subst AdvProc.mDeftab [] c
  let c := subst AdvProc.mPard ('\n' :: ['\n']) c
  let c := subst mPardeftabE [] c
  let c := subst AdvProc.mBoldFs bTok c
  let c := subst (litLen AdvProc.litF0b) bTok c
  let c := subst AdvProc.mBoldEnd nTok c
  let c := subst AdvProc.mItalStart iTok c
  let c := subst AdvProc.mItalEnd nTok c
  let c := subst AdvProc.mFnum [] c
  let c := subst AdvProc.mFsNum [] c
  let c := subst AdvProc.mCfNum [] c
  let c := subst AdvProc.mStrokec [] c
  let c := subst AdvProc.mExpnd [] c
  let c := subst AdvProc.mOutl [] c
  let c := replaceAll AdvProc.ucRupee AdvProc.rupeeCh c
  let c := replaceAll AdvProc.ucLineSep ['\n'] c
  let c := replaceAll ['\\'] ['\n'] c
  let c := subst mNl3 ('\n' :: ['\n']) c
  let c := subst mSp2 [' '] c
  let c := subst mResidualE [] c
  let c := subst mBrace [] c
  joinNl (extLines (splitNl c))

/-- extract_rtf_text on Lean strings. -/
def extractText (s : String) : String := String.mk (extract_rtf_text s.toList)

/-- The paragraph-accumulation loop of create_legal_html (paragraphs are
appended without a final strip in this variant). -/
def asmParasE (cur : List Char) : List (List Char) → List (List Char)
  | [] => if cur == [] then [] else [cur]
  | l :: ls =>
    if pstrip l == [] then
      if cur == [] then asmParasE [] ls else cur :: asmParasE [] ls
    else if cur == [] then asmParasE (pstrip l) ls
    else asmParasE (cur ++ ' ' :: pstrip l) ls

def ampEnt : List Char := "&amp;".toList
def ltEnt : List Char := "&lt;".toList
def gtEnt : List Char := "&gt;".toList

/-- html.escape with quote disabled: ampersand first, then the angle brackets. -/
def pyHtmlEscape (s : List Char) : List Char :=
  replaceAll ['>'] gtEnt (replaceAll ['<'] ltEnt (replaceAll ['&'] ampEnt s))

def entStrongOpen : List Char := "&lt;strong&gt;".toList
def entStrongClose : List Char := "&lt;/strong&gt;".toList
def entEmOpen : List Char := "&lt;em&gt;".toList
def entEmClose : List Char := "&lt;/em&gt;".toList

/-- The four entity-to-tag restorations of create_legal_html, in source order. -/
def restoreTags (s : List Char) : List Char :=
  replaceAll entEmClose AdvProc.emClose
    (replaceAll entEmOpen AdvProc.emOpen
      (replaceAll entStrongClose AdvProc.strongClose
        (replaceAll entStrongOpen AdvProc.strongOpen s)))

def pOpenTag : List Char := "        <p>".toList
def pCloseTag : List Char := "</p>\n".toList

/-- The text emitted for one paragraph by create_legal_html: escape the
paragraph, then restore the four emphasis tags. -/
def extParaOut (p : List Char) : List Char := restoreTags (pyHtmlEscape p)

/-- The paragraph section of the document produced by create_legal_html
(the fixed head, style block and footer of the template are elided; only the
paragraph loop is modelled). -/
def extParasHtml (paras : List (List Char)) : List Char :=
  paras.foldl (fun acc p => if pstrip p == [] then acc else acc ++ pOpenTag ++ extParaOut p ++ pCloseTag) []

end ExtProc

/-! ## manual_rtf_cleaner.py -/

namespace ManProc

open RtfSpec

def skipTok1 : List (List Char) :=
  ["\\rtf".toList, "\\cocoartf".toList, "\\cocoatextscaling".toList,
    "\\paperw".toList, "\\deftab".toList]

def skipTok2 : List (List Char) :=
  ["\x7b\\fonttbl".toList, "\x7b\\colortbl".toList, "\x7b\\*\\expandedcolortbl".toList]

/-- Python startswith with a tuple of alternatives. -/
def anyLead (pats : List (List Char)) (l : List Char) : Bool := pats.any fun p => hasLead p l

/-- Anchored match of the line-number pattern: whitespace, digits, an arrow. -/
def lineNumLen (l : List Char) : Option Nat :=
  let w := (l.takeWhile wsChar).length
  let d := AdvProc.digitsLen (l.drop w)
  if d == 0 then none
  else
    match l.drop (w + d) with
    | '→' :: _ => some (w + d + 1)
    | _ => none

/-- The cleanup applied to one kept line: residual-control substitution, brace
removal, whitespace squashing and stripping. -/
def cleanLine3 (l : List Char) : List Char :=
  pstrip (AdvProc.squash (replaceAll ['\x7d'] [] (replaceAll ['\x7b'] []
    (subst AdvProc.mResidual [' '] l))))

/-- Removal of a leading line-number prefix when the anchored pattern matches. -/
def eclDropNum (l : List Char) : List Char :=
  match lineNumLen l with
  | some n => l.drop n
  | none => l

/-- The cleaned text of one line: line-number removal, strip, then cleanLine3. -/
def eclClean (l : List Char) : List Char := cleanLine3 (pstrip (eclDropNum l))

/-- The decision for one source line of extract_clean_text_from_lines: the
cleaned line to append, or none when one of the skip conditions holds — in
particular when the cleaned line is already among the accumulated lines. -/
def eclLine (acc : List (List Char)) (l : List Char) : Option (List Char) :=
  if anyLead skipTok1 l then none
  else if anyLead skipTok2 (pstrip l) then none
  else if pstrip (eclDropNum l) == [] || (pstrip (eclDropNum l)).length < 3 then none
  else if eclClean l = [] then none
  else if hasLead ['\\'] (eclClean l) then none
  else if eclClean l ∈ acc then none
  else some (eclClean l)

/-- The accumulating loop of extract_clean_text_from_lines. -/
def eclGo : List (List Char) → List (List Char) → List (List Char)
  | [], acc => acc
  | l :: ls, acc =>
    match eclLine acc l with
    | some l3 => eclGo ls (acc ++ [l3])
    | none => eclGo ls acc

/-- extract_clean_text_from_lines of manual_rtf_cleaner.py. -/
def extract_clean_text_from_lines (lines : List (List Char)) : List (List Char) :=
  eclGo lines []

def newParaTok : List (List Char) :=
  ["WHEREAS".toList, "AND WHEREAS".toList, "NOW THEREFORE".toList, "ARTICLE".toList,
    "PREAMBLE".toList, "ACCEPTANCE ACKNOWLEDGMENT".toList, "EFFECTIVE DATE".toList]

/-- The paragraph-grouping loop of create_final_legal_html; returns the texts
of the emitted paragraph elements in order. -/
def finalChunksGo (cur : List Char) : List (List Char) → List (List Char)
  | [] => if pstrip cur == [] then [] else [pstrip cur]
  | l :: ls =>
    if pstrip l == [] then finalChunksGo cur ls
    else if anyLead newParaTok l || AdvProc.numMatch l then
      if pstrip cur == [] then finalChunksGo l ls
      else pstrip cur :: finalChunksGo l ls
    else if cur == [] then finalChunksGo l ls
    else finalChunksGo (cur ++ ' ' :: l) ls

def finalParaChunks (ls : List (List Char)) : List (List Char) := finalChunksGo [] ls

/-- The paragraph section of the document produced by create_final_legal_html
(fixed head, style block and footer elided); paragraph text is emitted as is. -/
def finalParasHtml (ls : List (List Char)) : List Char :=
  (finalParaChunks ls).foldl (fun acc p => acc ++ ExtProc.pOpenTag ++ p ++ ExtProc.pCloseTag) []

end ManProc

/-! ## Batch mains (claim C6) -/

/-- One entry of the configured batch list. -/
structure FileSpec where
  rtf_file : String
  html_file : String
  title : String
deriving DecidableEq

/-- The fixed batch configuration shared by the two batch mains. -/
def files_to_process : List FileSpec :=
  [⟨"TERMS AND CONDITIONS OF SERVICE.txt", "terms.html", "TERMS AND CONDITIONS OF SERVICE"⟩,
    ⟨"PRIVACY AND DATA PROTECTION POLICY.txt", "privacy.html",
      "PRIVACY AND DATA PROTECTION POLICY"⟩,
    ⟨"POLICY FOR REFUND, RESTITUTION AND REVERSAL OF PECUNIARY CONSIDERATION.txt",
      "refund.html", "POLICY FOR REFUND, RESTITUTION AND REVERSAL OF PECUNIARY CONSIDERATION"⟩]

/-- A file system: an association of paths to contents; reading a missing path
raises, modelled as none. -/
def readFs (fs : List (String × String)) (p : String) : Option String :=
  match fs.find? fun e => e.1 == p with
  | some e => some e.2
  | none => none

/-- The body of the try block of the advanced main for one file: read the
source, recover the Document (the rendered template around it is elided), and
name the output file written; a missing input is the caught per-file failure,
reported with the offending path. -/
def processAdvAttempt (fs : List (String × String)) (fi : FileSpec) :
    Except String (String × List String) :=
  match readFs fs fi.rtf_file with
  | none => Except.error fi.rtf_file
  | some content => Except.ok (fi.html_file, AdvProc.recoverAdvanced content)

/-- The batch loop of the advanced main: the try block catches each failure of
one file separately, so the batch is one independent outcome per file. -/
def advancedMain (fs : List (String × String)) : List (Except String (String × List String)) :=
  files_to_process.map (processAdvAttempt fs)

/-- The batch loop of the extract main, which has no per-file handler: the
first missing input aborts the loop; the result is the list of files written
before the failure, and the offending path when the batch aborted. -/
def extractMainGo (fs : List (String × String)) :
    List FileSpec → List (String × String) × Option String
  | [] => ([], none)
  | fi :: rest =>
    match readFs fs fi.rtf_file with
    | none => ([], some fi.rtf_file)
    | some content =>
      let r := extractMainGo fs rest
      ((fi.html_file, ExtProc.extractText content) :: r.1, r.2)

def extractMain (fs : List (String × String)) : List (String × String) × Option String :=
  extractMainGo fs files_to_process

end RtfSpec

namespace RtfSpec

/-! ## Content lemmas for paragraph non-emptiness (claim C4) -/

theorem hasContent_append (a b : List Char) :
    hasContent (a ++ b) = (hasContent a || hasContent b) := by
  simp [hasContent, List.any_append]

theorem strongOpen_content : hasContent AdvProc.strongOpen = true := by decide

theorem hasContent_dropWhile_ws (l : List Char) :
    hasContent (l.dropWhile wsChar) = hasContent l := by
  induction l with
  | nil => rfl
  | cons c cs ih =>
    by_cases hc : wsChar c = true
    · rw [List.dropWhile_cons, if_pos hc, ih]
      simp [hasContent, hc]
    · rw [List.dropWhile_cons, if_neg (by simp [hc])]

theorem hasContent_reverse (l : List Char) : hasContent l.reverse = hasContent l := by
  unfold hasContent
  rcases h : l.any fun c => !wsChar c with _ | _
  · rw [List.any_eq_false] at h ⊢
    intro x hx
    exact h x (List.mem_reverse.mp hx)
  · rw [List.any_eq_true] at h ⊢
    obtain ⟨x, hx, hxc⟩ := h
    exact ⟨x, List.mem_reverse.mpr hx, hxc⟩

theorem hasContent_rstrip (l : List Char) : hasContent (rstrip l) = hasContent l := by
  unfold rstrip
  rw [hasContent_reverse, hasContent_dropWhile_ws, hasContent_reverse]

theorem hasContent_pstrip (l : List Char) : hasContent (pstrip l) = hasContent l := by
  unfold pstrip lstrip
  rw [hasContent_rstrip, hasContent_dropWhile_ws]

theorem pstrip_eq_nil_iff (l : List Char) : pstrip l = [] ↔ hasContent l = false := by
  constructor
  · intro h
    have h2 := hasContent_pstrip l
    rw [h] at h2
    exact h2.symm
  · intro h
    have hall : ∀ x ∈ l, wsChar x = true := by
      intro x hx
      by_contra hws
      have hx2 : hasContent l = true := by
        unfold hasContent
        rw [List.any_eq_true]
        exact ⟨x, hx, by simp [Bool.not_eq_true] at hws; simp [hws]⟩
      rw [h] at hx2
      cases hx2
    unfold pstrip lstrip
    rw [List.dropWhile_eq_nil_iff.mpr hall]
    rfl

theorem dropWhile_length_le (p : Char → Bool) (l : List Char) :
    (l.dropWhile p).length ≤ l.length := by
  induction l with
  | nil => exact Nat.le_refl _
  | cons c cs ih =>
    rw [List.dropWhile_cons]
    split
    · exact le_trans ih (by simp)
    · exact Nat.le_refl _

theorem drop_takeWhile_length (p : Char → Bool) (l : List Char) :
    l.drop (l.takeWhile p).length = l.dropWhile p := by
  induction l with
  | nil => rfl
  | cons c cs ih =>
    by_cases hc : p c = true
    · simp [List.takeWhile_cons, List.dropWhile_cons, hc, ih]
    · simp [List.takeWhile_cons, List.dropWhile_cons, hc]

theorem squash_content_aux :
    ∀ (n : Nat) (s : List Char), s.length ≤ n → hasContent s = true →
      hasContent (AdvProc.squash s) = true := by
  intro n
  induction n with
  | zero =>
    intro s hlen h
    have hs : s = [] := List.eq_nil_of_length_eq_zero (Nat.le_zero.mp hlen)
    subst hs
    cases h
  | succ n ih =>
    intro s hlen h
    cases s with
    | nil => cases h
    | cons c cs =>
      simp only [List.length_cons] at hlen
      by_cases hc : wsChar c = true
      · have hm : AdvProc.mWsRun (c :: cs) = some ((c :: cs).takeWhile wsChar).length := by
          unfold AdvProc.mWsRun
          simp [hc]
        have htw : ((c :: cs).takeWhile wsChar).length - 1 = (cs.takeWhile wsChar).length := by
          simp [List.takeWhile_cons, hc]
        have hcs : hasContent (cs.dropWhile wsChar) = true := by
          rw [hasContent_dropWhile_ws]
          simpa [hasContent, List.any_cons, hc] using h
        have hrec := ih (cs.dropWhile wsChar)
          (le_trans (dropWhile_length_le _ _) (by omega)) hcs
        unfold AdvProc.squash at hrec ⊢
        rw [subst_cons_match _ _ _ _ _ hm, htw, drop_takeWhile_length]
        rw [hasContent_append, hrec]
        simp
      · have hm : AdvProc.mWsRun (c :: cs) = none := by
          unfold AdvProc.mWsRun
          simp [hc]
        unfold AdvProc.squash
        rw [subst_cons_nomatch _ _ _ _ hm]
        simp [hasContent, List.any_cons, hc]

theorem squash_hasContent {s : List Char} (h : hasContent s = true) :
    hasContent (AdvProc.squash s) = true :=
  squash_content_aux s.length s (Nat.le_refl _) h

theorem whereasWrap_content {x : List Char} (h : hasContent x = true) :
    hasContent (AdvProc.whereasWrap x) = true := by
  unfold AdvProc.whereasWrap
  split
  · split
    · exact h
    · simp [hasContent_append, strongOpen_content]
  · exact h

theorem articleWrap_content {x : List Char} (h : hasContent x = true) :
    hasContent (AdvProc.articleWrap x) = true := by
  unfold AdvProc.articleWrap
  split
  · simp [hasContent_append, strongOpen_content]
  · exact h

theorem numWrap_content {x : List Char} (h : hasContent x = true) :
    hasContent (AdvProc.numWrap x) = true := by
  unfold AdvProc.numWrap
  split
  · split
    · split
      · exact h
      · simp [hasContent_append, strongOpen_content]
    · exact h
  · exact h

theorem htmlPara_content {p q : List Char} (h : AdvProc.htmlPara p = some q) :
    hasContent q = true := by
  unfold AdvProc.htmlPara at h
  split at h
  · cases h
  · rename_i hne
    have hq := Option.some.inj h
    subst hq
    apply numWrap_content
    apply articleWrap_content
    apply whereasWrap_content
    apply squash_hasContent
    rcases hcp : hasContent p with _ | _
    · exact absurd (by simpa using (pstrip_eq_nil_iff p).mpr hcp) hne
    · rfl

/-- Claim C4 (paragraph non-emptiness): for every input, every paragraph of the
recovered Document contains a non-whitespace character, so no paragraph is the
empty string or whitespace only; and a text followed by two consecutive
paragraph-reset markers with no text between them produces no empty paragraph
in the output. -/
theorem c4_paragraph_nonempty :
    (∀ (input : String), ∀ p ∈ AdvProc.recoverAdvanced input, hasContent p.toList = true) ∧
      AdvProc.recoverAdvanced "some text here\\pard\\pard" = ["some text here"] := by
  constructor
  · intro input p hp
    unfold AdvProc.recoverAdvanced at hp
    rw [List.mem_map] at hp
    obtain ⟨l, hl, rfl⟩ := hp
    unfold AdvProc.structure_legal_document at hl
    rw [List.mem_filterMap] at hl
    obtain ⟨a, _, ha⟩ := hl
    exact htmlPara_content ha
  · decide

/-- Witness for claim C4: the theorem applied at a concrete input and
paragraph. -/
theorem c4_witness :
    "hello world" ∈ AdvProc.recoverAdvanced "hello world" ∧
      hasContent "hello world".toList = true :=
  ⟨by decide, c4_paragraph_nonempty.1 "hello world" "hello world" (by decide)⟩

end RtfSpec

namespace RtfSpec

/-! ## Batch failure semantics (claim C6) -/

/-- A file system where the first configured input is missing and the other
two are present. -/
def fsMissingFirst : List (String × String) :=
  [("PRIVACY AND DATA PROTECTION POLICY.txt", "body p"),
    ("POLICY FOR REFUND, RESTITUTION AND REVERSAL OF PECUNIARY CONSIDERATION.txt", "body r")]

/-- Claim C6 counterexample: in the extract variant, whose batch loop has no
per-file handler, a missing first input aborts the whole batch — no output file
is written at all, although the two remaining configured inputs are present in
the file system, so the remaining files are not processed. -/
theorem c6_counterexample :
    readFs fsMissingFirst "PRIVACY AND DATA PROTECTION POLICY.txt" = some "body p" ∧
      extractMain fsMissingFirst = ([], some "TERMS AND CONDITIONS OF SERVICE.txt") := by
  constructor
  · decide
  · decide

/-- Claim C6 amended: in the advanced variant, whose batch loop wraps each file
in its own try block, every configured file contributes exactly its own
independent outcome to the batch: a missing input is reported as an error for
that path, a present input is processed to its recovered Document, and neither
outcome depends on the other files. -/
theorem c6_amended_advanced_batch (fs : List (String × String)) (fi : FileSpec)
    (hfi : fi ∈ files_to_process) :
    processAdvAttempt fs fi ∈ advancedMain fs ∧
      (readFs fs fi.rtf_file = none → Except.error fi.rtf_file ∈ advancedMain fs) ∧
      ∀ content, readFs fs fi.rtf_file = some content →
        Except.ok (fi.html_file, AdvProc.recoverAdvanced content) ∈ advancedMain fs := by
  refine ⟨List.mem_map_of_mem _ hfi, ?_, ?_⟩
  · intro h
    have he : processAdvAttempt fs fi = Except.error fi.rtf_file := by
      unfold processAdvAttempt
      rw [h]
    rw [← he]
    exact List.mem_map_of_mem _ hfi
  · intro content h
    have he : processAdvAttempt fs fi = Except.ok (fi.html_file, AdvProc.recoverAdvanced content) := by
      unfold processAdvAttempt
      rw [h]
    rw [← he]
    exact List.mem_map_of_mem _ hfi

/-- Witness for claim C6: on the file system with a missing first input, the
advanced batch still processes the present second file. -/
theorem c6_witness :
    (⟨"PRIVACY AND DATA PROTECTION POLICY.txt", "privacy.html",
        "PRIVACY AND DATA PROTECTION POLICY"⟩ : FileSpec) ∈ files_to_process ∧
      Except.ok ("privacy.html", AdvProc.recoverAdvanced "body p") ∈
        advancedMain fsMissingFirst :=
  ⟨by decide,
    (c6_amended_advanced_batch fsMissingFirst
      ⟨"PRIVACY AND DATA PROTECTION POLICY.txt", "privacy.html",
        "PRIVACY AND DATA PROTECTION POLICY"⟩ (by decide)).2.2 "body p" (by decide)⟩

/-! ## Residual control stripping (claim C7) -/

/-- Claim C7 counterexample: in the extract variant every backslash has already
been turned into a newline before the residual-control substitution runs, so a
remaining control marker is not replaced by a single space: its keyword
survives as literal text on a new line. -/
theorem c7_counterexample :
    ExtProc.extractText "good\\qc day" = "good\nqc day" := by decide

/-! ## Line deduplication in the manual variant (claim C9) -/

theorem eclLine_not_mem {acc : List (List Char)} {l l3 : List Char}
    (h : ManProc.eclLine acc l = some l3) : l3 ∉ acc := by
  unfold ManProc.eclLine at h
  split at h
  · cases h
  · split at h
    · cases h
    · split at h
      · cases h
      · split at h
        · cases h
        · split at h
          · cases h
          · split at h
            · cases h
            · rename_i hmem
              have := Option.some.inj h
              subst this
              exact hmem

theorem eclGo_nodup : ∀ (ls acc : List (List Char)), acc.Nodup → (ManProc.eclGo ls acc).Nodup := by
  intro ls
  induction ls with
  | nil =>
    intro acc h
    exact h
  | cons l ls ih =>
    intro acc h
    unfold ManProc.eclGo
    cases he : ManProc.eclLine acc l with
    | none => exact ih acc h
    | some l3 =>
      apply ih
      rw [List.nodup_append]
      refine ⟨h, List.nodup_singleton _, ?_⟩
      intro a ha hb
      rw [List.mem_singleton] at hb
      subst hb
      exact eclLine_not_mem he ha

/-- Claim C9 (line deduplication in the manual variant): the list of cleaned
lines emitted by extract_clean_text_from_lines never contains the same line
twice — a later source line whose cleaned text equals an already-emitted line
is dropped. -/
theorem c9_line_dedup (lines : List (List Char)) :
    (ManProc.extract_clean_text_from_lines lines).Nodup :=
  eclGo_nodup lines [] List.nodup_nil

end RtfSpec

namespace RtfSpec

/-! ## Trigger characters of the pipeline matchers

Every substitution stage of the two cleaning pipelines can only fire at a
backslash or at a grouping brace; on strings free of those characters all
stages are the identity. -/

/-- Backslash or brace: the only characters at which a pipeline stage fires. -/
def ctrlChar (c : Char) : Bool := c == '\\' || c == '\x7b' || c == '\x7d'

theorem hasLead_head_eq (c0 : Char) {lit : List Char} {c : Char} {cs : List Char}
    (h : hasLead lit (c :: cs) = true) (hc0 : lit.head? = some c0) : c = c0 := by
  cases lit with
  | nil => cases hc0
  | cons p ps =>
    have hp : p = c0 := by simpa using hc0
    have h2 : p = c ∧ hasLead ps cs = true := by
      simpa [hasLead, Bool.and_eq_true, beq_iff_eq] using h
    rw [← hp, h2.1]

theorem litDig_fire {lit s : List Char} {n : Nat} (h : AdvProc.litDig lit s = some n) :
    hasLead lit s = true := by
  unfold AdvProc.litDig at h
  split at h
  · assumption
  · cases h

theorem chainLitDig_fire {lit : List Char} {lits : List (List Char)} {s : List Char} {n : Nat}
    (h : AdvProc.chainLitDig (lit :: lits) s = some n) : hasLead lit s = true := by
  unfold AdvProc.chainLitDig at h
  cases hd : AdvProc.litDig lit s with
  | none => rw [hd] at h; cases h
  | some k => exact litDig_fire hd

theorem tblMatch_fire {lit s : List Char} {n : Nat} (h : AdvProc.tblMatch lit s = some n) :
    hasLead lit s = true := by
  unfold AdvProc.tblMatch at h
  split at h
  · assumption
  · cases h

theorem litLen_fire {pat s : List Char} {n : Nat} (h : litLen pat s = some n) :
    hasLead pat s = true := by
  unfold litLen at h
  split at h
  · assumption
  · cases h

theorem mRtf1_fire {s : List Char} {n : Nat} (h : AdvProc.mRtf1 s = some n) :
    hasLead AdvProc.litRtf1 s = true := by
  unfold AdvProc.mRtf1 at h
  split at h
  · assumption
  · cases h

theorem mPard_fire {s : List Char} {n : Nat} (h : AdvProc.mPard s = some n) :
    hasLead AdvProc.litPard s = true := by
  unfold AdvProc.mPard at h
  split at h
  · assumption
  · cases h

theorem mPardeftab_fire {s : List Char} {n : Nat} (h : AdvProc.mPardeftab s = some n) :
    hasLead AdvProc.litPardeftab s = true := by
  unfold AdvProc.mPardeftab at h
  split at h
  · assumption
  · cases h

theorem mBoldBare_fire {s : List Char} {n : Nat} (h : AdvProc.mBoldBare s = some n) :
    hasLead AdvProc.litF0b s = true := by
  unfold AdvProc.mBoldBare at h
  split at h
  · assumption
  · cases h

theorem mExpColortbl_fire {s : List Char} {n : Nat} (h : AdvProc.mExpColortbl s = some n) :
    hasLead AdvProc.litBraceBs s = true := by
  unfold AdvProc.mExpColortbl at h
  split at h
  · assumption
  · cases h

theorem mRtf1E_fire {s : List Char} {n : Nat} (h : ExtProc.mRtf1E s = some n) :
    hasLead AdvProc.litRtf1 s = true := by
  unfold ExtProc.mRtf1E at h
  split at h
  · assumption
  · cases h

theorem mPardeftabE_fire {s : List Char} {n : Nat} (h : ExtProc.mPardeftabE s = some n) :
    hasLead AdvProc.litPardeftab s = true := by
  unfold ExtProc.mPardeftabE at h
  split at h
  · assumption
  · cases h

theorem fireHead_of_fire {m : List Char → Option Nat} {lit : List Char} (c0 : Char)
    (hfire : ∀ {s : List Char} {n : Nat}, m s = some n → hasLead lit s = true)
    (hc0 : lit.head? = some c0) (hc : ctrlChar c0 = true) : FireHead m ctrlChar := by
  intro c cs n h
  rw [hasLead_head_eq c0 (hfire h) hc0]
  exact hc

theorem mRtf1_fh : FireHead AdvProc.mRtf1 ctrlChar :=
  fireHead_of_fire '\\' (fun h => mRtf1_fire h) (by decide) (by decide)

theorem mCocoartf_fh : FireHead AdvProc.mCocoartf ctrlChar :=
  fireHead_of_fire '\\' (fun h => litDig_fire h) (by decide) (by decide)

theorem mCocoaScale_fh : FireHead AdvProc.mCocoaScale ctrlChar :=
  fireHead_of_fire '\\' (fun h => chainLitDig_fire h) (by decide) (by decide)

theorem mFonttbl_fh : FireHead AdvProc.mFonttbl ctrlChar :=
  fireHead_of_fire '\x7b' (fun h => tblMatch_fire h) (by decide) (by decide)

theorem mColortbl_fh : FireHead AdvProc.mColortbl ctrlChar :=
  fireHead_of_fire '\x7b' (fun h => tblMatch_fire h) (by decide) (by decide)

theorem mExpColortbl_fh : FireHead AdvProc.mExpColortbl ctrlChar :=
  fireHead_of_fire '\x7b' (fun h => mExpColortbl_fire h) (by decide) (by decide)

theorem mPaperw_fh : FireHead AdvProc.mPaperw ctrlChar :=
  fireHead_of_fire '\\' (fun h => chainLitDig_fire h) (by decide) (by decide)

theorem mDeftab_fh : FireHead AdvProc.mDeftab ctrlChar :=
  fireHead_of_fire '\\' (fun h => litDig_fire h) (by decide) (by decide)

theorem mPard_fh : FireHead AdvProc.mPard ctrlChar :=
  fireHead_of_fire '\\' (fun h => mPard_fire h) (by decide) (by decide)

theorem mPardeftab_fh : FireHead AdvProc.mPardeftab ctrlChar :=
  fireHead_of_fire '\\' (fun h => mPardeftab_fire h) (by decide) (by decide)

theorem mBoldFs_fh : FireHead AdvProc.mBoldFs ctrlChar :=
  fireHead_of_fire '\\' (fun h => litDig_fire h) (by decide) (by decide)

theorem mBoldBare_fh : FireHead AdvProc.mBoldBare ctrlChar :=
  fireHead_of_fire '\\' (fun h => mBoldBare_fire h) (by decide) (by decide)

theorem mBoldEnd_fh : FireHead AdvProc.mBoldEnd ctrlChar :=
  fireHead_of_fire '\\' (fun h => litLen_fire h) (by decide) (by decide)

theorem mItalStart_fh : FireHead AdvProc.mItalStart ctrlChar :=
  fireHead_of_fire '\\' (fun h => litLen_fire h) (by decide) (by decide)

theorem mItalEnd_fh : FireHead AdvProc.mItalEnd ctrlChar :=
  fireHead_of_fire '\\' (fun h => litLen_fire h) (by decide) (by decide)

theorem mFnum_fh : FireHead AdvProc.mFnum ctrlChar :=
  fireHead_of_fire '\\' (fun h => litDig_fire h) (by decide) (by decide)

theorem mFsNum_fh : FireHead AdvProc.mFsNum ctrlChar :=
  fireHead_of_fire '\\' (fun h => litDig_fire h) (by decide) (by decide)

theorem mCfNum_fh : FireHead AdvProc.mCfNum ctrlChar :=
  fireHead_of_fire '\\' (fun h => litDig_fire h) (by decide) (by decide)

theorem mStrokec_fh : FireHead AdvProc.mStrokec ctrlChar :=
  fireHead_of_fire '\\' (fun h => litDig_fire h) (by decide) (by decide)

theorem mExpnd_fh : FireHead AdvProc.mExpnd ctrlChar :=
  fireHead_of_fire '\\' (fun h => chainLitDig_fire h) (by decide) (by decide)

theorem mOutl_fh : FireHead AdvProc.mOutl ctrlChar :=
  fireHead_of_fire '\\' (fun h => chainLitDig_fire h) (by decide) (by decide)

theorem ucRupee_fh : FireHead (litLen AdvProc.ucRupee) ctrlChar :=
  fireHead_of_fire '\\' (fun h => litLen_fire h) (by decide) (by decide)

theorem ucLineSep_fh : FireHead (litLen AdvProc.ucLineSep) ctrlChar :=
  fireHead_of_fire '\\' (fun h => litLen_fire h) (by decide) (by decide)

theorem mResidual_fh : FireHead AdvProc.mResidual ctrlChar := by
  intro c cs n h
  unfold AdvProc.mResidual at h
  split at h
  · rename_i rest heq
    have : c = '\\' := by
      have := congrArg (List.head? ·) heq
      simpa using this
    rw [this]
    decide
  · cases h

theorem braceOpen_fh : FireHead (litLen ['\x7b']) ctrlChar :=
  fireHead_of_fire '\x7b' (fun h => litLen_fire h) (by decide) (by decide)

theorem braceClose_fh : FireHead (litLen ['\x7d']) ctrlChar :=
  fireHead_of_fire '\x7d' (fun h => litLen_fire h) (by decide) (by decide)

theorem bsLit_fh : FireHead (litLen ['\\']) ctrlChar :=
  fireHead_of_fire '\\' (fun h => litLen_fire h) (by decide) (by decide)

/-- Identity of a stage on trigger-free strings, stated for rewriting. -/
theorem subst_id_fh {m : List Char → Option Nat} {p : Char → Bool} (hm : FireHead m p)
    {s : List Char} (hs : ∀ c ∈ s, p c = false) (r : List Char) : subst m r s = s :=
  subst_id_of_no_head r hm hs

/-- On a string without backslashes and braces, all substitution stages of
clean_rtf_content are the identity: the engine reduces to the line loop. -/
theorem clean_stages_id {s : List Char} (hs : ∀ c ∈ s, ctrlChar c = false) :
    AdvProc.clean_rtf_content s = joinNl (AdvProc.procLines (splitNl s)) := by
  unfold AdvProc.clean_rtf_content replaceAll
  simp only [subst_id_fh mRtf1_fh hs, subst_id_fh mCocoartf_fh hs,
    subst_id_fh mCocoaScale_fh hs, subst_id_fh mFonttbl_fh hs,
    subst_id_fh mColortbl_fh hs, subst_id_fh mExpColortbl_fh hs,
    subst_id_fh mPaperw_fh hs, subst_id_fh mDeftab_fh hs,
    subst_id_fh mPard_fh hs, subst_id_fh mPardeftab_fh hs,
    subst_id_fh mBoldFs_fh hs, subst_id_fh mBoldBare_fh hs,
    subst_id_fh mBoldEnd_fh hs, subst_id_fh mItalStart_fh hs,
    subst_id_fh mItalEnd_fh hs, subst_id_fh mFnum_fh hs,
    subst_id_fh mFsNum_fh hs, subst_id_fh mCfNum_fh hs,
    subst_id_fh mStrokec_fh hs, subst_id_fh mExpnd_fh hs,
    subst_id_fh mOutl_fh hs, subst_id_fh ucRupee_fh hs,
    subst_id_fh ucLineSep_fh hs, subst_id_fh mResidual_fh hs,
    subst_id_fh braceOpen_fh hs, subst_id_fh braceClose_fh hs,
    subst_id_fh bsLit_fh hs]

end RtfSpec

namespace RtfSpec

/-! ## Well-formed plain lines and their behaviour in the line loops -/

/-- Characters of recovered plain text: lower-case letters, space, period, the
emphasis-tag characters and the rupee glyph.  The set contains no whitespace
other than the space, no upper-case letter, no digit, no asterisk and no
trigger character of any pipeline stage. -/
def plainChar (c : Char) : Bool :=
  c.isLower || c == ' ' || c == '.' || c == '<' || c == '>' || c == '/' || c == '₹'

/-- Characters of simple input text: lower-case letters, space, period. -/
def textChar (c : Char) : Bool := c.isLower || c == ' ' || c == '.'

theorem textChar_plain {c : Char} (h : textChar c = true) : plainChar c = true := by
  unfold textChar at h
  unfold plainChar
  rcases Bool.or_eq_true_iff.mp h with h1 | h1
  · rcases Bool.or_eq_true_iff.mp h1 with h2 | h2 <;> simp [h2]
  · simp [h1]

/-- No two adjacent spaces. -/
def singleSpaced : List Char → Bool
  | [] => true
  | [_] => true
  | c :: d :: rest => !(c == ' ' && d == ' ') && singleSpaced (d :: rest)

/-- The head, when present, is not whitespace. -/
def headNotWs (l : List Char) : Bool :=
  match l with
  | [] => true
  | c :: _ => !wsChar c

/-- Neither end carries whitespace. -/
def noEdgeWs (l : List Char) : Bool := headNotWs l && headNotWs l.reverse

/-- A line that the step-8 loop passes through unchanged: plain characters,
single spacing, no edge whitespace, at least three characters. -/
def goodLine (l : List Char) : Bool :=
  l.all plainChar && singleSpaced l && noEdgeWs l && decide (3 ≤ l.length)

/-- A simple text line: as goodLine but over the simple input characters. -/
def textLine (l : List Char) : Bool :=
  l.all textChar && singleSpaced l && noEdgeWs l && decide (3 ≤ l.length)

theorem textLine_good {l : List Char} (h : textLine l = true) : goodLine l = true := by
  unfold textLine at h
  unfold goodLine
  simp only [Bool.and_eq_true] at h ⊢
  refine ⟨⟨⟨?_, h.1.1.2⟩, h.1.2⟩, h.2⟩
  rw [List.all_eq_true] at h ⊢
  exact fun c hc => textChar_plain (h.1.1.1 c hc)

theorem dropWhile_headNotWs {l : List Char} (h : headNotWs l = true) :
    l.dropWhile wsChar = l := by
  cases l with
  | nil => rfl
  | cons c cs =>
    unfold headNotWs at h
    rw [List.dropWhile_cons, if_neg]
    simp only [Bool.not_eq_true'] at h
    simp [h]

theorem pstrip_id {l : List Char} (h : noEdgeWs l = true) : pstrip l = l := by
  unfold noEdgeWs at h
  rw [Bool.and_eq_true] at h
  unfold pstrip lstrip rstrip
  rw [dropWhile_headNotWs h.1, dropWhile_headNotWs h.2, List.reverse_reverse]

theorem isLower_ne (c0 : Char) {c : Char} (h : c.isLower = true) (h0 : c0.isLower = false) :
    (c == c0) = false := by
  cases he : c == c0
  · rfl
  · rw [beq_iff_eq] at he
    subst he
    rw [h] at h0
    cases h0

theorem plain_not_ws {c : Char} (h : plainChar c = true) (hc : c ≠ ' ') : wsChar c = false := by
  unfold plainChar at h
  simp only [Bool.or_eq_true, beq_iff_eq] at h
  rcases h with (((((hA | hB) | hC) | hD) | hE) | hF) | hG
  · unfold wsChar
    rw [beq_eq_false_iff_ne.mpr hc, isLower_ne '\t' hA (by decide),
      isLower_ne '\n' hA (by decide), isLower_ne '\r' hA (by decide),
      isLower_ne '\x0b' hA (by decide), isLower_ne '\x0c' hA (by decide)]
    rfl
  · exact absurd hB hc
  · subst hC; decide
  · subst hD; decide
  · subst hE; decide
  · subst hF; decide
  · subst hG; decide

theorem plain_no_char {c c0 : Char} (hc : plainChar c = true) (h0 : plainChar c0 = false) :
    (c == c0) = false := by
  cases hcc : c == c0
  · rfl
  · rw [beq_iff_eq] at hcc
    subst hcc
    rw [hc] at h0
    cases h0

end RtfSpec

namespace RtfSpec

theorem singleSpaced_tail {c : Char} {cs : List Char} (h : singleSpaced (c :: cs) = true) :
    singleSpaced cs = true := by
  cases cs with
  | nil => rfl
  | cons d ds =>
    simp only [singleSpaced, Bool.and_eq_true] at h
    exact h.2

theorem singleSpaced_no_double {c d : Char} {ds : List Char}
    (h : singleSpaced (c :: d :: ds) = true) : (c == ' ' && d == ' ') = false := by
  simp only [singleSpaced, Bool.and_eq_true, Bool.not_eq_true'] at h
  exact h.1

theorem litLen_fireHead (pat : List Char) (c0 : Char) (hc0 : pat.head? = some c0) :
    FireHead (litLen pat) (fun c => c == c0) := by
  intro c cs n h
  rw [hasLead_head_eq c0 (litLen_fire h) hc0]
  simp

theorem markSub_id {l : List Char} (hl : ∀ c ∈ l, plainChar c = true) :
    AdvProc.markSub l = l := by
  unfold AdvProc.markSub replaceAll
  rw [subst_id_of_no_head _ (litLen_fireHead AdvProc.boldStartTok 'B' (by decide))
      (fun c hc => plain_no_char (hl c hc) (by decide)),
    subst_id_of_no_head _ (litLen_fireHead AdvProc.boldEndTok 'B' (by decide))
      (fun c hc => plain_no_char (hl c hc) (by decide)),
    subst_id_of_no_head _ (litLen_fireHead AdvProc.italStartTok 'I' (by decide))
      (fun c hc => plain_no_char (hl c hc) (by decide)),
    subst_id_of_no_head _ (litLen_fireHead AdvProc.italEndTok 'I' (by decide))
      (fun c hc => plain_no_char (hl c hc) (by decide))]

theorem squash_id : ∀ {l : List Char}, (∀ c ∈ l, plainChar c = true) →
    singleSpaced l = true → AdvProc.squash l = l := by
  intro l
  induction l with
  | nil => intro _ _; rfl
  | cons c cs ih =>
    intro hp hs
    by_cases hc : c = ' '
    · subst hc
      have htw : cs.takeWhile wsChar = [] := by
        cases cs with
        | nil => rfl
        | cons d ds =>
          have hd : (d == ' ') = false := by
            have := singleSpaced_no_double hs
            simpa using this
          apply takeWhile_cons_of_neg
          exact plain_not_ws (hp d (by simp)) (by simpa using hd)
      have hm : AdvProc.mWsRun (' ' :: cs) = some 1 := by
        show (if wsChar ' ' = true then some (((' ' :: cs)).takeWhile wsChar).length
          else none) = some 1
        rw [if_pos (by decide), List.takeWhile_cons, if_pos (by decide), htw]
        rfl
      unfold AdvProc.squash at ih ⊢
      rw [subst_cons_match _ _ _ _ _ hm]
      simp only [Nat.sub_self, List.drop_zero]
      rw [ih (fun x hx => hp x (by simp [hx])) (singleSpaced_tail hs)]
      rfl
    · have hm : AdvProc.mWsRun (c :: cs) = none := by
        show (if wsChar c = true then some (((c :: cs)).takeWhile wsChar).length
          else none) = none
        rw [if_neg (by simp [plain_not_ws (hp c (by simp)) hc])]
      unfold AdvProc.squash at ih ⊢
      rw [subst_cons_nomatch _ _ _ _ hm,
        ih (fun x hx => hp x (by simp [hx])) (singleSpaced_tail hs)]

theorem starStrip_id {l : List Char} (h : headNotWs l = true)
    (hp : ∀ c ∈ l, plainChar c = true) : AdvProc.starStrip l = l := by
  unfold AdvProc.starStrip
  cases l with
  | nil => rfl
  | cons c cs =>
    rw [List.dropWhile_cons, if_neg]
    intro hcc
    rw [Bool.or_eq_true] at hcc
    rcases hcc with h1 | h1
    · rw [plain_no_char (hp c (by simp)) (by decide)] at h1
      cases h1
    · unfold headNotWs at h
      rw [Bool.not_eq_true'] at h
      rw [h] at h1
      cases h1

theorem splitNl_cons_nl (cs : List Char) : splitNl ('\n' :: cs) = [] :: splitNl cs := by
  conv_lhs => rw [splitNl]
  rw [if_pos (by decide)]

theorem splitNl_cons_other {c : Char} (cs : List Char) (hc : (c == '\n') = false) :
    splitNl (c :: cs) =
      match splitNl cs with
      | [] => [[c]]
      | l :: ls => (c :: l) :: ls := by
  conv_lhs => rw [splitNl]
  rw [if_neg (by simp [hc])]

theorem splitNl_no_nl : ∀ {l : List Char}, '\n' ∉ l → splitNl l = [l] := by
  intro l
  induction l with
  | nil => intro _; rfl
  | cons c cs ih =>
    intro h
    have hc : (c == '\n') = false :=
      beq_eq_false_iff_ne.mpr fun he => h (by rw [he]; exact List.mem_cons_self _ _)
    rw [splitNl_cons_other cs hc, ih fun hm => h (List.mem_cons_of_mem c hm)]

theorem splitNl_line_append {l : List Char} (rest : List Char) (hl : '\n' ∉ l) :
    splitNl (l ++ '\n' :: rest) = l :: splitNl rest := by
  induction l with
  | nil =>
    show splitNl ('\n' :: rest) = [] :: splitNl rest
    exact splitNl_cons_nl rest
  | cons c cs ih =>
    have hc : (c == '\n') = false :=
      beq_eq_false_iff_ne.mpr fun he => hl (by rw [he]; exact List.mem_cons_self _ _)
    show splitNl (c :: (cs ++ '\n' :: rest)) = (c :: cs) :: splitNl rest
    rw [splitNl_cons_other _ hc, ih fun hm => hl (List.mem_cons_of_mem c hm)]

theorem splitNl_joinNl : ∀ {ls : List (List Char)}, ls ≠ [] → (∀ l ∈ ls, '\n' ∉ l) →
    splitNl (joinNl ls) = ls := by
  intro ls
  induction ls with
  | nil => intro h _; cases h rfl
  | cons l rest ih =>
    intro _ hn
    cases rest with
    | nil => exact splitNl_no_nl (hn l (by simp))
    | cons l2 rest2 =>
      show splitNl (l ++ '\n' :: joinNl (l2 :: rest2)) = _
      rw [splitNl_line_append _ (hn l (by simp)),
        ih (by simp) fun x hx => hn x (by simp [hx])]

theorem goodLine_parts {l : List Char} (h : goodLine l = true) :
    (∀ c ∈ l, plainChar c = true) ∧ singleSpaced l = true ∧ noEdgeWs l = true ∧
      3 ≤ l.length := by
  unfold goodLine at h
  simp only [Bool.and_eq_true, decide_eq_true_eq] at h
  exact ⟨List.all_eq_true.mp h.1.1.1, h.1.1.2, h.1.2, h.2⟩

theorem goodLine_ne_nil {l : List Char} (h : goodLine l = true) : l ≠ [] := by
  have := (goodLine_parts h).2.2.2
  intro he
  subst he
  simp at this

theorem procLines_cons (l : List Char) (ls : List (List Char)) :
    AdvProc.procLines (l :: ls) =
      if pstrip l == [] then AdvProc.procLines ls
      else if hasLead AdvProc.pbTok (pstrip l) then [] :: AdvProc.procLines ls
      else if (pstrip l).length < 3 then AdvProc.procLines ls
      else if AdvProc.procLineOut (pstrip l) == [] then AdvProc.procLines ls
      else AdvProc.procLineOut (pstrip l) :: AdvProc.procLines ls := rfl

/-- A good line passes through the step-8 loop unchanged. -/
theorem procLines_good {l : List Char} (ls : List (List Char)) (hl : goodLine l = true) :
    AdvProc.procLines (l :: ls) = l :: AdvProc.procLines ls := by
  obtain ⟨hall, hss, hedge, hlen⟩ := goodLine_parts hl
  have hps : pstrip l = l := pstrip_id hedge
  have hout : AdvProc.procLineOut l = l := by
    unfold AdvProc.procLineOut
    have hh : headNotWs l = true := by
      have := hedge
      unfold noEdgeWs at this
      simp only [Bool.and_eq_true] at this
      exact this.1
    rw [markSub_id hall, squash_id hall hss, starStrip_id hh hall]
  have hne : (l == []) = false := by
    cases l with
    | nil => simp at hlen
    | cons c cs => rfl
  have hpb : hasLead AdvProc.pbTok l = false := by
    cases l with
    | nil => simp at hlen
    | cons c cs =>
      cases hlead : hasLead AdvProc.pbTok (c :: cs) with
      | false => rfl
      | true =>
        have hc := hasLead_head_eq 'P' hlead (by decide)
        subst hc
        have := hall 'P' (by simp)
        rw [show plainChar 'P' = false by decide] at this
        cases this
  rw [procLines_cons, hps, if_neg (by simp [hne]), if_neg (by simp [hpb]),
    if_neg (by omega), hout, if_neg (by simp [hne])]

/-- An empty line is dropped by the step-8 loop. -/
theorem procLines_nil_cons (ls : List (List Char)) :
    AdvProc.procLines ([] :: ls) = AdvProc.procLines ls := by
  rw [procLines_cons, if_pos (by rfl)]

end RtfSpec

namespace RtfSpec

/-! ## Paragraph assembly of well-formed lines -/

theorem isLower_not_digit {c : Char} (h : c.isLower = true) : c.isDigit = false := by
  unfold Char.isLower at h
  unfold Char.isDigit
  simp only [Bool.and_eq_true, decide_eq_true_eq] at h
  have h1 := h.1
  rw [ge_iff_le, UInt32.le_def, BitVec.le_def] at h1
  have h2 : ¬ (c.val ≤ 57) := by
    intro hle
    rw [UInt32.le_def, BitVec.le_def] at hle
    simp at h1 hle
    omega
  simp [h2]

theorem plain_not_digit {c : Char} (h : plainChar c = true) : c.isDigit = false := by
  unfold plainChar at h
  simp only [Bool.or_eq_true, beq_iff_eq] at h
  rcases h with (((((hA | hB) | hC) | hD) | hE) | hF) | hG
  · exact isLower_not_digit hA
  · subst hB; decide
  · subst hC; decide
  · subst hD; decide
  · subst hE; decide
  · subst hF; decide
  · subst hG; decide

theorem hasLead_false_plain (c0 : Char) {tok L : List Char} (h0 : tok.head? = some c0)
    (hc0 : plainChar c0 = false) (hall : ∀ c ∈ L, plainChar c = true) :
    hasLead tok L = false := by
  cases L with
  | nil =>
    cases tok with
    | nil => cases h0
    | cons t ts => rfl
  | cons c cs =>
    cases hl : hasLead tok (c :: cs) with
    | false => rfl
    | true =>
      have hc := hasLead_head_eq c0 hl h0
      rw [← hc] at hc0
      rw [hall c (by simp)] at hc0
      cases hc0

theorem headNotWs_cons (c : Char) (t : List Char) : headNotWs (c :: t) = !wsChar c := rfl

theorem headNotWs_append {x : List Char} (y : List Char) (hx : x ≠ []) :
    headNotWs (x ++ y) = headNotWs x := by
  cases x with
  | nil => cases hx rfl
  | cons c cs => rfl

theorem noEdgeWs_parts {l : List Char} (h : noEdgeWs l = true) :
    headNotWs l = true ∧ headNotWs l.reverse = true := by
  unfold noEdgeWs at h
  simpa [Bool.and_eq_true] using h

theorem noEdgeWs_append {a b : List Char} (ha : noEdgeWs a = true) (hb : noEdgeWs b = true)
    (hna : a ≠ []) (hnb : b ≠ []) : noEdgeWs (a ++ ' ' :: b) = true := by
  obtain ⟨ha1, ha2⟩ := noEdgeWs_parts ha
  obtain ⟨hb1, hb2⟩ := noEdgeWs_parts hb
  unfold noEdgeWs
  rw [Bool.and_eq_true]
  constructor
  · rw [headNotWs_append _ hna]
    exact ha1
  · rw [List.reverse_append, List.reverse_cons, List.append_assoc,
      headNotWs_append _ (by simpa using hnb)]
    exact hb2

theorem singleSpaced_join {a b : List Char} (ha : singleSpaced a = true)
    (hb : singleSpaced b = true) (hlast : headNotWs a.reverse = true)
    (hhead : headNotWs b = true) : singleSpaced (a ++ ' ' :: b) = true := by
  induction a with
  | nil =>
    cases b with
    | nil => rfl
    | cons d ds =>
      simp only [List.nil_append, singleSpaced, Bool.and_eq_true]
      constructor
      · have hd : wsChar d = false := by simpa [headNotWs, Bool.not_eq_true'] using hhead
        have hde : (d == ' ') = false := by
          cases hx : d == ' ' with
          | false => rfl
          | true =>
            rw [beq_iff_eq] at hx
            subst hx
            exact absurd hd (by decide)
        simp [hde]
      · exact hb
  | cons c cs ih =>
    cases cs with
    | nil =>
      have hc : wsChar c = false := by
        simpa [List.reverse_cons, headNotWs, Bool.not_eq_true'] using hlast
      have hce : (c == ' ') = false := by
        cases hx : c == ' ' with
        | false => rfl
        | true =>
          rw [beq_iff_eq] at hx
          subst hx
          exact absurd hc (by decide)
      show singleSpaced (c :: ' ' :: b) = true
      cases b with
      | nil => simp [singleSpaced, hce]
      | cons d ds =>
        have hd : wsChar d = false := by simpa [headNotWs, Bool.not_eq_true'] using hhead
        have hde : (d == ' ') = false := by
          cases hx : d == ' ' with
          | false => rfl
          | true =>
            rw [beq_iff_eq] at hx
            subst hx
            exact absurd hd (by decide)
        simp only [singleSpaced, Bool.and_eq_true]
        exact ⟨by simp [hce], by simp [hde], hb⟩
    | cons c2 cs2 =>
      show singleSpaced (c :: c2 :: (cs2 ++ ' ' :: b)) = true
      simp only [singleSpaced, Bool.and_eq_true] at ha ⊢
      refine ⟨ha.1, ?_⟩
      have hlast2 : headNotWs (c2 :: cs2).reverse = true := by
        rw [List.reverse_cons, headNotWs_append _ (by simp)] at hlast
        exact hlast
      exact ih ha.2 hlast2

theorem joinSp_cons_merge (cur t : List Char) (ts : List (List Char)) :
    joinSp ((cur ++ ' ' :: t) :: ts) = cur ++ ' ' :: joinSp (t :: ts) := by
  cases ts with
  | nil => rfl
  | cons t2 ts2 =>
    show (cur ++ ' ' :: t) ++ ' ' :: joinSp (t2 :: ts2) = cur ++ ' ' :: (t ++ ' ' :: joinSp (t2 :: ts2))
    simp [List.append_assoc]

theorem asmParas_cons (cur l : List Char) (ls : List (List Char)) :
    AdvProc.asmParas cur (l :: ls) =
      if pstrip l == [] then
        if cur == [] then AdvProc.asmParas [] ls
        else pstrip cur :: AdvProc.asmParas [] ls
      else if cur == [] then AdvProc.asmParas (pstrip l) ls
      else AdvProc.asmParas (cur ++ ' ' :: pstrip l) ls := rfl

theorem ne_nil_beq_false {l : List Char} (h : l ≠ []) : (l == []) = false := by
  cases l with
  | nil => cases h rfl
  | cons c cs => rfl

theorem asmParas_merge :
    ∀ (ts : List (List Char)) (cur : List Char),
      (∀ t ∈ ts, t ≠ [] ∧ noEdgeWs t = true) → cur ≠ [] → noEdgeWs cur = true →
      AdvProc.asmParas cur ts = [joinSp (cur :: ts)] := by
  intro ts
  induction ts with
  | nil =>
    intro cur _ hcur hedge
    show (if cur == [] then [] else [pstrip cur]) = [joinSp [cur]]
    rw [if_neg (by simp [ne_nil_beq_false hcur]), pstrip_id hedge]
    rfl
  | cons t ts ih =>
    intro cur hts hcur hedge
    obtain ⟨htne, htedge⟩ := hts t (by simp)
    rw [asmParas_cons, pstrip_id htedge, if_neg (by simp [ne_nil_beq_false htne]),
      if_neg (by simp [ne_nil_beq_false hcur]),
      ih _ (fun x hx => hts x (by simp [hx])) (by simp [hcur]) 
        (noEdgeWs_append hedge htedge hcur htne),
      joinSp_cons_merge]
    rfl

theorem numMatch_false_plain {L : List Char} (hall : ∀ c ∈ L, plainChar c = true) :
    AdvProc.numMatch L = false := by
  cases L with
  | nil => rfl
  | cons c cs =>
    unfold AdvProc.numMatch
    rw [takeWhile_cons_of_neg _ (plain_not_digit (hall c (by simp)))]
    rfl

theorem whereasWrap_plain {L : List Char} (hall : ∀ c ∈ L, plainChar c = true) :
    AdvProc.whereasWrap L = L := by
  unfold AdvProc.whereasWrap
  rw [if_neg]
  rw [hasLead_false_plain 'W' (by decide) (by decide) hall,
    hasLead_false_plain 'A' (by decide) (by decide) hall,
    hasLead_false_plain 'N' (by decide) (by decide) hall]
  simp

theorem articleWrap_plain {L : List Char} (hall : ∀ c ∈ L, plainChar c = true) :
    AdvProc.articleWrap L = L := by
  unfold AdvProc.articleWrap
  rw [if_neg]
  rw [hasLead_false_plain 'A' (by decide) (by decide) hall]
  simp

theorem numWrap_plain {L : List Char} (hall : ∀ c ∈ L, plainChar c = true) :
    AdvProc.numWrap L = L := by
  unfold AdvProc.numWrap
  rw [if_neg]
  rw [numMatch_false_plain hall]
  simp

theorem htmlPara_plain {L : List Char} (hall : ∀ c ∈ L, plainChar c = true)
    (hss : singleSpaced L = true) (hedge : noEdgeWs L = true) (hne : L ≠ []) :
    AdvProc.htmlPara L = some L := by
  unfold AdvProc.htmlPara
  rw [if_neg]
  · rw [squash_id hall hss, whereasWrap_plain hall, articleWrap_plain hall,
      numWrap_plain hall]
  · rw [pstrip_id hedge]
    simp [ne_nil_beq_false hne]

end RtfSpec

namespace RtfSpec

theorem plain_not_ctrl {c : Char} (h : plainChar c = true) : ctrlChar c = false := by
  unfold plainChar at h
  simp only [Bool.or_eq_true, beq_iff_eq] at h
  unfold ctrlChar
  rcases h with (((((hA | hB) | hC) | hD) | hE) | hF) | hG
  · rw [isLower_ne '\\' hA (by decide), isLower_ne '\x7b' hA (by decide),
      isLower_ne '\x7d' hA (by decide)]
    rfl
  · subst hB; decide
  · subst hC; decide
  · subst hD; decide
  · subst hE; decide
  · subst hF; decide
  · subst hG; decide

theorem textLine_parts {l : List Char} (h : textLine l = true) :
    (∀ c ∈ l, textChar c = true) ∧ singleSpaced l = true ∧ noEdgeWs l = true ∧
      3 ≤ l.length := by
  unfold textLine at h
  simp only [Bool.and_eq_true, decide_eq_true_eq] at h
  exact ⟨List.all_eq_true.mp h.1.1.1, h.1.1.2, h.1.2, h.2⟩

theorem mem_joinNl {c : Char} : ∀ {ls : List (List Char)}, c ∈ joinNl ls →
    c = '\n' ∨ ∃ l ∈ ls, c ∈ l := by
  intro ls
  induction ls with
  | nil => intro h; cases h
  | cons l rest ih =>
    cases rest with
    | nil =>
      intro h
      exact Or.inr ⟨l, by simp, h⟩
    | cons l2 rest2 =>
      intro h
      have h0 : c ∈ l ++ '\n' :: joinNl (l2 :: rest2) := h
      rcases List.mem_append.mp h0 with h1 | h1
      · exact Or.inr ⟨l, by simp, h1⟩
      · rcases List.mem_cons.mp h1 with h2 | h2
        · exact Or.inl h2
        · rcases ih h2 with h3 | ⟨x, hx1, hx2⟩
          · exact Or.inl h3
          · exact Or.inr ⟨x, by simp [hx1], hx2⟩

theorem procLines_textLines : ∀ {ls : List (List Char)},
    (∀ l ∈ ls, l = [] ∨ textLine l = true) →
    AdvProc.procLines ls = ls.filter (fun l => !(l == [])) := by
  intro ls
  induction ls with
  | nil => intro _; rfl
  | cons l ls ih =>
    intro h
    rcases h l (by simp) with h1 | h1
    · subst h1
      rw [procLines_nil_cons, ih fun x hx => h x (by simp [hx])]
      rfl
    · have hlne : l ≠ [] := by
        intro he
        subst he
        have := (textLine_parts h1).2.2.2
        simp at this
      rw [procLines_good ls (textLine_good h1), ih fun x hx => h x (by simp [hx])]
      simp only [List.filter_cons, ne_nil_beq_false hlne]
      simp [hlne]

theorem joinSp_good : ∀ {ts : List (List Char)}, ts ≠ [] →
    (∀ t ∈ ts, goodLine t = true) →
    (∀ c ∈ joinSp ts, plainChar c = true) ∧ singleSpaced (joinSp ts) = true ∧
      noEdgeWs (joinSp ts) = true ∧ joinSp ts ≠ [] := by
  intro ts
  induction ts with
  | nil => intro h _; cases h rfl
  | cons t rest ih =>
    intro _ hg
    obtain ⟨hall, hss, hedge, hlen⟩ := goodLine_parts (hg t (by simp))
    have htne : t ≠ [] := goodLine_ne_nil (hg t (by simp))
    cases rest with
    | nil => exact ⟨hall, hss, hedge, htne⟩
    | cons t2 rest2 =>
      obtain ⟨ih1, ih2, ih3, ih4⟩ := ih (by simp) fun x hx => hg x (by simp [hx])
      have hj : joinSp (t :: t2 :: rest2) = t ++ ' ' :: joinSp (t2 :: rest2) := rfl
      rw [hj]
      refine ⟨?_, ?_, ?_, by simp⟩
      · intro c hc
        rcases List.mem_append.mp hc with h2 | h2
        · exact hall c h2
        · rcases List.mem_cons.mp h2 with h3 | h3
          · subst h3; decide
          · exact ih1 c h3
      · exact singleSpaced_join hss ih2 (noEdgeWs_parts hedge).2 (noEdgeWs_parts ih3).1
      · exact noEdgeWs_append hedge ih3 htne ih4

/-- Claim C5 amended: recovery of an already-clean plain-text document does not
keep blank-line paragraph boundaries: the advanced engine merges all non-empty
line groups into one single paragraph, or produces no paragraph when every
line is blank, because clean_rtf_content emits paragraph-break sentinels only
for paragraph-reset control markers and silently drops blank lines. -/
theorem c5_amended (ls : List (List Char)) (hne : ls ≠ [])
    (hls : ∀ l ∈ ls, l = [] ∨ textLine l = true) :
    AdvProc.structure_legal_document (AdvProc.clean_rtf_content (joinNl ls)) =
      if ls.filter (fun l => !(l == [])) = [] then []
      else [joinSp (ls.filter (fun l => !(l == [])))] := by
  have htext : ∀ l ∈ ls, ∀ c ∈ l, textChar c = true := by
    intro l hl c hc
    rcases hls l hl with h1 | h1
    · subst h1; cases hc
    · exact (textLine_parts h1).1 c hc
  have hnl : ∀ l ∈ ls, '\n' ∉ l := by
    intro l hl hmem
    have := htext l hl '\n' hmem
    rw [show textChar '\n' = false by decide] at this
    cases this
  have hctrl : ∀ c ∈ joinNl ls, ctrlChar c = false := by
    intro c hc
    rcases mem_joinNl hc with h1 | ⟨l, hl, hcl⟩
    · subst h1; decide
    · exact plain_not_ctrl (textChar_plain (htext l hl c hcl))
  rw [clean_stages_id hctrl, splitNl_joinNl hne hnl, procLines_textLines hls]
  rcases hkeq : ls.filter (fun l => !(l == [])) with _ | ⟨k, ks⟩
  · rw [if_pos rfl]
    rfl
  · rw [if_neg (by simp)]
    have hkg : ∀ t ∈ k :: ks, goodLine t = true := by
      intro t ht
      rw [← hkeq] at ht
      have hmem := List.mem_filter.mp ht
      rcases hls t hmem.1 with h1 | h1
      · subst h1; simp at hmem
      · exact textLine_good h1
    have hknl : ∀ t ∈ k :: ks, '\n' ∉ t := by
      intro t ht
      rw [← hkeq] at ht
      exact hnl t (List.mem_filter.mp ht).1
    obtain ⟨hkall, hkss, hkedge, hklen⟩ := goodLine_parts (hkg k (by simp))
    have hkne : k ≠ [] := goodLine_ne_nil (hkg k (by simp))
    unfold AdvProc.structure_legal_document
    rw [splitNl_joinNl (by simp) hknl, asmParas_cons, pstrip_id hkedge,
      if_neg (by simp [ne_nil_beq_false hkne]), if_pos (by rfl)]
    cases ks with
    | nil =>
      show List.filterMap AdvProc.htmlPara (if (k == []) = true then [] else [pstrip k]) = _
      rw [if_neg (by simp [ne_nil_beq_false hkne]), pstrip_id hkedge]
      rw [List.filterMap_cons, htmlPara_plain hkall hkss hkedge hkne]
      rfl
    | cons k2 ks2 =>
      rw [asmParas_merge (k2 :: ks2) k
        (fun t ht => ⟨goodLine_ne_nil (hkg t (by simp [ht])),
          (goodLine_parts (hkg t (by simp [ht]))).2.2.1⟩) hkne hkedge]
      have hJ : (∀ c ∈ joinSp (k :: k2 :: ks2), plainChar c = true) ∧
          singleSpaced (joinSp (k :: k2 :: ks2)) = true ∧
          noEdgeWs (joinSp (k :: k2 :: ks2)) = true ∧ joinSp (k :: k2 :: ks2) ≠ [] :=
        joinSp_good (by simp) hkg
      rw [List.filterMap_cons, htmlPara_plain hJ.1 hJ.2.1 hJ.2.2.1 hJ.2.2.2]
      rfl

/-- Witness for claim C5 amended: two non-empty line groups separated by a
blank line merge into a single paragraph. -/
theorem c5_amended_witness :
    ["hello world".toList, [], "goodbye now".toList] ≠ [] ∧
      AdvProc.structure_legal_document (AdvProc.clean_rtf_content
          (joinNl ["hello world".toList, [], "goodbye now".toList])) =
        [joinSp (["hello world".toList, [], "goodbye now".toList].filter
          (fun l => !(l == [])))] := by
  constructor
  · decide
  · rw [c5_amended _ (by decide) (by decide)]
    decide

end RtfSpec

namespace RtfSpec

/-! ## Suffix classification and the rupee escape (claim C8) -/

theorem suffix_append_cases {s₀ a b : List Char} (h : s₀ <:+ a ++ b) :
    s₀ <:+ b ∨ ∃ a', a' <:+ a ∧ a' ≠ [] ∧ s₀ = a' ++ b := by
  induction a with
  | nil => exact Or.inl (by simpa using h)
  | cons x xs ih =>
    rw [List.cons_append] at h
    rcases List.suffix_cons_iff.mp h with h1 | h1
    · exact Or.inr ⟨x :: xs, List.suffix_refl _, by simp, by simpa using h1⟩
    · rcases ih h1 with h2 | ⟨a', ha1, ha2, ha3⟩
      · exact Or.inl h2
      · exact Or.inr ⟨a', ha1.trans (List.suffix_cons x xs), ha2, ha3⟩

theorem nofire_safe_head {m : List Char → Option Nat} (fh : FireHead m ctrlChar)
    {c : Char} {cs : List Char} (hc : ctrlChar c = false) : m (c :: cs) = none := by
  cases hm : m (c :: cs) with
  | none => rfl
  | some n =>
    rw [fh c cs n hm] at hc
    cases hc

/-- A substitution is the identity when every suffix either starts with a safe
character or is one of finitely many sites at which the matcher fails. -/
theorem subst_eq_self_sites {m : List Char → Option Nat} (r : List Char) {i : List Char}
    {sites : List (List Char)}
    (hclass : ∀ s₀, s₀ <:+ i → s₀ = [] ∨ (∃ c cs, s₀ = c :: cs ∧ ctrlChar c = false) ∨
      s₀ ∈ sites)
    (fh : FireHead m ctrlChar) (hsites : ∀ s ∈ sites, m s = none) :
    subst m r i = i := by
  apply subst_eq_self
  intro c cs hsuf
  rcases hclass _ hsuf with he | ⟨c', cs', heq, hct⟩ | hmem
  · cases he
  · rw [heq]
    exact nofire_safe_head fh hct
  · exact hsites _ hmem

theorem sites2_none {m : List Char → Option Nat} {x y : List Char}
    (hx : m x = none) (hy : m y = none) : ∀ s ∈ [x, y], m s = none := by
  intro s hs
  rcases List.mem_cons.mp hs with rfl | hs2
  · exact hx
  · rcases List.mem_cons.mp hs2 with rfl | hs3
    · exact hy
    · cases hs3

def escRupee : List Char := "\\uc0\\u8377".toList

theorem c8_class {a b : List Char} (ha : ∀ c ∈ a, textChar c = true)
    (hb : ∀ c ∈ b, textChar c = true) :
    ∀ s₀, s₀ <:+ a ++ (escRupee ++ b) → s₀ = [] ∨
      (∃ c cs, s₀ = c :: cs ∧ ctrlChar c = false) ∨
      s₀ ∈ [escRupee ++ b, "\\u8377".toList ++ b] := by
  intro s₀ hs
  rcases suffix_append_cases hs with h1 | ⟨a', ha1, ha2, ha3⟩
  · rcases suffix_append_cases h1 with h2 | ⟨e', he1, he2, he3⟩
    · cases h2s : s₀ with
      | nil => exact Or.inl rfl
      | cons c cs =>
        subst h2s
        refine Or.inr (Or.inl ⟨c, cs, rfl, ?_⟩)
        exact plain_not_ctrl (textChar_plain (hb c (h2.subset (by simp))))
    · have hmem : e' ∈ List.tails escRupee := (List.mem_tails _ _).mpr he1
      have htails : List.tails escRupee =
          [escRupee, "uc0\\u8377".toList, "c0\\u8377".toList, "0\\u8377".toList,
            "\\u8377".toList, "u8377".toList, "8377".toList, "377".toList, "77".toList,
            "7".toList, []] := by decide
      rw [htails] at hmem
      simp only [List.mem_cons, List.not_mem_nil, or_false] at hmem
      rcases hmem with he | he | he | he | he | he | he | he | he | he | he
      · exact Or.inr (Or.inr (by rw [he3, he]; simp))
      · exact Or.inr (Or.inl ⟨'u', "c0\\u8377".toList ++ b, by rw [he3, he]; simp, by decide⟩)
      · exact Or.inr (Or.inl ⟨'c', "0\\u8377".toList ++ b, by rw [he3, he]; simp, by decide⟩)
      · exact Or.inr (Or.inl ⟨'0', "\\u8377".toList ++ b, by rw [he3, he]; simp, by decide⟩)
      · exact Or.inr (Or.inr (by rw [he3, he]; simp))
      · exact Or.inr (Or.inl ⟨'u', "8377".toList ++ b, by rw [he3, he]; simp, by decide⟩)
      · exact Or.inr (Or.inl ⟨'8', "377".toList ++ b, by rw [he3, he]; simp, by decide⟩)
      · exact Or.inr (Or.inl ⟨'3', "77".toList ++ b, by rw [he3, he]; simp, by decide⟩)
      · exact Or.inr (Or.inl ⟨'7', "7".toList ++ b, by rw [he3, he]; simp, by decide⟩)
      · exact Or.inr (Or.inl ⟨'7', b, by rw [he3, he]; simp, by decide⟩)
      · exact absurd he he2
  · cases a' with
    | nil => cases ha2 rfl
    | cons c cs =>
      refine Or.inr (Or.inl ⟨c, cs ++ (escRupee ++ b), by simp [ha3], ?_⟩)
      exact plain_not_ctrl (textChar_plain (ha c (ha1.subset (by simp))))

end RtfSpec

namespace RtfSpec

/-- Claim C8 amended: the rupee escape recovers to the literal glyph with the
surrounding content unchanged, provided the surrounding line is long enough to
survive the three-character line minimum of the line loop. -/
theorem c8_amended (a b : List Char) (ha : ∀ c ∈ a, textChar c = true)
    (hb : ∀ c ∈ b, textChar c = true) (hgood : goodLine (a ++ '₹' :: b) = true) :
    AdvProc.structure_legal_document
      (AdvProc.clean_rtf_content (a ++ (escRupee ++ b))) = [a ++ '₹' :: b] := by
  have hclass := c8_class ha hb
  have hsafeA : ∀ c ∈ a, ctrlChar c = false :=
    fun c hc => plain_not_ctrl (textChar_plain (ha c hc))
  have hsafeB : ∀ c ∈ b, ctrlChar c = false :=
    fun c hc => plain_not_ctrl (textChar_plain (hb c hc))
  obtain ⟨hallL, hssL, hedgeL, hlenL⟩ := goodLine_parts hgood
  have hsafeL : ∀ c ∈ a ++ '₹' :: b, ctrlChar c = false :=
    fun c hc => plain_not_ctrl (hallL c hc)
  have hneL : a ++ '₹' :: b ≠ [] := by simp
  have hnl : '\n' ∉ a ++ '₹' :: b := by
    intro hmem
    have := hallL '\n' hmem
    rw [show plainChar '\n' = false by decide] at this
    cases this
  have e1 : subst AdvProc.mRtf1 [] (a ++ (escRupee ++ b)) = a ++ (escRupee ++ b) :=
    subst_eq_self_sites _ hclass mRtf1_fh (sites2_none
      (by simp [AdvProc.mRtf1, escRupee, AdvProc.litRtf1, hasLead])
      (by simp [AdvProc.mRtf1, AdvProc.litRtf1, hasLead]))
  have e2 : subst AdvProc.mCocoartf [] (a ++ (escRupee ++ b)) = a ++ (escRupee ++ b) :=
    subst_eq_self_sites _ hclass mCocoartf_fh (sites2_none
      (by simp [AdvProc.mCocoartf, AdvProc.litDig, AdvProc.litCocoartf, escRupee, hasLead])
      (by simp [AdvProc.mCocoartf, AdvProc.litDig, AdvProc.litCocoartf, hasLead]))
  have e3 : subst AdvProc.mCocoaScale [] (a ++ (escRupee ++ b)) = a ++ (escRupee ++ b) :=
    subst_eq_self_sites _ hclass mCocoaScale_fh (sites2_none
      (by simp [AdvProc.mCocoaScale, AdvProc.chainLitDig, AdvProc.litDig,
        AdvProc.litCocoaScale, escRupee, hasLead])
      (by simp [AdvProc.mCocoaScale, AdvProc.chainLitDig, AdvProc.litDig,
        AdvProc.litCocoaScale, hasLead]))
  have e4 : subst AdvProc.mFonttbl [] (a ++ (escRupee ++ b)) = a ++ (escRupee ++ b) :=
    subst_eq_self_sites _ hclass mFonttbl_fh (sites2_none
      (by simp [AdvProc.mFonttbl, AdvProc.tblMatch, AdvProc.litFonttbl, escRupee, hasLead])
      (by simp [AdvProc.mFonttbl, AdvProc.tblMatch, AdvProc.litFonttbl, hasLead]))
  have e5 : subst AdvProc.mColortbl [] (a ++ (escRupee ++ b)) = a ++ (escRupee ++ b) :=
    subst_eq_self_sites _ hclass mColortbl_fh (sites2_none
      (by simp [AdvProc.mColortbl, AdvProc.tblMatch, AdvProc.litColortbl, escRupee, hasLead])
      (by simp [AdvProc.mColortbl, AdvProc.tblMatch, AdvProc.litColortbl, hasLead]))
  have e6 : subst AdvProc.mExpColortbl [] (a ++ (escRupee ++ b)) = a ++ (escRupee ++ b) :=
    subst_eq_self_sites _ hclass mExpColortbl_fh (sites2_none
      (by simp [AdvProc.mExpColortbl, AdvProc.litBraceBs, escRupee, hasLead])
      (by simp [AdvProc.mExpColortbl, AdvProc.litBraceBs, hasLead]))
  have e7 : subst AdvProc.mPaperw [] (a ++ (escRupee ++ b)) = a ++ (escRupee ++ b) :=
    subst_eq_self_sites _ hclass mPaperw_fh (sites2_none
      (by simp [AdvProc.mPaperw, AdvProc.chainLitDig, AdvProc.litDig, escRupee, hasLead])
      (by simp [AdvProc.mPaperw, AdvProc.chainLitDig, AdvProc.litDig, hasLead]))
  have e8 : subst AdvProc.mDeftab [] (a ++ (escRupee ++ b)) = a ++ (escRupee ++ b) :=
    subst_eq_self_sites _ hclass mDeftab_fh (sites2_none
      (by simp [AdvProc.mDeftab, AdvProc.litDig, AdvProc.litDeftab, escRupee, hasLead])
      (by simp [AdvProc.mDeftab, AdvProc.litDig, AdvProc.litDeftab, hasLead]))
  have e9 : subst AdvProc.mPard AdvProc.pbRepl (a ++ (escRupee ++ b)) =
      a ++ (escRupee ++ b) :=
    subst_eq_self_sites _ hclass mPard_fh (sites2_none
      (by simp [AdvProc.mPard, AdvProc.litPard, escRupee, hasLead])
      (by simp [AdvProc.mPard, AdvProc.litPard, hasLead]))
  have e10 : subst AdvProc.mPardeftab [] (a ++ (escRupee ++ b)) = a ++ (escRupee ++ b) :=
    subst_eq_self_sites _ hclass mPardeftab_fh (sites2_none
      (by simp [AdvProc.mPardeftab, AdvProc.litPardeftab, escRupee, hasLead])
      (by simp [AdvProc.mPardeftab, AdvProc.litPardeftab, hasLead]))
  have e11 : subst AdvProc.mBoldFs AdvProc.boldStartTok (a ++ (escRupee ++ b)) =
      a ++ (escRupee ++ b) :=
    subst_eq_self_sites _ hclass mBoldFs_fh (sites2_none
      (by simp [AdvProc.mBoldFs, AdvProc.litDig, AdvProc.litF0bFs, escRupee, hasLead])
      (by simp [AdvProc.mBoldFs, AdvProc.litDig, AdvProc.litF0bFs, hasLead]))
  have e12 : subst AdvProc.mBoldBare AdvProc.boldStartTok (a ++ (escRupee ++ b)) =
      a ++ (escRupee ++ b) :=
    subst_eq_self_sites _ hclass mBoldBare_fh (sites2_none
      (by simp [AdvProc.mBoldBare, AdvProc.litF0b, escRupee, hasLead])
      (by simp [AdvProc.mBoldBare, AdvProc.litF0b, hasLead]))
  have e13 : subst AdvProc.mBoldEnd AdvProc.boldEndTok (a ++ (escRupee ++ b)) =
      a ++ (escRupee ++ b) :=
    subst_eq_self_sites _ hclass mBoldEnd_fh (sites2_none
      (by simp [AdvProc.mBoldEnd, litLen, AdvProc.litF1b0, escRupee, hasLead])
      (by simp [AdvProc.mBoldEnd, litLen, AdvProc.litF1b0, hasLead]))
  have e14 : subst AdvProc.mItalStart AdvProc.italStartTok (a ++ (escRupee ++ b)) =
      a ++ (escRupee ++ b) :=
    subst_eq_self_sites _ hclass mItalStart_fh (sites2_none
      (by simp [AdvProc.mItalStart, litLen, AdvProc.litF2i, escRupee, hasLead])
      (by simp [AdvProc.mItalStart, litLen, AdvProc.litF2i, hasLead]))
  have e15 : subst AdvProc.mItalEnd AdvProc.italEndTok (a ++ (escRupee ++ b)) =
      a ++ (escRupee ++ b) :=
    subst_eq_self_sites _ hclass mItalEnd_fh (sites2_none
      (by simp [AdvProc.mItalEnd, litLen, AdvProc.litF1i0, escRupee, hasLead])
      (by simp [AdvProc.mItalEnd, litLen, AdvProc.litF1i0, hasLead]))
  have e16 : subst AdvProc.mFnum [] (a ++ (escRupee ++ b)) = a ++ (escRupee ++ b) :=
    subst_eq_self_sites _ hclass mFnum_fh (sites2_none
      (by simp [AdvProc.mFnum, AdvProc.litDig, escRupee, hasLead])
      (by simp [AdvProc.mFnum, AdvProc.litDig, hasLead]))
  have e17 : subst AdvProc.mFsNum [] (a ++ (escRupee ++ b)) = a ++ (escRupee ++ b) :=
    subst_eq_self_sites _ hclass mFsNum_fh (sites2_none
      (by simp [AdvProc.mFsNum, AdvProc.litDig, escRupee, hasLead])
      (by simp [AdvProc.mFsNum, AdvProc.litDig, hasLead]))
  have e18 : subst AdvProc.mCfNum [] (a ++ (escRupee ++ b)) = a ++ (escRupee ++ b) :=
    subst_eq_self_sites _ hclass mCfNum_fh (sites2_none
      (by simp [AdvProc.mCfNum, AdvProc.litDig, escRupee, hasLead])
      (by simp [AdvProc.mCfNum, AdvProc.litDig, hasLead]))
  have e19 : subst AdvProc.mStrokec [] (a ++ (escRupee ++ b)) = a ++ (escRupee ++ b) :=
    subst_eq_self_sites _ hclass mStrokec_fh (sites2_none
      (by simp [AdvProc.mStrokec, AdvProc.litDig, escRupee, hasLead])
      (by simp [AdvProc.mStrokec, AdvProc.litDig, hasLead]))
  have e20 : subst AdvProc.mExpnd [] (a ++ (escRupee ++ b)) = a ++ (escRupee ++ b) :=
    subst_eq_self_sites _ hclass mExpnd_fh (sites2_none
      (by simp [AdvProc.mExpnd, AdvProc.chainLitDig, AdvProc.litDig, escRupee, hasLead])
      (by simp [AdvProc.mExpnd, AdvProc.chainLitDig, AdvProc.litDig, hasLead]))
  have e21 : subst AdvProc.mOutl [] (a ++ (escRupee ++ b)) = a ++ (escRupee ++ b) :=
    subst_eq_self_sites _ hclass mOutl_fh (sites2_none
      (by simp [AdvProc.mOutl, AdvProc.chainLitDig, AdvProc.litDig, escRupee, hasLead])
      (by simp [AdvProc.mOutl, AdvProc.chainLitDig, AdvProc.litDig, hasLead]))
  have hlead : hasLead AdvProc.ucRupee (escRupee ++ b) = true := by
    have he : AdvProc.ucRupee = escRupee := rfl
    rw [he]
    exact hasLead_append_self _ _
  have e22 : subst (litLen AdvProc.ucRupee) AdvProc.rupeeCh (a ++ (escRupee ++ b)) =
      a ++ '₹' :: b := by
    rw [subst_append_nofire _ _ _ (nofire_of_head ucRupee_fh hsafeA)]
    have hm : litLen AdvProc.ucRupee ('\\' :: ("uc0\\u8377".toList ++ b)) = some 10 := by
      show litLen AdvProc.ucRupee (escRupee ++ b) = some 10
      unfold litLen
      rw [if_pos hlead]
      rfl
    rw [show escRupee ++ b = '\\' :: ("uc0\\u8377".toList ++ b) from rfl,
      subst_cons_match (litLen AdvProc.ucRupee) AdvProc.rupeeCh '\\'
        ("uc0\\u8377".toList ++ b) 10 hm,
      List.drop_left' (by decide),
      subst_id_of_no_head AdvProc.rupeeCh ucRupee_fh hsafeB]
    rfl
  have e23 : ∀ r, subst (litLen AdvProc.ucLineSep) r (a ++ '₹' :: b) = a ++ '₹' :: b :=
    subst_id_fh ucLineSep_fh hsafeL
  have e24 : ∀ r, subst AdvProc.mResidual r (a ++ '₹' :: b) = a ++ '₹' :: b :=
    subst_id_fh mResidual_fh hsafeL
  have e25 : ∀ r, subst (litLen ['\x7b']) r (a ++ '₹' :: b) = a ++ '₹' :: b :=
    subst_id_fh braceOpen_fh hsafeL
  have e26 : ∀ r, subst (litLen ['\x7d']) r (a ++ '₹' :: b) = a ++ '₹' :: b :=
    subst_id_fh braceClose_fh hsafeL
  have e27 : ∀ r, subst (litLen ['\\']) r (a ++ '₹' :: b) = a ++ '₹' :: b :=
    subst_id_fh bsLit_fh hsafeL
  unfold AdvProc.clean_rtf_content replaceAll
  simp only [e1, e2, e3, e4, e5, e6, e7, e8, e9, e10, e11, e12, e13, e14, e15, e16, e17,
    e18, e19, e20, e21, e22, e23, e24, e25, e26, e27]
  rw [splitNl_no_nl hnl, procLines_good [] hgood]
  show AdvProc.structure_legal_document (a ++ '₹' :: b) = _
  unfold AdvProc.structure_legal_document
  rw [splitNl_no_nl hnl, asmParas_cons, pstrip_id hedgeL,
    if_neg (by simp [ne_nil_beq_false hneL]), if_pos (by rfl)]
  show List.filterMap AdvProc.htmlPara
    (if ((a ++ '₹' :: b) == []) = true then [] else [pstrip (a ++ '₹' :: b)]) = _
  rw [if_neg (by simp [ne_nil_beq_false hneL]), pstrip_id hedgeL, List.filterMap_cons,
    htmlPara_plain hallL hssL hedgeL hneL]
  rfl

/-- Witness for claim C8 amended: the escape between two words of a line long
enough to survive recovers to the rupee glyph in place. -/
theorem c8_amended_witness :
    goodLine ("price ".toList ++ '₹' :: " only".toList) = true ∧
      AdvProc.structure_legal_document
        (AdvProc.clean_rtf_content ("price ".toList ++ (escRupee ++ " only".toList))) =
        ["price ".toList ++ '₹' :: " only".toList] := by
  constructor
  · decide
  · exact c8_amended "price ".toList " only".toList (by decide) (by decide) (by decide)

end RtfSpec

namespace RtfSpec

/-! ## Occurrence requirements of the pipeline matchers (claim C7)

A matcher that fires at some position needs certain characters to be present
in the string at that position: a literal-anchored matcher needs every
character of its literal, a digit-parameter matcher needs a digit, and the
residual matcher needs a backslash.  On inputs free of the required
character the corresponding stage is the identity. -/

theorem hasLead_subset : ∀ {p s : List Char}, hasLead p s = true → ∀ c ∈ p, c ∈ s := by
  intro p
  induction p with
  | nil =>
    intro s _ c hc
    exact absurd hc (List.not_mem_nil c)
  | cons x xs ih =>
    intro s h c hc
    cases s with
    | nil => simp [hasLead] at h
    | cons y ys =>
      simp only [hasLead, Bool.and_eq_true, beq_iff_eq] at h
      obtain ⟨h1, h2⟩ := h
      subst h1
      rcases List.mem_cons.mp hc with rfl | hc2
      · exact List.mem_cons_self _ _
      · exact List.mem_cons_of_mem _ (ih h2 c hc2)

theorem hasLead_mono : ∀ {p q s : List Char}, hasLead (p ++ q) s = true →
    hasLead p s = true := by
  intro p
  induction p with
  | nil =>
    intro q s _
    rfl
  | cons x xs ih =>
    intro q s h
    cases s with
    | nil => simp [hasLead] at h
    | cons y ys =>
      simp only [List.cons_append, hasLead, Bool.and_eq_true] at h ⊢
      exact ⟨h.1, ih h.2⟩

theorem litDig_digit {lit s : List Char} {n : Nat} (h : AdvProc.litDig lit s = some n) :
    ∃ c ∈ s, c.isDigit = true := by
  unfold AdvProc.litDig at h
  split at h
  · split at h
    · cases h
    · rename_i hd
      cases hx : List.takeWhile Char.isDigit (s.drop lit.length) with
      | nil => exact absurd (by simp [AdvProc.digitsLen, hx]) hd
      | cons d ds =>
        have hdmem : d ∈ List.takeWhile Char.isDigit (s.drop lit.length) := by
          rw [hx]
          exact List.mem_cons_self _ _
        refine ⟨d, ?_, List.mem_takeWhile_imp hdmem⟩
        exact List.drop_subset _ _ ((List.takeWhile_prefix _).subset hdmem)
  · cases h

theorem chainLitDig_digit {lit : List Char} {lits : List (List Char)} {s : List Char}
    {n : Nat} (h : AdvProc.chainLitDig (lit :: lits) s = some n) :
    ∃ c ∈ s, c.isDigit = true := by
  unfold AdvProc.chainLitDig at h
  cases hd : AdvProc.litDig lit s with
  | none => rw [hd] at h; cases h
  | some k => exact litDig_digit hd

theorem mResidual_bs {s : List Char} {n : Nat} (h : AdvProc.mResidual s = some n) :
    '\\' ∈ s := by
  unfold AdvProc.mResidual at h
  split at h
  · exact List.mem_cons_self _ _
  · cases h

theorem subst_id_digit_free {m : List Char → Option Nat} (r : List Char) {i : List Char}
    (hm : ∀ s n, m s = some n → ∃ c ∈ s, c.isDigit = true)
    (hi : ∀ c ∈ i, c.isDigit = false) : subst m r i = i := by
  apply subst_eq_self
  intro c cs hsuf
  cases hx : m (c :: cs) with
  | none => rfl
  | some n =>
    obtain ⟨d, hd1, hd2⟩ := hm _ _ hx
    rw [hi d (hsuf.subset hd1)] at hd2
    cases hd2

theorem subst_id_char_free {m : List Char → Option Nat} (r : List Char) (c0 : Char)
    {i : List Char} (hm : ∀ s n, m s = some n → c0 ∈ s) (hi : c0 ∉ i) :
    subst m r i = i := by
  apply subst_eq_self
  intro c cs hsuf
  cases hx : m (c :: cs) with
  | none => rfl
  | some n => exact absurd (hsuf.subset (hm _ _ hx)) hi

theorem fire_char_mem {m : List Char → Option Nat} {lit : List Char}
    (hfire : ∀ {s : List Char} {n : Nat}, m s = some n → hasLead lit s = true)
    (c0 : Char) (hc0 : c0 ∈ lit) : ∀ s n, m s = some n → c0 ∈ s :=
  fun _ _ h => hasLead_subset (hfire h) c0 hc0

theorem not_mem_digit_free {i : List Char} (hi : ∀ c ∈ i, c.isDigit = false) {c0 : Char}
    (h0 : c0.isDigit = true) : c0 ∉ i := fun hm => by
  rw [hi c0 hm] at h0
  cases h0

theorem lower_not_ctrl {c : Char} (h : c.isLower = true) : ctrlChar c = false := by
  unfold ctrlChar
  rw [isLower_ne '\\' h (by decide), isLower_ne '\x7b' h (by decide),
    isLower_ne '\x7d' h (by decide)]
  rfl

theorem sites1_none {m : List Char → Option Nat} {x : List Char} (hx : m x = none) :
    ∀ s ∈ [x], m s = none := by
  intro s hs
  rcases List.mem_cons.mp hs with rfl | hs2
  · exact hx
  · exact absurd hs2 (List.not_mem_nil s)

theorem hasLead_false_head {tok : List Char} {c0 c : Char} {cs : List Char}
    (h0 : tok.head? = some c0) (hne : (c == c0) = false) :
    hasLead tok (c :: cs) = false := by
  cases hl : hasLead tok (c :: cs) with
  | false => rfl
  | true =>
    rw [hasLead_head_eq c0 hl h0] at hne
    simp at hne

end RtfSpec

namespace RtfSpec

/-! ## The residual control word between two text runs (claim C7) -/

/-- Suffix classification for a word-shaped residual control marker between two
text runs: every suffix is empty, starts with a safe character, or is the one
site starting at the backslash of the marker. -/
theorem c7a_class {a k b : List Char} (ha : ∀ c ∈ a, textChar c = true)
    (hk : ∀ c ∈ k, Char.isLower c = true) (hb : ∀ c ∈ b, textChar c = true) :
    ∀ s₀, s₀ <:+ a ++ ('\\' :: (k ++ ' ' :: b)) → s₀ = [] ∨
      (∃ c cs, s₀ = c :: cs ∧ ctrlChar c = false) ∨ s₀ ∈ ['\\' :: (k ++ ' ' :: b)] := by
  intro s₀ hs
  rcases suffix_append_cases hs with h1 | ⟨a', ha1, ha2, ha3⟩
  · rcases List.suffix_cons_iff.mp h1 with h2 | h2
    · exact Or.inr (Or.inr (by rw [h2]; exact List.mem_cons_self _ _))
    · rcases suffix_append_cases h2 with h3 | ⟨k', hk1, hk2, hk3⟩
      · rcases List.suffix_cons_iff.mp h3 with h4 | h4
        · exact Or.inr (Or.inl ⟨' ', b, h4, by decide⟩)
        · cases hc : s₀ with
          | nil => exact Or.inl rfl
          | cons c cs =>
            subst hc
            exact Or.inr (Or.inl ⟨c, cs, rfl,
              plain_not_ctrl (textChar_plain (hb c (h4.subset (List.mem_cons_self _ _))))⟩)
      · cases k' with
        | nil => exact absurd rfl hk2
        | cons c cs =>
          refine Or.inr (Or.inl ⟨c, cs ++ (' ' :: b), by rw [hk3]; simp, ?_⟩)
          exact lower_not_ctrl (hk c (hk1.subset (List.mem_cons_self _ _)))
  · cases a' with
    | nil => exact absurd rfl ha2
    | cons c cs =>
      exact Or.inr (Or.inl ⟨c, cs ++ ('\\' :: (k ++ ' ' :: b)), by rw [ha3]; simp,
        plain_not_ctrl (textChar_plain (ha c (ha1.subset (List.mem_cons_self _ _))))⟩)

/-- The residual-control substitution replaces a backslash, a nonempty lowercase
keyword and the following space by a single space, leaving both sides intact. -/
theorem residual_sub_word {a k b : List Char} (ha : ∀ c ∈ a, ctrlChar c = false)
    (hk : ∀ c ∈ k, Char.isLower c = true) (hb : ∀ c ∈ b, ctrlChar c = false)
    (hkne : k ≠ []) (hhb : headNotWs b = true) :
    subst AdvProc.mResidual [' '] (a ++ ('\\' :: (k ++ ' ' :: b))) = a ++ ' ' :: b := by
  have halpha : ∀ c ∈ k, alphaChar c = true := by
    intro c hc
    unfold alphaChar Char.isAlpha
    simp [hk c hc]
  have htwk : (k ++ ' ' :: b).takeWhile alphaChar = k := by
    rw [takeWhile_append_of_all _ halpha, takeWhile_cons_of_neg _ (by decide),
      List.append_nil]
  have hkbeq : (k.length == 0) = false := by
    cases k with
    | nil => exact absurd rfl hkne
    | cons x xs => rfl
  have hdropk : (k ++ ' ' :: b).drop k.length = ' ' :: b := List.drop_left k (' ' :: b)
  have hdig0 : AdvProc.digitsLen (' ' :: b) = 0 := by
    unfold AdvProc.digitsLen
    rw [takeWhile_cons_of_neg _ (by decide)]
    rfl
  have htwb : b.takeWhile wsChar = [] := by
    cases b with
    | nil => rfl
    | cons d ds =>
      apply takeWhile_cons_of_neg
      rw [headNotWs_cons] at hhb
      simpa using hhb
  have htww : (' ' :: b).takeWhile wsChar = [' '] := by
    rw [List.takeWhile_cons, if_pos (by decide), htwb]
  have hstep : AdvProc.mResidual ('\\' :: (k ++ ' ' :: b)) =
      (if ((k ++ ' ' :: b).takeWhile alphaChar).length == 0 then none
       else some (1 + ((k ++ ' ' :: b).takeWhile alphaChar).length +
         AdvProc.digitsLen ((k ++ ' ' :: b).drop
           ((k ++ ' ' :: b).takeWhile alphaChar).length) +
         (((k ++ ' ' :: b).drop (((k ++ ' ' :: b).takeWhile alphaChar).length +
           AdvProc.digitsLen ((k ++ ' ' :: b).drop
             ((k ++ ' ' :: b).takeWhile alphaChar).length))).takeWhile wsChar).length)) :=
    rfl
  have hm24 : AdvProc.mResidual ('\\' :: (k ++ ' ' :: b)) = some (k.length + 2) := by
    rw [hstep, htwk]
    simp [hkbeq, hdropk, hdig0, htww]
    omega
  rw [subst_append_nofire _ _ _ (nofire_of_head mResidual_fh ha)]
  rw [subst_cons_match AdvProc.mResidual [' '] '\\' (k ++ ' ' :: b) (k.length + 2) hm24]
  have hd2 : (k ++ ' ' :: b).drop (k.length + 2 - 1) = b := by
    rw [show k.length + 2 - 1 = (k ++ [' ']).length by simp]
    rw [show k ++ ' ' :: b = (k ++ [' ']) ++ b by simp]
    exact List.drop_left _ _
  rw [hd2, subst_id_of_no_head [' '] mResidual_fh hb]
  rfl

end RtfSpec

namespace RtfSpec

/-- The advanced pipeline on a line holding one residual control word: the
marker (backslash, keyword, trailing space) becomes a single space and the
surrounding text is unchanged. -/
theorem c7_adv_residual (a k b : List Char) (ha : ∀ c ∈ a, textChar c = true)
    (hk : ∀ c ∈ k, Char.isLower c = true) (hb : ∀ c ∈ b, textChar c = true)
    (hkne : k ≠ []) (hnp : hasLead "pard".toList (k ++ ' ' :: b) = false)
    (hhb : headNotWs b = true) (hgood : goodLine (a ++ ' ' :: b) = true) :
    AdvProc.structure_legal_document (AdvProc.clean_rtf_content
      (a ++ ('\\' :: (k ++ ' ' :: b)))) = [a ++ ' ' :: b] := by
  have hclass := c7a_class ha hk hb
  have hsafeA : ∀ c ∈ a, ctrlChar c = false :=
    fun c hc => plain_not_ctrl (textChar_plain (ha c hc))
  have hsafeB : ∀ c ∈ b, ctrlChar c = false :=
    fun c hc => plain_not_ctrl (textChar_plain (hb c hc))
  obtain ⟨hallL, hssL, hedgeL, hlenL⟩ := goodLine_parts hgood
  have hsafeL : ∀ c ∈ a ++ ' ' :: b, ctrlChar c = false :=
    fun c hc => plain_not_ctrl (hallL c hc)
  have hneL : a ++ ' ' :: b ≠ [] := by simp
  have hnl : '\n' ∉ a ++ ' ' :: b := by
    intro hmem
    have := hallL '\n' hmem
    rw [show plainChar '\n' = false by decide] at this
    cases this
  have hdig : ∀ c ∈ a ++ ('\\' :: (k ++ ' ' :: b)), c.isDigit = false := by
    intro c hc
    simp only [List.mem_append, List.mem_cons] at hc
    rcases hc with hca | rfl | hck | rfl | hcb
    · exact plain_not_digit (textChar_plain (ha c hca))
    · decide
    · exact isLower_not_digit (hk c hck)
    · decide
    · exact plain_not_digit (textChar_plain (hb c hcb))
  have hbr : '\x7b' ∉ a ++ ('\\' :: (k ++ ' ' :: b)) := by
    intro hc
    simp only [List.mem_append, List.mem_cons] at hc
    rcases hc with hca | heq | hck | heq | hcb
    · exact absurd (ha _ hca) (by decide)
    · exact absurd heq (by decide)
    · exact absurd (hk _ hck) (by decide)
    · exact absurd heq (by decide)
    · exact absurd (hb _ hcb) (by decide)
  have h1m : '1' ∉ a ++ ('\\' :: (k ++ ' ' :: b)) := not_mem_digit_free hdig (by decide)
  have h0m : '0' ∉ a ++ ('\\' :: (k ++ ' ' :: b)) := not_mem_digit_free hdig (by decide)
  have h2m : '2' ∉ a ++ ('\\' :: (k ++ ' ' :: b)) := not_mem_digit_free hdig (by decide)
  have h8m : '8' ∉ a ++ ('\\' :: (k ++ ' ' :: b)) := not_mem_digit_free hdig (by decide)
  have hnp' : hasLead ['p', 'a', 'r', 'd'] (k ++ ' ' :: b) = false := hnp
  have hpard_none : AdvProc.mPard ('\\' :: (k ++ ' ' :: b)) = none := by
    cases hx : AdvProc.mPard ('\\' :: (k ++ ' ' :: b)) with
    | none => rfl
    | some n =>
      have hf : hasLead AdvProc.litPard ('\\' :: (k ++ ' ' :: b)) = true := mPard_fire hx
      have hf2 : hasLead ['p', 'a', 'r', 'd'] (k ++ ' ' :: b) = true := by
        simpa [AdvProc.litPard, hasLead] using hf
      rw [hnp'] at hf2
      cases hf2
  have hpdt_none : AdvProc.mPardeftab ('\\' :: (k ++ ' ' :: b)) = none := by
    cases hx : AdvProc.mPardeftab ('\\' :: (k ++ ' ' :: b)) with
    | none => rfl
    | some n =>
      have hf : hasLead AdvProc.litPardeftab ('\\' :: (k ++ ' ' :: b)) = true :=
        mPardeftab_fire hx
      have hf1 : hasLead ("\\pard".toList ++ "eftab".toList)
          ('\\' :: (k ++ ' ' :: b)) = true := hf
      have hf2 : hasLead ['p', 'a', 'r', 'd'] (k ++ ' ' :: b) = true := by
        simpa [hasLead] using hasLead_mono hf1
      rw [hnp'] at hf2
      cases hf2
  have e1 : subst AdvProc.mRtf1 [] (a ++ ('\\' :: (k ++ ' ' :: b))) =
      a ++ ('\\' :: (k ++ ' ' :: b)) :=
    subst_id_char_free [] '1' (fire_char_mem (fun h => mRtf1_fire h) '1' (by decide)) h1m
  have e2 : subst AdvProc.mCocoartf [] (a ++ ('\\' :: (k ++ ' ' :: b))) =
      a ++ ('\\' :: (k ++ ' ' :: b)) :=
    subst_id_digit_free [] (fun _ _ h => litDig_digit h) hdig
  have e3 : subst AdvProc.mCocoaScale [] (a ++ ('\\' :: (k ++ ' ' :: b))) =
      a ++ ('\\' :: (k ++ ' ' :: b)) :=
    subst_id_digit_free [] (fun _ _ h => chainLitDig_digit h) hdig
  have e4 : subst AdvProc.mFonttbl [] (a ++ ('\\' :: (k ++ ' ' :: b))) =
      a ++ ('\\' :: (k ++ ' ' :: b)) :=
    subst_id_char_free [] '\x7b'
      (fire_char_mem (fun h => tblMatch_fire h) '\x7b' (by decide)) hbr
  have e5 : subst AdvProc.mColortbl [] (a ++ ('\\' :: (k ++ ' ' :: b))) =
      a ++ ('\\' :: (k ++ ' ' :: b)) :=
    subst_id_char_free [] '\x7b'
      (fire_char_mem (fun h => tblMatch_fire h) '\x7b' (by decide)) hbr
  have e6 : subst AdvProc.mExpColortbl [] (a ++ ('\\' :: (k ++ ' ' :: b))) =
      a ++ ('\\' :: (k ++ ' ' :: b)) :=
    subst_id_char_free [] '\x7b'
      (fire_char_mem (fun h => mExpColortbl_fire h) '\x7b' (by decide)) hbr
  have e7 : subst AdvProc.mPaperw [] (a ++ ('\\' :: (k ++ ' ' :: b))) =
      a ++ ('\\' :: (k ++ ' ' :: b)) :=
    subst_id_digit_free [] (fun _ _ h => chainLitDig_digit h) hdig
  have e8 : subst AdvProc.mDeftab [] (a ++ ('\\' :: (k ++ ' ' :: b))) =
      a ++ ('\\' :: (k ++ ' ' :: b)) :=
    subst_id_digit_free [] (fun _ _ h => litDig_digit h) hdig
  have e9 : subst AdvProc.mPard AdvProc.pbRepl (a ++ ('\\' :: (k ++ ' ' :: b))) =
      a ++ ('\\' :: (k ++ ' ' :: b)) :=
    subst_eq_self_sites _ hclass mPard_fh (sites1_none hpard_none)
  have e10 : subst AdvProc.mPardeftab [] (a ++ ('\\' :: (k ++ ' ' :: b))) =
      a ++ ('\\' :: (k ++ ' ' :: b)) :=
    subst_eq_self_sites _ hclass mPardeftab_fh (sites1_none hpdt_none)
  have e11 : subst AdvProc.mBoldFs AdvProc.boldStartTok (a ++ ('\\' :: (k ++ ' ' :: b))) =
      a ++ ('\\' :: (k ++ ' ' :: b)) :=
    subst_id_digit_free _ (fun _ _ h => litDig_digit h) hdig
  have e12 : subst AdvProc.mBoldBare AdvProc.boldStartTok (a ++ ('\\' :: (k ++ ' ' :: b))) =
      a ++ ('\\' :: (k ++ ' ' :: b)) :=
    subst_id_char_free _ '0'
      (fire_char_mem (fun h => mBoldBare_fire h) '0' (by decide)) h0m
  have e13 : subst AdvProc.mBoldEnd AdvProc.boldEndTok (a ++ ('\\' :: (k ++ ' ' :: b))) =
      a ++ ('\\' :: (k ++ ' ' :: b)) :=
    subst_id_char_free _ '1'
      (fire_char_mem (fun h => litLen_fire h) '1' (by decide)) h1m
  have e14 : subst AdvProc.mItalStart AdvProc.italStartTok (a ++ ('\\' :: (k ++ ' ' :: b))) =
      a ++ ('\\' :: (k ++ ' ' :: b)) :=
    subst_id_char_free _ '2'
      (fire_char_mem (fun h => litLen_fire h) '2' (by decide)) h2m
  have e15 : subst AdvProc.mItalEnd AdvProc.italEndTok (a ++ ('\\' :: (k ++ ' ' :: b))) =
      a ++ ('\\' :: (k ++ ' ' :: b)) :=
    subst_id_char_free _ '1'
      (fire_char_mem (fun h => litLen_fire h) '1' (by decide)) h1m
  have e16 : subst AdvProc.mFnum [] (a ++ ('\\' :: (k ++ ' ' :: b))) =
      a ++ ('\\' :: (k ++ ' ' :: b)) :=
    subst_id_digit_free [] (fun _ _ h => litDig_digit h) hdig
  have e17 : subst AdvProc.mFsNum [] (a ++ ('\\' :: (k ++ ' ' :: b))) =
      a ++ ('\\' :: (k ++ ' ' :: b)) :=
    subst_id_digit_free [] (fun _ _ h => litDig_digit h) hdig
  have e18 : subst AdvProc.mCfNum [] (a ++ ('\\' :: (k ++ ' ' :: b))) =
      a ++ ('\\' :: (k ++ ' ' :: b)) :=
    subst_id_digit_free [] (fun _ _ h => litDig_digit h) hdig
  have e19 : subst AdvProc.mStrokec [] (a ++ ('\\' :: (k ++ ' ' :: b))) =
      a ++ ('\\' :: (k ++ ' ' :: b)) :=
    subst_id_digit_free [] (fun _ _ h => litDig_digit h) hdig
  have e20 : subst AdvProc.mExpnd [] (a ++ ('\\' :: (k ++ ' ' :: b))) =
      a ++ ('\\' :: (k ++ ' ' :: b)) :=
    subst_id_digit_free [] (fun _ _ h => chainLitDig_digit h) hdig
  have e21 : subst AdvProc.mOutl [] (a ++ ('\\' :: (k ++ ' ' :: b))) =
      a ++ ('\\' :: (k ++ ' ' :: b)) :=
    subst_id_digit_free [] (fun _ _ h => chainLitDig_digit h) hdig
  have e22 : subst (litLen AdvProc.ucRupee) AdvProc.rupeeCh
      (a ++ ('\\' :: (k ++ ' ' :: b))) = a ++ ('\\' :: (k ++ ' ' :: b)) :=
    subst_id_char_free _ '8'
      (fire_char_mem (fun h => litLen_fire h) '8' (by decide)) h8m
  have e23 : subst (litLen AdvProc.ucLineSep) ['\n']
      (a ++ ('\\' :: (k ++ ' ' :: b))) = a ++ ('\\' :: (k ++ ' ' :: b)) :=
    subst_id_char_free _ '8'
      (fire_char_mem (fun h => litLen_fire h) '8' (by decide)) h8m
  have e24 : subst AdvProc.mResidual [' '] (a ++ ('\\' :: (k ++ ' ' :: b))) =
      a ++ ' ' :: b :=
    residual_sub_word hsafeA hk hsafeB hkne hhb
  have e25 : ∀ r, subst (litLen ['\x7b']) r (a ++ ' ' :: b) = a ++ ' ' :: b :=
    subst_id_fh braceOpen_fh hsafeL
  have e26 : ∀ r, subst (litLen ['\x7d']) r (a ++ ' ' :: b) = a ++ ' ' :: b :=
    subst_id_fh braceClose_fh hsafeL
  have e27 : ∀ r, subst (litLen ['\\']) r (a ++ ' ' :: b) = a ++ ' ' :: b :=
    subst_id_fh bsLit_fh hsafeL
  unfold AdvProc.clean_rtf_content replaceAll
  simp only [e1, e2, e3, e4, e5, e6, e7, e8, e9, e10, e11, e12, e13, e14, e15, e16, e17,
    e18, e19, e20, e21, e22, e23, e24, e25, e26, e27]
  rw [splitNl_no_nl hnl, procLines_good [] hgood]
  show AdvProc.structure_legal_document (a ++ ' ' :: b) = _
  unfold AdvProc.structure_legal_document
  rw [splitNl_no_nl hnl, asmParas_cons, pstrip_id hedgeL,
    if_neg (by simp [ne_nil_beq_false hneL]), if_pos (by rfl)]
  show List.filterMap AdvProc.htmlPara
    (if ((a ++ ' ' :: b) == []) = true then [] else [pstrip (a ++ ' ' :: b)]) = _
  rw [if_neg (by simp [ne_nil_beq_false hneL]), pstrip_id hedgeL, List.filterMap_cons,
    htmlPara_plain hallL hssL hedgeL hneL]
  rfl

end RtfSpec

namespace RtfSpec

/-- The advanced pipeline on a line holding one grouping-brace pair: both braces
are deleted without inserting whitespace and the surrounding text is unchanged. -/
theorem c7_adv_braces (x y z : List Char) (hx : ∀ c ∈ x, textChar c = true)
    (hy : ∀ c ∈ y, textChar c = true) (hz : ∀ c ∈ z, textChar c = true)
    (hgood : goodLine (x ++ (y ++ z)) = true) :
    AdvProc.structure_legal_document (AdvProc.clean_rtf_content
      (x ++ ('\x7b' :: (y ++ '\x7d' :: z)))) = [x ++ (y ++ z)] := by
  obtain ⟨hallL, hssL, hedgeL, hlenL⟩ := goodLine_parts hgood
  have hsafeL : ∀ c ∈ x ++ (y ++ z), ctrlChar c = false :=
    fun c hc => plain_not_ctrl (hallL c hc)
  have hneL : x ++ (y ++ z) ≠ [] := by
    intro he
    exact absurd (goodLine_ne_nil hgood) (by simp [he])
  have hnl : '\n' ∉ x ++ (y ++ z) := by
    intro hmem
    have := hallL '\n' hmem
    rw [show plainChar '\n' = false by decide] at this
    cases this
  have hbs : '\\' ∉ x ++ ('\x7b' :: (y ++ '\x7d' :: z)) := by
    intro hc
    simp only [List.mem_append, List.mem_cons] at hc
    rcases hc with hcx | heq | hcy | heq | hcz
    · exact absurd (hx _ hcx) (by decide)
    · exact absurd heq (by decide)
    · exact absurd (hy _ hcy) (by decide)
    · exact absurd heq (by decide)
    · exact absurd (hz _ hcz) (by decide)
  have hfx : ∀ c ∈ x, (c == '\x7b') = false :=
    fun c hc => plain_no_char (textChar_plain (hx c hc)) (by decide)
  have hfree1 : ∀ c ∈ y ++ '\x7d' :: z, (c == '\x7b') = false := by
    intro c hc
    simp only [List.mem_append, List.mem_cons] at hc
    rcases hc with hcy | rfl | hcz
    · exact plain_no_char (textChar_plain (hy c hcy)) (by decide)
    · decide
    · exact plain_no_char (textChar_plain (hz c hcz)) (by decide)
  have hfxy : ∀ c ∈ x ++ y, (c == '\x7d') = false := by
    intro c hc
    rcases List.mem_append.mp hc with hcx | hcy
    · exact plain_no_char (textChar_plain (hx c hcx)) (by decide)
    · exact plain_no_char (textChar_plain (hy c hcy)) (by decide)
  have hfz : ∀ c ∈ z, (c == '\x7d') = false :=
    fun c hc => plain_no_char (textChar_plain (hz c hc)) (by decide)
  have e1 : subst AdvProc.mRtf1 [] (x ++ ('\x7b' :: (y ++ '\x7d' :: z))) =
      x ++ ('\x7b' :: (y ++ '\x7d' :: z)) :=
    subst_id_char_free [] '\\'
      (fire_char_mem (fun h => mRtf1_fire h) '\\' (by decide)) hbs
  have e2 : subst AdvProc.mCocoartf [] (x ++ ('\x7b' :: (y ++ '\x7d' :: z))) =
      x ++ ('\x7b' :: (y ++ '\x7d' :: z)) :=
    subst_id_char_free [] '\\'
      (fire_char_mem (fun h => litDig_fire h) '\\' (by decide)) hbs
  have e3 : subst AdvProc.mCocoaScale [] (x ++ ('\x7b' :: (y ++ '\x7d' :: z))) =
      x ++ ('\x7b' :: (y ++ '\x7d' :: z)) :=
    subst_id_char_free [] '\\'
      (fire_char_mem (fun h => chainLitDig_fire h) '\\' (by decide)) hbs
  have e4 : subst AdvProc.mFonttbl [] (x ++ ('\x7b' :: (y ++ '\x7d' :: z))) =
      x ++ ('\x7b' :: (y ++ '\x7d' :: z)) :=
    subst_id_char_free [] '\\'
      (fire_char_mem (fun h => tblMatch_fire h) '\\' (by decide)) hbs
  have e5 : subst AdvProc.mColortbl [] (x ++ ('\x7b' :: (y ++ '\x7d' :: z))) =
      x ++ ('\x7b' :: (y ++ '\x7d' :: z)) :=
    subst_id_char_free [] '\\'
      (fire_char_mem (fun h => tblMatch_fire h) '\\' (by decide)) hbs
  have e6 : subst AdvProc.mExpColortbl [] (x ++ ('\x7b' :: (y ++ '\x7d' :: z))) =
      x ++ ('\x7b' :: (y ++ '\x7d' :: z)) :=
    subst_id_char_free [] '\\'
      (fire_char_mem (fun h => mExpColortbl_fire h) '\\' (by decide)) hbs
  have e7 : subst AdvProc.mPaperw [] (x ++ ('\x7b' :: (y ++ '\x7d' :: z))) =
      x ++ ('\x7b' :: (y ++ '\x7d' :: z)) :=
    subst_id_char_free [] '\\'
      (fire_char_mem (fun h => chainLitDig_fire h) '\\' (by decide)) hbs
  have e8 : subst AdvProc.mDeftab [] (x ++ ('\x7b' :: (y ++ '\x7d' :: z))) =
      x ++ ('\x7b' :: (y ++ '\x7d' :: z)) :=
    subst_id_char_free [] '\\'
      (fire_char_mem (fun h => litDig_fire h) '\\' (by decide)) hbs
  have e9 : subst AdvProc.mPard AdvProc.pbRepl (x ++ ('\x7b' :: (y ++ '\x7d' :: z))) =
      x ++ ('\x7b' :: (y ++ '\x7d' :: z)) :=
    subst_id_char_free _ '\\'
      (fire_char_mem (fun h => mPard_fire h) '\\' (by decide)) hbs
  have e10 : subst AdvProc.mPardeftab [] (x ++ ('\x7b' :: (y ++ '\x7d' :: z))) =
      x ++ ('\x7b' :: (y ++ '\x7d' :: z)) :=
    subst_id_char_free [] '\\'
      (fire_char_mem (fun h => mPardeftab_fire h) '\\' (by decide)) hbs
  have e11 : subst AdvProc.mBoldFs AdvProc.boldStartTok
      (x ++ ('\x7b' :: (y ++ '\x7d' :: z))) = x ++ ('\x7b' :: (y ++ '\x7d' :: z)) :=
    subst_id_char_free _ '\\'
      (fire_char_mem (fun h => litDig_fire h) '\\' (by decide)) hbs
  have e12 : subst AdvProc.mBoldBare AdvProc.boldStartTok
      (x ++ ('\x7b' :: (y ++ '\x7d' :: z))) = x ++ ('\x7b' :: (y ++ '\x7d' :: z)) :=
    subst_id_char_free _ '\\'
      (fire_char_mem (fun h => mBoldBare_fire h) '\\' (by decide)) hbs
  have e13 : subst AdvProc.mBoldEnd AdvProc.boldEndTok
      (x ++ ('\x7b' :: (y ++ '\x7d' :: z))) = x ++ ('\x7b' :: (y ++ '\x7d' :: z)) :=
    subst_id_char_free _ '\\'
      (fire_char_mem (fun h => litLen_fire h) '\\' (by decide)) hbs
  have e14 : subst AdvProc.mItalStart AdvProc.italStartTok
      (x ++ ('\x7b' :: (y ++ '\x7d' :: z))) = x ++ ('\x7b' :: (y ++ '\x7d' :: z)) :=
    subst_id_char_free _ '\\'
      (fire_char_mem (fun h => litLen_fire h) '\\' (by decide)) hbs
  have e15 : subst AdvProc.mItalEnd AdvProc.italEndTok
      (x ++ ('\x7b' :: (y ++ '\x7d' :: z))) = x ++ ('\x7b' :: (y ++ '\x7d' :: z)) :=
    subst_id_char_free _ '\\'
      (fire_char_mem (fun h => litLen_fire h) '\\' (by decide)) hbs
  have e16 : subst AdvProc.mFnum [] (x ++ ('\x7b' :: (y ++ '\x7d' :: z))) =
      x ++ ('\x7b' :: (y ++ '\x7d' :: z)) :=
    subst_id_char_free [] '\\'
      (fire_char_mem (fun h => litDig_fire h) '\\' (by decide)) hbs
  have e17 : subst AdvProc.mFsNum [] (x ++ ('\x7b' :: (y ++ '\x7d' :: z))) =
      x ++ ('\x7b' :: (y ++ '\x7d' :: z)) :=
    subst_id_char_free [] '\\'
      (fire_char_mem (fun h => litDig_fire h) '\\' (by decide)) hbs
  have e18 : subst AdvProc.mCfNum [] (x ++ ('\x7b' :: (y ++ '\x7d' :: z))) =
      x ++ ('\x7b' :: (y ++ '\x7d' :: z)) :=
    subst_id_char_free [] '\\'
      (fire_char_mem (fun h => litDig_fire h) '\\' (by decide)) hbs
  have e19 : subst AdvProc.mStrokec [] (x ++ ('\x7b' :: (y ++ '\x7d' :: z))) =
      x ++ ('\x7b' :: (y ++ '\x7d' :: z)) :=
    subst_id_char_free [] '\\'
      (fire_char_mem (fun h => litDig_fire h) '\\' (by decide)) hbs
  have e20 : subst AdvProc.mExpnd [] (x ++ ('\x7b' :: (y ++ '\x7d' :: z))) =
      x ++ ('\x7b' :: (y ++ '\x7d' :: z)) :=
    subst_id_char_free [] '\\'
      (fire_char_mem (fun h => chainLitDig_fire h) '\\' (by decide)) hbs
  have e21 : subst AdvProc.mOutl [] (x ++ ('\x7b' :: (y ++ '\x7d' :: z))) =
      x ++ ('\x7b' :: (y ++ '\x7d' :: z)) :=
    subst_id_char_free [] '\\'
      (fire_char_mem (fun h => chainLitDig_fire h) '\\' (by decide)) hbs
  have e22 : subst (litLen AdvProc.ucRupee) AdvProc.rupeeCh
      (x ++ ('\x7b' :: (y ++ '\x7d' :: z))) = x ++ ('\x7b' :: (y ++ '\x7d' :: z)) :=
    subst_id_char_free _ '\\'
      (fire_char_mem (fun h => litLen_fire h) '\\' (by decide)) hbs
  have e23 : subst (litLen AdvProc.ucLineSep) ['\n']
      (x ++ ('\x7b' :: (y ++ '\x7d' :: z))) = x ++ ('\x7b' :: (y ++ '\x7d' :: z)) :=
    subst_id_char_free _ '\\'
      (fire_char_mem (fun h => litLen_fire h) '\\' (by decide)) hbs
  have e24 : subst AdvProc.mResidual [' '] (x ++ ('\x7b' :: (y ++ '\x7d' :: z))) =
      x ++ ('\x7b' :: (y ++ '\x7d' :: z)) :=
    subst_id_char_free _ '\\' (fun _ _ h => mResidual_bs h) hbs
  have e25 : subst (litLen ['\x7b']) [] (x ++ ('\x7b' :: (y ++ '\x7d' :: z))) =
      x ++ (y ++ '\x7d' :: z) := by
    rw [subst_append_nofire _ _ _
      (nofire_of_head (litLen_fireHead ['\x7b'] '\x7b' (by decide)) hfx)]
    have hm : litLen ['\x7b'] ('\x7b' :: (y ++ '\x7d' :: z)) = some 1 := by
      simp [litLen, hasLead]
    rw [subst_cons_match _ _ _ _ _ hm]
    simp only [Nat.sub_self, List.drop_zero]
    rw [subst_id_of_no_head [] (litLen_fireHead ['\x7b'] '\x7b' (by decide)) hfree1]
    rfl
  have e26 : subst (litLen ['\x7d']) [] (x ++ (y ++ '\x7d' :: z)) = x ++ (y ++ z) := by
    rw [show x ++ (y ++ '\x7d' :: z) = (x ++ y) ++ '\x7d' :: z by simp]
    rw [subst_append_nofire _ _ _
      (nofire_of_head (litLen_fireHead ['\x7d'] '\x7d' (by decide)) hfxy)]
    have hm : litLen ['\x7d'] ('\x7d' :: z) = some 1 := by
      simp [litLen, hasLead]
    rw [subst_cons_match _ _ _ _ _ hm]
    simp only [Nat.sub_self, List.drop_zero]
    rw [subst_id_of_no_head [] (litLen_fireHead ['\x7d'] '\x7d' (by decide)) hfz]
    simp
  have e27 : ∀ r, subst (litLen ['\\']) r (x ++ (y ++ z)) = x ++ (y ++ z) :=
    subst_id_fh bsLit_fh hsafeL
  unfold AdvProc.clean_rtf_content replaceAll
  simp only [e1, e2, e3, e4, e5, e6, e7, e8, e9, e10, e11, e12, e13, e14, e15, e16, e17,
    e18, e19, e20, e21, e22, e23, e24, e25, e26, e27]
  rw [splitNl_no_nl hnl, procLines_good [] hgood]
  show AdvProc.structure_legal_document (x ++ (y ++ z)) = _
  unfold AdvProc.structure_legal_document
  rw [splitNl_no_nl hnl, asmParas_cons, pstrip_id hedgeL,
    if_neg (by simp [ne_nil_beq_false hneL]), if_pos (by rfl)]
  show List.filterMap AdvProc.htmlPara
    (if ((x ++ (y ++ z)) == []) = true then [] else [pstrip (x ++ (y ++ z))]) = _
  rw [if_neg (by simp [ne_nil_beq_false hneL]), pstrip_id hedgeL, List.filterMap_cons,
    htmlPara_plain hallL hssL hedgeL hneL]
  rfl

end RtfSpec

namespace RtfSpec

theorem headNotWs_reverse_last (y : List Char) {x : List Char} (hx : x ≠ []) :
    headNotWs ((y ++ x).reverse) = headNotWs x.reverse := by
  rw [List.reverse_append, headNotWs_append _ (by simpa using hx)]

/-- The manual cleaner on a line holding one residual control word: the marker
is replaced by a single space and the line is kept otherwise unchanged. -/
theorem c7_man_residual (a k b : List Char) (ha : ∀ c ∈ a, textChar c = true)
    (hk : ∀ c ∈ k, Char.isLower c = true) (hb : ∀ c ∈ b, textChar c = true)
    (hane : a ≠ []) (hkne : k ≠ []) (hhb : headNotWs b = true)
    (hgood : goodLine (a ++ ' ' :: b) = true) :
    ManProc.extract_clean_text_from_lines [a ++ ('\\' :: (k ++ ' ' :: b))] =
      [a ++ ' ' :: b] := by
  obtain ⟨hallL, hssL, hedgeL, hlenL⟩ := goodLine_parts hgood
  obtain ⟨a0, as, rfl⟩ : ∃ a0 as, a = a0 :: as := by
    cases a with
    | nil => exact absurd rfl hane
    | cons p ps => exact ⟨p, ps, rfl⟩
  have ha0 : textChar a0 = true := ha a0 (List.mem_cons_self _ _)
  have hbne : b ≠ [] := by
    intro he
    subst he
    obtain ⟨h1, h2⟩ := noEdgeWs_parts hedgeL
    rw [List.reverse_append, headNotWs_append _ (by decide)] at h2
    exact absurd h2 (by decide)
  have hedgel : noEdgeWs ((a0 :: as) ++ ('\\' :: (k ++ ' ' :: b))) = true := by
    obtain ⟨h1, h2⟩ := noEdgeWs_parts hedgeL
    unfold noEdgeWs
    rw [Bool.and_eq_true]
    refine ⟨?_, ?_⟩
    · rw [headNotWs_append _ (by simp)]
      rw [headNotWs_append _ (by simp)] at h1
      exact h1
    · rw [show (a0 :: as) ++ ('\\' :: (k ++ ' ' :: b)) =
        ((a0 :: as) ++ ('\\' :: (k ++ [' ']))) ++ b by simp]
      rw [headNotWs_reverse_last _ hbne]
      rw [show (a0 :: as) ++ ' ' :: b = ((a0 :: as) ++ [' ']) ++ b by simp] at h2
      rw [headNotWs_reverse_last _ hbne] at h2
      exact h2
  have hws0 : wsChar a0 = false := by
    have h1 := (noEdgeWs_parts hedgeL).1
    rw [headNotWs_append _ (by simp), headNotWs_cons] at h1
    simpa using h1
  have hd0 : Char.isDigit a0 = false := plain_not_digit (textChar_plain ha0)
  have hlnum : ManProc.lineNumLen ((a0 :: as) ++ ('\\' :: (k ++ ' ' :: b))) = none := by
    have htw : ((a0 :: as) ++ ('\\' :: (k ++ ' ' :: b))).takeWhile wsChar = [] :=
      takeWhile_cons_of_neg _ hws0
    have htd : ((a0 :: as) ++ ('\\' :: (k ++ ' ' :: b))).takeWhile Char.isDigit = [] :=
      takeWhile_cons_of_neg _ hd0
    unfold ManProc.lineNumLen
    simp only [htw, AdvProc.digitsLen, List.length_nil, List.drop_zero, htd]
    rfl
  have hdropnum : ManProc.eclDropNum ((a0 :: as) ++ ('\\' :: (k ++ ' ' :: b))) =
      (a0 :: as) ++ ('\\' :: (k ++ ' ' :: b)) := by
    unfold ManProc.eclDropNum
    rw [hlnum]
  have hlne : (a0 :: as) ++ ('\\' :: (k ++ ' ' :: b)) ≠ [] := by simp
  have hlen3 : ¬ (((a0 :: as) ++ ('\\' :: (k ++ ' ' :: b))).length < 3) := by
    simp only [List.length_append, List.length_cons]
    omega
  have hsafeA : ∀ c ∈ a0 :: as, ctrlChar c = false :=
    fun c hc => plain_not_ctrl (textChar_plain (ha c hc))
  have hsafeB : ∀ c ∈ b, ctrlChar c = false :=
    fun c hc => plain_not_ctrl (textChar_plain (hb c hc))
  have hres : subst AdvProc.mResidual [' '] ((a0 :: as) ++ ('\\' :: (k ++ ' ' :: b))) =
      (a0 :: as) ++ ' ' :: b :=
    residual_sub_word hsafeA hk hsafeB hkne hhb
  have hnb1 : ∀ c ∈ (a0 :: as) ++ ' ' :: b, (c == '\x7b') = false :=
    fun c hc => plain_no_char (hallL c hc) (by decide)
  have hnb2 : ∀ c ∈ (a0 :: as) ++ ' ' :: b, (c == '\x7d') = false :=
    fun c hc => plain_no_char (hallL c hc) (by decide)
  have hclean : ManProc.eclClean ((a0 :: as) ++ ('\\' :: (k ++ ' ' :: b))) =
      (a0 :: as) ++ ' ' :: b := by
    unfold ManProc.eclClean
    rw [hdropnum, pstrip_id hedgel]
    unfold ManProc.cleanLine3 replaceAll
    rw [hres,
      subst_id_of_no_head [] (litLen_fireHead ['\x7b'] '\x7b' (by decide)) hnb1,
      subst_id_of_no_head [] (litLen_fireHead ['\x7d'] '\x7d' (by decide)) hnb2,
      squash_id hallL hssL, pstrip_id hedgeL]
  have hnbs0 : (a0 == '\\') = false := plain_no_char (textChar_plain ha0) (by decide)
  have hskip1 : ManProc.anyLead ManProc.skipTok1
      ((a0 :: as) ++ ('\\' :: (k ++ ' ' :: b))) = false := by
    have hp1 : hasLead ['\\', 'r', 't', 'f']
        (a0 :: (as ++ ('\\' :: (k ++ ' ' :: b)))) = false :=
      hasLead_false_head (by decide) hnbs0
    have hp2 : hasLead ['\\', 'c', 'o', 'c', 'o', 'a', 'r', 't', 'f']
        (a0 :: (as ++ ('\\' :: (k ++ ' ' :: b)))) = false :=
      hasLead_false_head (by decide) hnbs0
    have hp3 : hasLead ['\\', 'c', 'o', 'c', 'o', 'a', 't', 'e', 'x', 't', 's', 'c',
        'a', 'l', 'i', 'n', 'g'] (a0 :: (as ++ ('\\' :: (k ++ ' ' :: b)))) = false :=
      hasLead_false_head (by decide) hnbs0
    have hp4 : hasLead ['\\', 'p', 'a', 'p', 'e', 'r', 'w']
        (a0 :: (as ++ ('\\' :: (k ++ ' ' :: b)))) = false :=
      hasLead_false_head (by decide) hnbs0
    have hp5 : hasLead ['\\', 'd', 'e', 'f', 't', 'a', 'b']
        (a0 :: (as ++ ('\\' :: (k ++ ' ' :: b)))) = false :=
      hasLead_false_head (by decide) hnbs0
    simp [ManProc.anyLead, ManProc.skipTok1, hp1, hp2, hp3, hp4, hp5]
  have hnbr0 : (a0 == '\x7b') = false := plain_no_char (textChar_plain ha0) (by decide)
  have hskip2 : ManProc.anyLead ManProc.skipTok2
      (pstrip ((a0 :: as) ++ ('\\' :: (k ++ ' ' :: b)))) = false := by
    rw [pstrip_id hedgel]
    have hp1 : hasLead ['\x7b', '\\', 'f', 'o', 'n', 't', 't', 'b', 'l']
        (a0 :: (as ++ ('\\' :: (k ++ ' ' :: b)))) = false :=
      hasLead_false_head (by decide) hnbr0
    have hp2 : hasLead ['\x7b', '\\', 'c', 'o', 'l', 'o', 'r', 't', 'b', 'l']
        (a0 :: (as ++ ('\\' :: (k ++ ' ' :: b)))) = false :=
      hasLead_false_head (by decide) hnbr0
    have hp3 : hasLead ['\x7b', '\\', '*', '\\', 'e', 'x', 'p', 'a', 'n', 'd', 'e',
        'd', 'c', 'o', 'l', 'o', 'r', 't', 'b', 'l']
        (a0 :: (as ++ ('\\' :: (k ++ ' ' :: b)))) = false :=
      hasLead_false_head (by decide) hnbr0
    simp [ManProc.anyLead, ManProc.skipTok2, hp1, hp2, hp3]
  have hL5 : hasLead ['\\'] ((a0 :: as) ++ ' ' :: b) = false :=
    hasLead_false_head (by decide) hnbs0
  have hecl : ManProc.eclLine [] ((a0 :: as) ++ ('\\' :: (k ++ ' ' :: b))) =
      some ((a0 :: as) ++ ' ' :: b) := by
    unfold ManProc.eclLine
    rw [if_neg (by rw [hskip1]; exact Bool.false_ne_true)]
    rw [if_neg (by rw [hskip2]; exact Bool.false_ne_true)]
    rw [hdropnum, pstrip_id hedgel]
    rw [ne_nil_beq_false hlne, decide_eq_false hlen3]
    rw [if_neg (by simp)]
    rw [if_neg (by rw [hclean]; simp)]
    rw [if_neg (by rw [hclean, hL5]; exact Bool.false_ne_true)]
    rw [if_neg (List.not_mem_nil _)]
    rw [hclean]
  unfold ManProc.extract_clean_text_from_lines
  have hecl2 : ManProc.eclLine [] (a0 :: (as ++ '\\' :: (k ++ ' ' :: b))) =
      some (a0 :: (as ++ ' ' :: b)) := hecl
  simp [ManProc.eclGo, hecl2]

end RtfSpec

namespace RtfSpec

/-- Claim C7 amended: in the advanced pipeline a residual control marker
(backslash, keyword, trailing whitespace) is replaced by a single space so the
adjacent words stay separated, and a grouping-brace pair is deleted with no
whitespace inserted; the manual cleaner replaces a residual marker by a single
space as well.  (In the extract variant the residual-control substitution runs
after every backslash has been turned into a newline, so it never fires; that
part of the claim is refuted separately.) -/
theorem c7_amended :
    (∀ a k b : List Char, (∀ c ∈ a, textChar c = true) →
      (∀ c ∈ k, Char.isLower c = true) → (∀ c ∈ b, textChar c = true) → k ≠ [] →
      hasLead "pard".toList (k ++ ' ' :: b) = false → headNotWs b = true →
      goodLine (a ++ ' ' :: b) = true →
      AdvProc.structure_legal_document (AdvProc.clean_rtf_content
        (a ++ ('\\' :: (k ++ ' ' :: b)))) = [a ++ ' ' :: b]) ∧
    (∀ x y z : List Char, (∀ c ∈ x, textChar c = true) →
      (∀ c ∈ y, textChar c = true) → (∀ c ∈ z, textChar c = true) →
      goodLine (x ++ (y ++ z)) = true →
      AdvProc.structure_legal_document (AdvProc.clean_rtf_content
        (x ++ ('\x7b' :: (y ++ '\x7d' :: z)))) = [x ++ (y ++ z)]) ∧
    (∀ a k b : List Char, (∀ c ∈ a, textChar c = true) →
      (∀ c ∈ k, Char.isLower c = true) → (∀ c ∈ b, textChar c = true) → a ≠ [] →
      k ≠ [] → headNotWs b = true → goodLine (a ++ ' ' :: b) = true →
      ManProc.extract_clean_text_from_lines [a ++ ('\\' :: (k ++ ' ' :: b))] =
        [a ++ ' ' :: b]) :=
  ⟨fun a k b ha hk hb hkne hnp hhb hgood =>
     c7_adv_residual a k b ha hk hb hkne hnp hhb hgood,
   fun x y z hx hy hz hgood => c7_adv_braces x y z hx hy hz hgood,
   fun a k b ha hk hb hane hkne hhb hgood =>
     c7_man_residual a k b ha hk hb hane hkne hhb hgood⟩

/-- Witness for claim C7 amended: the marker in "term\qc applies." becomes a
single space in both the advanced and the manual pipeline, and the braces in
"term {inner} rest." are deleted without inserting whitespace. -/
theorem c7_amended_witness :
    AdvProc.structure_legal_document (AdvProc.clean_rtf_content
      ("term".toList ++ ('\\' :: ("qc".toList ++ ' ' :: "applies.".toList)))) =
      ["term".toList ++ ' ' :: "applies.".toList] ∧
    AdvProc.structure_legal_document (AdvProc.clean_rtf_content
      ("term ".toList ++ ('\x7b' :: ("inner".toList ++ '\x7d' :: " rest.".toList)))) =
      ["term ".toList ++ ("inner".toList ++ " rest.".toList)] ∧
    ManProc.extract_clean_text_from_lines
      ["term".toList ++ ('\\' :: ("qc".toList ++ ' ' :: "applies.".toList))] =
      ["term".toList ++ ' ' :: "applies.".toList] :=
  ⟨c7_amended.1 "term".toList "qc".toList "applies.".toList (by decide) (by decide)
     (by decide) (by decide) (by decide) (by decide) (by decide),
   c7_amended.2.1 "term ".toList "inner".toList " rest.".toList (by decide) (by decide)
     (by decide) (by decide),
   c7_amended.2.2 "term".toList "qc".toList "applies.".toList (by decide) (by decide)
     (by decide) (by decide) (by decide) (by decide) (by decide)⟩

end RtfSpec

namespace RtfSpec

/-! ## Emphasis-scanner calculus (claim C3) -/

theorem drop_len_le {l : List Char} {n f : Nat} (h : l.length ≤ f + 1) (hn : 1 ≤ n) :
    (l.drop n).length ≤ f := by
  rw [List.length_drop]
  omega

theorem tagScanF_congr : ∀ (f1 : Nat) (st : EmphState) (s : List Char) (f2 : Nat),
    s.length ≤ f1 → s.length ≤ f2 → tagScanF f1 st s = tagScanF f2 st s := by
  intro f1
  induction f1 with
  | zero =>
    intro st s f2 h1 _
    have hs : s = [] := by
      cases s with
      | nil => rfl
      | cons c cs => simp at h1
    subst hs
    cases f2 with
    | zero => rfl
    | succ g => rfl
  | succ f ih =>
    intro st s f2 h1 h2
    cases s with
    | nil =>
      cases f2 with
      | zero => rfl
      | succ g => rfl
    | cons c cs =>
      cases f2 with
      | zero => simp at h2
      | succ g =>
        have hc1 : (c :: cs).length ≤ f + 1 := h1
        have hc2 : (c :: cs).length ≤ g + 1 := h2
        simp only [tagScanF]
        by_cases hso : hasLead AdvProc.strongOpen (c :: cs) = true
        · rw [if_pos hso, if_pos hso]
          cases st with
          | closed =>
            exact ih _ _ _ (drop_len_le hc1 (by decide)) (drop_len_le hc2 (by decide))
          | inStrong => rfl
          | inEm => rfl
        · rw [if_neg hso, if_neg hso]
          by_cases hsc : hasLead AdvProc.strongClose (c :: cs) = true
          · rw [if_pos hsc, if_pos hsc]
            cases st with
            | closed => rfl
            | inStrong =>
              exact ih _ _ _ (drop_len_le hc1 (by decide)) (drop_len_le hc2 (by decide))
            | inEm => rfl
          · rw [if_neg hsc, if_neg hsc]
            by_cases heo : hasLead AdvProc.emOpen (c :: cs) = true
            · rw [if_pos heo, if_pos heo]
              cases st with
              | closed =>
                exact ih _ _ _ (drop_len_le hc1 (by decide)) (drop_len_le hc2 (by decide))
              | inStrong => rfl
              | inEm => rfl
            · rw [if_neg heo, if_neg heo]
              by_cases hec : hasLead AdvProc.emClose (c :: cs) = true
              · rw [if_pos hec, if_pos hec]
                cases st with
                | closed => rfl
                | inStrong => rfl
                | inEm =>
                  exact ih _ _ _ (drop_len_le hc1 (by decide)) (drop_len_le hc2 (by decide))
              · rw [if_neg hec, if_neg hec]
                exact ih _ _ _ (by simp at hc1 ⊢; omega) (by simp at hc2 ⊢; omega)

/-- The emphasis scan with just enough fuel. -/
def tagScan (st : EmphState) (s : List Char) : Option EmphState := tagScanF s.length st s

theorem tagScan_skip {c : Char} (hc : (c == '<') = false) (st : EmphState)
    (cs : List Char) : tagScan st (c :: cs) = tagScan st cs := by
  have h1 : hasLead AdvProc.strongOpen (c :: cs) = false := hasLead_false_head (by decide) hc
  have h2 : hasLead AdvProc.strongClose (c :: cs) = false := hasLead_false_head (by decide) hc
  have h3 : hasLead AdvProc.emOpen (c :: cs) = false := hasLead_false_head (by decide) hc
  have h4 : hasLead AdvProc.emClose (c :: cs) = false := hasLead_false_head (by decide) hc
  show tagScanF (c :: cs).length st (c :: cs) = tagScanF cs.length st cs
  rw [List.length_cons]
  cases st <;>
    · conv_lhs => rw [tagScanF]
      rw [if_neg (by rw [h1]; exact Bool.false_ne_true),
        if_neg (by rw [h2]; exact Bool.false_ne_true),
        if_neg (by rw [h3]; exact Bool.false_ne_true),
        if_neg (by rw [h4]; exact Bool.false_ne_true)]

theorem tagScan_skip_run {w : List Char} (hw : ∀ c ∈ w, (c == '<') = false)
    (st : EmphState) (X : List Char) : tagScan st (w ++ X) = tagScan st X := by
  induction w with
  | nil => rfl
  | cons c cs ih =>
    rw [List.cons_append, tagScan_skip (hw c (by simp)),
      ih fun d hd => hw d (by simp [hd])]

theorem tagScan_safe_all {w : List Char} (hw : ∀ c ∈ w, (c == '<') = false)
    (st : EmphState) : tagScan st w = some st := by
  have h := tagScan_skip_run hw st []
  rw [List.append_nil] at h
  rw [h]
  cases st <;> rfl

theorem tagScan_strongOpen (X : List Char) :
    tagScan EmphState.closed (AdvProc.strongOpen ++ X) =
      tagScan EmphState.inStrong X := by
  show tagScanF (AdvProc.strongOpen ++ X).length EmphState.closed
    ('<' :: ("strong>".toList ++ X)) = tagScanF X.length EmphState.inStrong X
  have hl : (AdvProc.strongOpen ++ X).length = X.length + 8 := by
    rw [List.length_append]
    have : AdvProc.strongOpen.length = 8 := by decide
    omega
  rw [hl]
  have hso : hasLead AdvProc.strongOpen ('<' :: ("strong>".toList ++ X)) = true :=
    hasLead_append_self AdvProc.strongOpen X
  conv_lhs => rw [tagScanF]
  rw [if_pos hso]
  show tagScanF (X.length + 7) EmphState.inStrong
    (('<' :: ("strong>".toList ++ X)).drop AdvProc.strongOpen.length) = _
  have hdrop : ('<' :: ("strong>".toList ++ X)).drop AdvProc.strongOpen.length = X := by
    show (AdvProc.strongOpen ++ X).drop AdvProc.strongOpen.length = X
    exact List.drop_left _ _
  rw [hdrop]
  exact tagScanF_congr _ _ _ _ (by omega) (Nat.le_refl _)

theorem tagScan_strongClose (X : List Char) :
    tagScan EmphState.inStrong (AdvProc.strongClose ++ X) =
      tagScan EmphState.closed X := by
  show tagScanF (AdvProc.strongClose ++ X).length EmphState.inStrong
    ('<' :: ("/strong>".toList ++ X)) = tagScanF X.length EmphState.closed X
  have hl : (AdvProc.strongClose ++ X).length = X.length + 9 := by
    rw [List.length_append]
    have : AdvProc.strongClose.length = 9 := by decide
    omega
  rw [hl]
  have hno : hasLead AdvProc.strongOpen ('<' :: ("/strong>".toList ++ X)) = false := by
    simp [AdvProc.strongOpen, hasLead]
  have hsc : hasLead AdvProc.strongClose ('<' :: ("/strong>".toList ++ X)) = true :=
    hasLead_append_self AdvProc.strongClose X
  conv_lhs => rw [tagScanF]
  rw [if_neg (by rw [hno]; exact Bool.false_ne_true), if_pos hsc]
  show tagScanF (X.length + 8) EmphState.closed
    (('<' :: ("/strong>".toList ++ X)).drop AdvProc.strongClose.length) = _
  have hdrop : ('<' :: ("/strong>".toList ++ X)).drop AdvProc.strongClose.length = X := by
    show (AdvProc.strongClose ++ X).drop AdvProc.strongClose.length = X
    exact List.drop_left _ _
  rw [hdrop]
  exact tagScanF_congr _ _ _ _ (by omega) (Nat.le_refl _)

end RtfSpec

namespace RtfSpec

/-! ## Classification builders and text facts for the paired-emphasis trace -/

theorem textChar_ne (c0 : Char) {c : Char} (h : textChar c = true)
    (h0 : c0.isLower = false) (h1 : (' ' == c0) = false) (h2 : ('.' == c0) = false) :
    (c == c0) = false := by
  unfold textChar at h
  simp only [Bool.or_eq_true, beq_iff_eq] at h
  rcases h with (hA | hB) | hC
  · exact isLower_ne c0 hA h0
  · subst hB; exact h1
  · subst hC; exact h2

theorem singleSpaced_append {a b : List Char} (ha : singleSpaced a = true)
    (hb : singleSpaced b = true) (hlast : headNotWs a.reverse = true)
    (hhead : headNotWs b = true) : singleSpaced (a ++ b) = true := by
  induction a with
  | nil => simpa using hb
  | cons c cs ih =>
    cases cs with
    | nil =>
      cases b with
      | nil => simpa using ha
      | cons d ds =>
        show singleSpaced (c :: d :: ds) = true
        simp only [singleSpaced, Bool.and_eq_true]
        refine ⟨?_, hb⟩
        have hc : wsChar c = false := by
          simpa [headNotWs, Bool.not_eq_true'] using hlast
        have hce : (c == ' ') = false := by
          cases hx : c == ' ' with
          | false => rfl
          | true =>
            rw [beq_iff_eq] at hx
            subst hx
            exact absurd hc (by decide)
        simp [hce]
    | cons c2 cs2 =>
      show singleSpaced (c :: c2 :: (cs2 ++ b)) = true
      simp only [singleSpaced, Bool.and_eq_true] at ha ⊢
      refine ⟨ha.1, ?_⟩
      have hlast2 : headNotWs (c2 :: cs2).reverse = true := by
        rw [List.reverse_cons, headNotWs_append _ (by simp)] at hlast
        exact hlast
      exact ih ha.2 hlast2

theorem class_of_safe {u : List Char} (hu : ∀ c ∈ u, ctrlChar c = false)
    (sites : List (List Char)) :
    ∀ s₀, s₀ <:+ u → s₀ = [] ∨ (∃ c cs, s₀ = c :: cs ∧ ctrlChar c = false) ∨
      s₀ ∈ sites := by
  intro s₀ hs
  cases hc : s₀ with
  | nil => exact Or.inl rfl
  | cons c cs =>
    subst hc
    exact Or.inr (Or.inl ⟨c, cs, rfl, hu c (hs.subset (List.mem_cons_self _ _))⟩)

theorem class_append_safe {w : List Char} (hw : ∀ c ∈ w, ctrlChar c = false)
    {X : List Char} {sites : List (List Char)}
    (hX : ∀ s₀, s₀ <:+ X → s₀ = [] ∨ (∃ c cs, s₀ = c :: cs ∧ ctrlChar c = false) ∨
      s₀ ∈ sites) :
    ∀ s₀, s₀ <:+ w ++ X → s₀ = [] ∨ (∃ c cs, s₀ = c :: cs ∧ ctrlChar c = false) ∨
      s₀ ∈ sites := by
  intro s₀ hs
  rcases suffix_append_cases hs with h1 | ⟨a', ha1, ha2, ha3⟩
  · exact hX s₀ h1
  · cases a' with
    | nil => exact absurd rfl ha2
    | cons c cs =>
      exact Or.inr (Or.inl ⟨c, cs ++ X, by rw [ha3]; simp,
        hw c (ha1.subset (List.mem_cons_self _ _))⟩)

theorem sites5_none {m : List Char → Option Nat} {x1 x2 x3 x4 x5 : List Char}
    (h1 : m x1 = none) (h2 : m x2 = none) (h3 : m x3 = none) (h4 : m x4 = none)
    (h5 : m x5 = none) : ∀ s ∈ [x1, x2, x3, x4, x5], m s = none := by
  intro s hs
  simp only [List.mem_cons, List.not_mem_nil, or_false] at hs
  rcases hs with rfl | rfl | rfl | rfl | rfl
  · exact h1
  · exact h2
  · exact h3
  · exact h4
  · exact h5

/-- Suffix classification of the closing bold switch followed by text. -/
theorem c3_classQ {u : List Char} (hu : ∀ c ∈ u, textChar c = true) :
    ∀ s₀, s₀ <:+ "\\f1\\b0 ".toList ++ u → s₀ = [] ∨
      (∃ c cs, s₀ = c :: cs ∧ ctrlChar c = false) ∨
      s₀ ∈ ["\\f1\\b0 ".toList ++ u, "\\b0 ".toList ++ u] := by
  intro s₀ hs
  rcases suffix_append_cases hs with h1 | ⟨a', ha1, ha2, ha3⟩
  · exact class_of_safe (fun c hc => plain_not_ctrl (textChar_plain (hu c hc))) _ s₀ h1
  · have hmem : a' ∈ List.tails ("\\f1\\b0 ".toList) := (List.mem_tails _ _).mpr ha1
    have htails : List.tails ("\\f1\\b0 ".toList) =
        ["\\f1\\b0 ".toList, "f1\\b0 ".toList, "1\\b0 ".toList, "\\b0 ".toList,
          "b0 ".toList, "0 ".toList, " ".toList, []] := by decide
    rw [htails] at hmem
    simp only [List.mem_cons, List.not_mem_nil, or_false] at hmem
    rcases hmem with he | he | he | he | he | he | he | he
    · exact Or.inr (Or.inr (by rw [ha3, he]; simp))
    · exact Or.inr (Or.inl ⟨'f', "1\\b0 ".toList ++ u, by rw [ha3, he]; simp, by decide⟩)
    · exact Or.inr (Or.inl ⟨'1', "\\b0 ".toList ++ u, by rw [ha3, he]; simp, by decide⟩)
    · exact Or.inr (Or.inr (by rw [ha3, he]; simp))
    · exact Or.inr (Or.inl ⟨'b', "0 ".toList ++ u, by rw [ha3, he]; simp, by decide⟩)
    · exact Or.inr (Or.inl ⟨'0', " ".toList ++ u, by rw [ha3, he]; simp, by decide⟩)
    · exact Or.inr (Or.inl ⟨' ', u, by rw [ha3, he]; simp, by decide⟩)
    · exact absurd he ha2

/-- Suffix classification of the paired-emphasis input: empty, safe head, or one
of the five backslash sites. -/
theorem c3_class {t u : List Char} (ht : ∀ c ∈ t, textChar c = true)
    (hu : ∀ c ∈ u, textChar c = true) :
    ∀ s₀, s₀ <:+ "\\f0\\b\\fs24 ".toList ++ (t ++ ("\\f1\\b0 ".toList ++ u)) →
      s₀ = [] ∨ (∃ c cs, s₀ = c :: cs ∧ ctrlChar c = false) ∨
      s₀ ∈ ["\\f0\\b\\fs24 ".toList ++ (t ++ ("\\f1\\b0 ".toList ++ u)),
        "\\b\\fs24 ".toList ++ (t ++ ("\\f1\\b0 ".toList ++ u)),
        "\\fs24 ".toList ++ (t ++ ("\\f1\\b0 ".toList ++ u)),
        "\\f1\\b0 ".toList ++ u, "\\b0 ".toList ++ u] := by
  intro s₀ hs
  rcases suffix_append_cases hs with h1 | ⟨a', ha1, ha2, ha3⟩
  · rcases class_append_safe (fun c hc => plain_not_ctrl (textChar_plain (ht c hc)))
        (c3_classQ hu) s₀ h1 with he | hsafe | hmem
    · exact Or.inl he
    · exact Or.inr (Or.inl hsafe)
    · simp only [List.mem_cons, List.not_mem_nil, or_false] at hmem
      rcases hmem with rfl | rfl
      · exact Or.inr (Or.inr (by simp))
      · exact Or.inr (Or.inr (by simp))
  · have hmem : a' ∈ List.tails ("\\f0\\b\\fs24 ".toList) := (List.mem_tails _ _).mpr ha1
    have htails : List.tails ("\\f0\\b\\fs24 ".toList) =
        ["\\f0\\b\\fs24 ".toList, "f0\\b\\fs24 ".toList, "0\\b\\fs24 ".toList,
          "\\b\\fs24 ".toList, "b\\fs24 ".toList, "\\fs24 ".toList, "fs24 ".toList,
          "s24 ".toList, "24 ".toList, "4 ".toList, " ".toList, []] := by decide
    rw [htails] at hmem
    simp only [List.mem_cons, List.not_mem_nil, or_false] at hmem
    rcases hmem with he | he | he | he | he | he | he | he | he | he | he | he
    · exact Or.inr (Or.inr (by rw [ha3, he]; simp))
    · exact Or.inr (Or.inl ⟨'f', "0\\b\\fs24 ".toList ++ (t ++ ("\\f1\\b0 ".toList ++ u)),
        by rw [ha3, he]; simp, by decide⟩)
    · exact Or.inr (Or.inl ⟨'0', "\\b\\fs24 ".toList ++ (t ++ ("\\f1\\b0 ".toList ++ u)),
        by rw [ha3, he]; simp, by decide⟩)
    · exact Or.inr (Or.inr (by rw [ha3, he]; simp))
    · exact Or.inr (Or.inl ⟨'b', "\\fs24 ".toList ++ (t ++ ("\\f1\\b0 ".toList ++ u)),
        by rw [ha3, he]; simp, by decide⟩)
    · exact Or.inr (Or.inr (by rw [ha3, he]; simp))
    · exact Or.inr (Or.inl ⟨'f', "s24 ".toList ++ (t ++ ("\\f1\\b0 ".toList ++ u)),
        by rw [ha3, he]; simp, by decide⟩)
    · exact Or.inr (Or.inl ⟨'s', "24 ".toList ++ (t ++ ("\\f1\\b0 ".toList ++ u)),
        by rw [ha3, he]; simp, by decide⟩)
    · exact Or.inr (Or.inl ⟨'2', "4 ".toList ++ (t ++ ("\\f1\\b0 ".toList ++ u)),
        by rw [ha3, he]; simp, by decide⟩)
    · exact Or.inr (Or.inl ⟨'4', " ".toList ++ (t ++ ("\\f1\\b0 ".toList ++ u)),
        by rw [ha3, he]; simp, by decide⟩)
    · exact Or.inr (Or.inl ⟨' ', t ++ ("\\f1\\b0 ".toList ++ u),
        by rw [ha3, he]; simp, by decide⟩)
    · exact absurd he ha2

end RtfSpec

namespace RtfSpec

/-- The step-8 line processing of the marker line: the bold markers become
strong tags and nothing else changes. -/
theorem c3_procLineOut (t u : List Char) (ht : ∀ c ∈ t, textChar c = true)
    (hu : ∀ c ∈ u, textChar c = true) (htne : t ≠ [])
    (hsst : singleSpaced t = true) (hssu : singleSpaced u = true)
    (hedget : noEdgeWs t = true) (hedgeu : noEdgeWs u = true) :
    AdvProc.procLineOut
      (AdvProc.boldStartTok ++ (' ' :: (t ++ (AdvProc.boldEndTok ++ (' ' :: u))))) =
      AdvProc.strongOpen ++ (' ' :: (t ++ (AdvProc.strongClose ++ (' ' :: u)))) := by
  have hfireB : FireHead (litLen AdvProc.boldStartTok) (fun c => c == 'B') :=
    litLen_fireHead _ 'B' (by decide)
  have hfireBE : FireHead (litLen AdvProc.boldEndTok) (fun c => c == 'B') :=
    litLen_fireHead _ 'B' (by decide)
  have hSpTfree : ∀ c ∈ ' ' :: t, (c == 'B') = false := by
    intro c hc
    rcases List.mem_cons.mp hc with rfl | hc2
    · decide
    · exact textChar_ne 'B' (ht c hc2) (by decide) (by decide) (by decide)
  have hOEfree : ∀ c ∈ "OLD_END".toList ++ (' ' :: u), (c == 'B') = false := by
    intro c hc
    rcases List.mem_append.mp hc with h | h
    · exact (show ∀ x ∈ "OLD_END".toList, (x == 'B') = false by decide) c h
    · rcases List.mem_cons.mp h with rfl | h2
      · decide
      · exact textChar_ne 'B' (hu c h2) (by decide) (by decide) (by decide)
  have hSpUfree : ∀ c ∈ ' ' :: u, (c == 'B') = false := by
    intro c hc
    rcases List.mem_cons.mp hc with rfl | hc2
    · decide
    · exact textChar_ne 'B' (hu c hc2) (by decide) (by decide) (by decide)
  have hSoSpT : ∀ c ∈ AdvProc.strongOpen ++ (' ' :: t), (c == 'B') = false := by
    intro c hc
    rcases List.mem_append.mp hc with h | h
    · exact (show ∀ x ∈ AdvProc.strongOpen, (x == 'B') = false by decide) c h
    · exact hSpTfree c h
  have hm1 : litLen AdvProc.boldStartTok
      ('B' :: ("OLD_START".toList ++ (' ' :: (t ++ (AdvProc.boldEndTok ++ (' ' :: u)))))) =
      some 10 := by
    show litLen AdvProc.boldStartTok
      (AdvProc.boldStartTok ++ (' ' :: (t ++ (AdvProc.boldEndTok ++ (' ' :: u))))) = some 10
    unfold litLen
    rw [if_pos (hasLead_append_self _ _)]
    rfl
  have hnm1 : litLen AdvProc.boldStartTok ('B' :: ("OLD_END".toList ++ (' ' :: u))) =
      none := by
    simp [litLen, AdvProc.boldStartTok, hasLead]
  have m1 : subst (litLen AdvProc.boldStartTok) AdvProc.strongOpen
      (AdvProc.boldStartTok ++ (' ' :: (t ++ (AdvProc.boldEndTok ++ (' ' :: u))))) =
      AdvProc.strongOpen ++ (' ' :: (t ++ (AdvProc.boldEndTok ++ (' ' :: u)))) := by
    rw [show AdvProc.boldStartTok ++ (' ' :: (t ++ (AdvProc.boldEndTok ++ (' ' :: u)))) =
        'B' :: ("OLD_START".toList ++ (' ' :: (t ++ (AdvProc.boldEndTok ++ (' ' :: u)))))
        from rfl,
      subst_cons_match _ _ 'B'
        ("OLD_START".toList ++ (' ' :: (t ++ (AdvProc.boldEndTok ++ (' ' :: u))))) 10 hm1,
      List.drop_left' (by decide)]
    congr 1
    rw [show ' ' :: (t ++ (AdvProc.boldEndTok ++ (' ' :: u))) =
        (' ' :: t) ++ (AdvProc.boldEndTok ++ (' ' :: u)) by simp,
      subst_append_nofire _ _ _ (nofire_of_head hfireB hSpTfree),
      show AdvProc.boldEndTok ++ (' ' :: u) = 'B' :: ("OLD_END".toList ++ (' ' :: u))
        from rfl,
      subst_cons_nomatch _ _ _ _ hnm1,
      subst_id_of_no_head _ hfireB hOEfree]
  have hm2 : litLen AdvProc.boldEndTok ('B' :: ("OLD_END".toList ++ (' ' :: u))) =
      some 8 := by
    show litLen AdvProc.boldEndTok (AdvProc.boldEndTok ++ (' ' :: u)) = some 8
    unfold litLen
    rw [if_pos (hasLead_append_self _ _)]
    rfl
  have m2 : subst (litLen AdvProc.boldEndTok) AdvProc.strongClose
      (AdvProc.strongOpen ++ (' ' :: (t ++ (AdvProc.boldEndTok ++ (' ' :: u))))) =
      AdvProc.strongOpen ++ (' ' :: (t ++ (AdvProc.strongClose ++ (' ' :: u)))) := by
    rw [show AdvProc.strongOpen ++ (' ' :: (t ++ (AdvProc.boldEndTok ++ (' ' :: u)))) =
        (AdvProc.strongOpen ++ (' ' :: t)) ++ (AdvProc.boldEndTok ++ (' ' :: u)) by simp,
      subst_append_nofire _ _ _ (nofire_of_head hfireBE hSoSpT),
      show AdvProc.boldEndTok ++ (' ' :: u) = 'B' :: ("OLD_END".toList ++ (' ' :: u))
        from rfl,
      subst_cons_match _ _ 'B' ("OLD_END".toList ++ (' ' :: u)) 8 hm2,
      List.drop_left' (by decide),
      subst_id_of_no_head _ hfireBE hSpUfree]
    simp
  have hmemM2 : ∀ c ∈ AdvProc.strongOpen ++ (' ' :: (t ++ (AdvProc.strongClose ++
      (' ' :: u)))), c ∈ AdvProc.strongOpen ∨ c = ' ' ∨ c ∈ t ∨
      c ∈ AdvProc.strongClose ∨ c ∈ u := by
    intro c hc
    simp only [List.mem_append, List.mem_cons] at hc
    tauto
  have hIfree : ∀ c ∈ AdvProc.strongOpen ++ (' ' :: (t ++ (AdvProc.strongClose ++
      (' ' :: u)))), (c == 'I') = false := by
    intro c hc
    rcases hmemM2 c hc with h | rfl | h | h | h
    · exact (show ∀ x ∈ AdvProc.strongOpen, (x == 'I') = false by decide) c h
    · decide
    · exact textChar_ne 'I' (ht c h) (by decide) (by decide) (by decide)
    · exact (show ∀ x ∈ AdvProc.strongClose, (x == 'I') = false by decide) c h
    · exact textChar_ne 'I' (hu c h) (by decide) (by decide) (by decide)
  have m3 : subst (litLen AdvProc.italStartTok) AdvProc.emOpen
      (AdvProc.strongOpen ++ (' ' :: (t ++ (AdvProc.strongClose ++ (' ' :: u))))) =
      AdvProc.strongOpen ++ (' ' :: (t ++ (AdvProc.strongClose ++ (' ' :: u)))) :=
    subst_id_of_no_head _ (litLen_fireHead _ 'I' (by decide)) hIfree
  have m4 : subst (litLen AdvProc.italEndTok) AdvProc.emClose
      (AdvProc.strongOpen ++ (' ' :: (t ++ (AdvProc.strongClose ++ (' ' :: u))))) =
      AdvProc.strongOpen ++ (' ' :: (t ++ (AdvProc.strongClose ++ (' ' :: u)))) :=
    subst_id_of_no_head _ (litLen_fireHead _ 'I' (by decide)) hIfree
  have hallM2 : ∀ c ∈ AdvProc.strongOpen ++ (' ' :: (t ++ (AdvProc.strongClose ++
      (' ' :: u)))), plainChar c = true := by
    intro c hc
    rcases hmemM2 c hc with h | rfl | h | h | h
    · exact (show ∀ x ∈ AdvProc.strongOpen, plainChar x = true by decide) c h
    · decide
    · exact textChar_plain (ht c h)
    · exact (show ∀ x ∈ AdvProc.strongClose, plainChar x = true by decide) c h
    · exact textChar_plain (hu c h)
  have hssSCU : singleSpaced (AdvProc.strongClose ++ (' ' :: u)) = true :=
    singleSpaced_join (by decide) hssu (by decide) (noEdgeWs_parts hedgeu).1
  have hssR : singleSpaced (t ++ (AdvProc.strongClose ++ (' ' :: u))) = true :=
    singleSpaced_append hsst hssSCU (noEdgeWs_parts hedget).2
      (by rw [headNotWs_append _ (by decide)]; decide)
  have hssM2 : singleSpaced (AdvProc.strongOpen ++ (' ' :: (t ++ (AdvProc.strongClose ++
      (' ' :: u))))) = true :=
    singleSpaced_join (by decide) hssR (by decide)
      (by rw [headNotWs_append _ htne]; exact (noEdgeWs_parts hedget).1)
  have hheadM2 : headNotWs (AdvProc.strongOpen ++ (' ' :: (t ++ (AdvProc.strongClose ++
      (' ' :: u))))) = true := by
    rw [headNotWs_append _ (by decide)]
    decide
  unfold AdvProc.procLineOut AdvProc.markSub replaceAll
  rw [m1, m2, m3, m4, squash_id hallM2 hssM2, starStrip_id hheadM2 hallM2]

end RtfSpec

namespace RtfSpec

set_option maxHeartbeats 1000000 in
/-- Claim C3 amended: emphasis balance is not an invariant of the engine, but
it does hold for documents recovered from inputs whose bold switches are
properly paired: the paired-switch input recovers to a single paragraph whose
strong tags are balanced. -/
theorem c3_amended (t u : List Char) (ht : ∀ c ∈ t, textChar c = true)
    (hu : ∀ c ∈ u, textChar c = true) (htne : t ≠ []) (hune : u ≠ [])
    (hsst : singleSpaced t = true) (hssu : singleSpaced u = true)
    (hedget : noEdgeWs t = true) (hedgeu : noEdgeWs u = true) :
    AdvProc.structure_legal_document (AdvProc.clean_rtf_content
      ("\\f0\\b\\fs24 ".toList ++ (t ++ ("\\f1\\b0 ".toList ++ u)))) =
      [AdvProc.strongOpen ++ (' ' :: (t ++ (AdvProc.strongClose ++ (' ' :: u))))] ∧
    balancedDoc
      [AdvProc.strongOpen ++ (' ' :: (t ++ (AdvProc.strongClose ++ (' ' :: u))))] =
      true := by
  have hclass := c3_class ht hu
  have hsafeT : ∀ c ∈ t, ctrlChar c = false :=
    fun c hc => plain_not_ctrl (textChar_plain (ht c hc))
  have hsafeU : ∀ c ∈ u, ctrlChar c = false :=
    fun c hc => plain_not_ctrl (textChar_plain (hu c hc))
  have hclassQ2 := c3_classQ hu
  have hclassT : ∀ s₀, s₀ <:+ t ++ ("\\f1\\b0 ".toList ++ u) → s₀ = [] ∨
      (∃ c cs, s₀ = c :: cs ∧ ctrlChar c = false) ∨
      s₀ ∈ ["\\f1\\b0 ".toList ++ u, "\\b0 ".toList ++ u] :=
    class_append_safe hsafeT hclassQ2
  have hclassSp : ∀ s₀, s₀ <:+ ' ' :: (t ++ ("\\f1\\b0 ".toList ++ u)) → s₀ = [] ∨
      (∃ c cs, s₀ = c :: cs ∧ ctrlChar c = false) ∨
      s₀ ∈ ["\\f1\\b0 ".toList ++ u, "\\b0 ".toList ++ u] :=
    fun s₀ hs => class_append_safe (by decide : ∀ c ∈ [' '], ctrlChar c = false)
      hclassT s₀ hs
  have hclassB1 : ∀ s₀, s₀ <:+ AdvProc.boldStartTok ++
      (' ' :: (t ++ ("\\f1\\b0 ".toList ++ u))) → s₀ = [] ∨
      (∃ c cs, s₀ = c :: cs ∧ ctrlChar c = false) ∨
      s₀ ∈ ["\\f1\\b0 ".toList ++ u, "\\b0 ".toList ++ u] :=
    class_append_safe (by decide) hclassSp
  have e1 : subst AdvProc.mRtf1 []
      ("\\f0\\b\\fs24 ".toList ++ (t ++ ("\\f1\\b0 ".toList ++ u))) =
      "\\f0\\b\\fs24 ".toList ++ (t ++ ("\\f1\\b0 ".toList ++ u)) :=
    subst_eq_self_sites _ hclass mRtf1_fh (sites5_none
      (by simp [AdvProc.mRtf1, AdvProc.litRtf1, hasLead])
      (by simp [AdvProc.mRtf1, AdvProc.litRtf1, hasLead])
      (by simp [AdvProc.mRtf1, AdvProc.litRtf1, hasLead])
      (by simp [AdvProc.mRtf1, AdvProc.litRtf1, hasLead])
      (by simp [AdvProc.mRtf1, AdvProc.litRtf1, hasLead]))
  have e2 : subst AdvProc.mCocoartf []
      ("\\f0\\b\\fs24 ".toList ++ (t ++ ("\\f1\\b0 ".toList ++ u))) =
      "\\f0\\b\\fs24 ".toList ++ (t ++ ("\\f1\\b0 ".toList ++ u)) :=
    subst_eq_self_sites _ hclass mCocoartf_fh (sites5_none
      (by simp [AdvProc.mCocoartf, AdvProc.litDig, AdvProc.litCocoartf, hasLead])
      (by simp [AdvProc.mCocoartf, AdvProc.litDig, AdvProc.litCocoartf, hasLead])
      (by simp [AdvProc.mCocoartf, AdvProc.litDig, AdvProc.litCocoartf, hasLead])
      (by simp [AdvProc.mCocoartf, AdvProc.litDig, AdvProc.litCocoartf, hasLead])
      (by simp [AdvProc.mCocoartf, AdvProc.litDig, AdvProc.litCocoartf, hasLead]))
  have e3 : subst AdvProc.mCocoaScale []
      ("\\f0\\b\\fs24 ".toList ++ (t ++ ("\\f1\\b0 ".toList ++ u))) =
      "\\f0\\b\\fs24 ".toList ++ (t ++ ("\\f1\\b0 ".toList ++ u)) :=
    subst_eq_self_sites _ hclass mCocoaScale_fh (sites5_none
      (by simp [AdvProc.mCocoaScale, AdvProc.chainLitDig, AdvProc.litDig,
        AdvProc.litCocoaScale, hasLead])
      (by simp [AdvProc.mCocoaScale, AdvProc.chainLitDig, AdvProc.litDig,
        AdvProc.litCocoaScale, hasLead])
      (by simp [AdvProc.mCocoaScale, AdvProc.chainLitDig, AdvProc.litDig,
        AdvProc.litCocoaScale, hasLead])
      (by simp [AdvProc.mCocoaScale, AdvProc.chainLitDig, AdvProc.litDig,
        AdvProc.litCocoaScale, hasLead])
      (by simp [AdvProc.mCocoaScale, AdvProc.chainLitDig, AdvProc.litDig,
        AdvProc.litCocoaScale, hasLead]))
  have e4 : subst AdvProc.mFonttbl []
      ("\\f0\\b\\fs24 ".toList ++ (t ++ ("\\f1\\b0 ".toList ++ u))) =
      "\\f0\\b\\fs24 ".toList ++ (t ++ ("\\f1\\b0 ".toList ++ u)) :=
    subst_eq_self_sites _ hclass mFonttbl_fh (sites5_none
      (by simp [AdvProc.mFonttbl, AdvProc.tblMatch, AdvProc.litFonttbl, hasLead])
      (by simp [AdvProc.mFonttbl, AdvProc.tblMatch, AdvProc.litFonttbl, hasLead])
      (by simp [AdvProc.mFonttbl, AdvProc.tblMatch, AdvProc.litFonttbl, hasLead])
      (by simp [AdvProc.mFonttbl, AdvProc.tblMatch, AdvProc.litFonttbl, hasLead])
      (by simp [AdvProc.mFonttbl, AdvProc.tblMatch, AdvProc.litFonttbl, hasLead]))
  have e5 : subst AdvProc.mColortbl []
      ("\\f0\\b\\fs24 ".toList ++ (t ++ ("\\f1\\b0 ".toList ++ u))) =
      "\\f0\\b\\fs24 ".toList ++ (t ++ ("\\f1\\b0 ".toList ++ u)) :=
    subst_eq_self_sites _ hclass mColortbl_fh (sites5_none
      (by simp [AdvProc.mColortbl, AdvProc.tblMatch, AdvProc.litColortbl, hasLead])
      (by simp [AdvProc.mColortbl, AdvProc.tblMatch, AdvProc.litColortbl, hasLead])
      (by simp [AdvProc.mColortbl, AdvProc.tblMatch, AdvProc.litColortbl, hasLead])
      (by simp [AdvProc.mColortbl, AdvProc.tblMatch, AdvProc.litColortbl, hasLead])
      (by simp [AdvProc.mColortbl, AdvProc.tblMatch, AdvProc.litColortbl, hasLead]))
  have e6 : subst AdvProc.mExpColortbl []
      ("\\f0\\b\\fs24 ".toList ++ (t ++ ("\\f1\\b0 ".toList ++ u))) =
      "\\f0\\b\\fs24 ".toList ++ (t ++ ("\\f1\\b0 ".toList ++ u)) :=
    subst_eq_self_sites _ hclass mExpColortbl_fh (sites5_none
      (by simp [AdvProc.mExpColortbl, AdvProc.litBraceBs, hasLead])
      (by simp [AdvProc.mExpColortbl, AdvProc.litBraceBs, hasLead])
      (by simp [AdvProc.mExpColortbl, AdvProc.litBraceBs, hasLead])
      (by simp [AdvProc.mExpColortbl, AdvProc.litBraceBs, hasLead])
      (by simp [AdvProc.mExpColortbl, AdvProc.litBraceBs, hasLead]))
  have e7 : subst AdvProc.mPaperw []
      ("\\f0\\b\\fs24 ".toList ++ (t ++ ("\\f1\\b0 ".toList ++ u))) =
      "\\f0\\b\\fs24 ".toList ++ (t ++ ("\\f1\\b0 ".toList ++ u)) :=
    subst_eq_self_sites _ hclass mPaperw_fh (sites5_none
      (by simp [AdvProc.mPaperw, AdvProc.chainLitDig, AdvProc.litDig, hasLead])
      (by simp [AdvProc.mPaperw, AdvProc.chainLitDig, AdvProc.litDig, hasLead])
      (by simp [AdvProc.mPaperw, AdvProc.chainLitDig, AdvProc.litDig, hasLead])
      (by simp [AdvProc.mPaperw, AdvProc.chainLitDig, AdvProc.litDig, hasLead])
      (by simp [AdvProc.mPaperw, AdvProc.chainLitDig, AdvProc.litDig, hasLead]))
  have e8 : subst AdvProc.mDeftab []
      ("\\f0\\b\\fs24 ".toList ++ (t ++ ("\\f1\\b0 ".toList ++ u))) =
      "\\f0\\b\\fs24 ".toList ++ (t ++ ("\\f1\\b0 ".toList ++ u)) :=
    subst_eq_self_sites _ hclass mDeftab_fh (sites5_none
      (by simp [AdvProc.mDeftab, AdvProc.litDig, AdvProc.litDeftab, hasLead])
      (by simp [AdvProc.mDeftab, AdvProc.litDig, AdvProc.litDeftab, hasLead])
      (by simp [AdvProc.mDeftab, AdvProc.litDig, AdvProc.litDeftab, hasLead])
      (by simp [AdvProc.mDeftab, AdvProc.litDig, AdvProc.litDeftab, hasLead])
      (by simp [AdvProc.mDeftab, AdvProc.litDig, AdvProc.litDeftab, hasLead]))
  have e9 : subst AdvProc.mPard AdvProc.pbRepl
      ("\\f0\\b\\fs24 ".toList ++ (t ++ ("\\f1\\b0 ".toList ++ u))) =
      "\\f0\\b\\fs24 ".toList ++ (t ++ ("\\f1\\b0 ".toList ++ u)) :=
    subst_eq_self_sites _ hclass mPard_fh (sites5_none
      (by simp [AdvProc.mPard, AdvProc.litPard, hasLead])
      (by simp [AdvProc.mPard, AdvProc.litPard, hasLead])
      (by simp [AdvProc.mPard, AdvProc.litPard, hasLead])
      (by simp [AdvProc.mPard, AdvProc.litPard, hasLead])
      (by simp [AdvProc.mPard, AdvProc.litPard, hasLead]))
  have e10 : subst AdvProc.mPardeftab []
      ("\\f0\\b\\fs24 ".toList ++ (t ++ ("\\f1\\b0 ".toList ++ u))) =
      "\\f0\\b\\fs24 ".toList ++ (t ++ ("\\f1\\b0 ".toList ++ u)) :=
    subst_eq_self_sites _ hclass mPardeftab_fh (sites5_none
      (by simp [AdvProc.mPardeftab, AdvProc.litPardeftab, hasLead])
      (by simp [AdvProc.mPardeftab, AdvProc.litPardeftab, hasLead])
      (by simp [AdvProc.mPardeftab, AdvProc.litPardeftab, hasLead])
      (by simp [AdvProc.mPardeftab, AdvProc.litPardeftab, hasLead])
      (by simp [AdvProc.mPardeftab, AdvProc.litPardeftab, hasLead]))
  have hm11 : AdvProc.mBoldFs ('\\' :: ("f0\\b\\fs24".toList ++
      (' ' :: (t ++ ("\\f1\\b0 ".toList ++ u))))) = some 10 := rfl
  have e11 : subst AdvProc.mBoldFs AdvProc.boldStartTok
      ("\\f0\\b\\fs24 ".toList ++ (t ++ ("\\f1\\b0 ".toList ++ u))) =
      AdvProc.boldStartTok ++ (' ' :: (t ++ ("\\f1\\b0 ".toList ++ u))) := by
    rw [show "\\f0\\b\\fs24 ".toList ++ (t ++ ("\\f1\\b0 ".toList ++ u)) =
        '\\' :: ("f0\\b\\fs24".toList ++ (' ' :: (t ++ ("\\f1\\b0 ".toList ++ u))))
        from rfl,
      subst_cons_match AdvProc.mBoldFs AdvProc.boldStartTok '\\'
        ("f0\\b\\fs24".toList ++ (' ' :: (t ++ ("\\f1\\b0 ".toList ++ u)))) 10 hm11,
      List.drop_left' (by decide)]
    congr 1
    exact subst_eq_self_sites _ hclassSp mBoldFs_fh (sites2_none
      (by simp [AdvProc.mBoldFs, AdvProc.litDig, AdvProc.litF0bFs, hasLead])
      (by simp [AdvProc.mBoldFs, AdvProc.litDig, AdvProc.litF0bFs, hasLead]))
  have e12 : subst AdvProc.mBoldBare AdvProc.boldStartTok
      (AdvProc.boldStartTok ++ (' ' :: (t ++ ("\\f1\\b0 ".toList ++ u)))) =
      AdvProc.boldStartTok ++ (' ' :: (t ++ ("\\f1\\b0 ".toList ++ u))) :=
    subst_eq_self_sites _ hclassB1 mBoldBare_fh (sites2_none
      (by simp [AdvProc.mBoldBare, AdvProc.litF0b, hasLead])
      (by simp [AdvProc.mBoldBare, AdvProc.litF0b, hasLead]))
  have hm13 : AdvProc.mBoldEnd ('\\' :: ("f1\\b0".toList ++ (' ' :: u))) = some 6 := rfl
  have e13 : subst AdvProc.mBoldEnd AdvProc.boldEndTok
      (AdvProc.boldStartTok ++ (' ' :: (t ++ ("\\f1\\b0 ".toList ++ u)))) =
      AdvProc.boldStartTok ++ (' ' :: (t ++ (AdvProc.boldEndTok ++ (' ' :: u)))) := by
    rw [subst_append_nofire _ _ _ (nofire_of_head mBoldEnd_fh (by decide)),
      show ' ' :: (t ++ ("\\f1\\b0 ".toList ++ u)) =
        (' ' :: t) ++ ("\\f1\\b0 ".toList ++ u) by simp,
      subst_append_nofire _ _ _ (nofire_of_head mBoldEnd_fh (by
        intro c hc
        rcases List.mem_cons.mp hc with rfl | hc2
        · decide
        · exact hsafeT c hc2)),
      show "\\f1\\b0 ".toList ++ u = '\\' :: ("f1\\b0".toList ++ (' ' :: u)) from rfl,
      subst_cons_match AdvProc.mBoldEnd AdvProc.boldEndTok '\\'
        ("f1\\b0".toList ++ (' ' :: u)) 6 hm13,
      List.drop_left' (by decide),
      subst_id_of_no_head AdvProc.boldEndTok mBoldEnd_fh (by
        intro c hc
        rcases List.mem_cons.mp hc with rfl | hc2
        · decide
        · exact hsafeU c hc2)]
    simp
  have hmemB2 : ∀ c ∈ AdvProc.boldStartTok ++
      (' ' :: (t ++ (AdvProc.boldEndTok ++ (' ' :: u)))),
      c ∈ AdvProc.boldStartTok ∨ c = ' ' ∨ c ∈ t ∨ c ∈ AdvProc.boldEndTok ∨ c ∈ u := by
    intro c hc
    simp only [List.mem_append, List.mem_cons] at hc
    rcases hc with h | h | h | h | h | h
    · exact Or.inl h
    · exact Or.inr (Or.inl h)
    · exact Or.inr (Or.inr (Or.inl h))
    · exact Or.inr (Or.inr (Or.inr (Or.inl h)))
    · exact Or.inr (Or.inl h)
    · exact Or.inr (Or.inr (Or.inr (Or.inr h)))
  have hsafeB2 : ∀ c ∈ AdvProc.boldStartTok ++
      (' ' :: (t ++ (AdvProc.boldEndTok ++ (' ' :: u)))), ctrlChar c = false := by
    intro c hc
    rcases hmemB2 c hc with h | rfl | h | h | h
    · exact (show ∀ x ∈ AdvProc.boldStartTok, ctrlChar x = false by decide) c h
    · decide
    · exact hsafeT c h
    · exact (show ∀ x ∈ AdvProc.boldEndTok, ctrlChar x = false by decide) c h
    · exact hsafeU c h
  have e14 : ∀ r, subst AdvProc.mItalStart r
      (AdvProc.boldStartTok ++ (' ' :: (t ++ (AdvProc.boldEndTok ++ (' ' :: u))))) =
      AdvProc.boldStartTok ++ (' ' :: (t ++ (AdvProc.boldEndTok ++ (' ' :: u)))) :=
    subst_id_fh mItalStart_fh hsafeB2
  have e15 : ∀ r, subst AdvProc.mItalEnd r
      (AdvProc.boldStartTok ++ (' ' :: (t ++ (AdvProc.boldEndTok ++ (' ' :: u))))) =
      AdvProc.boldStartTok ++ (' ' :: (t ++ (AdvProc.boldEndTok ++ (' ' :: u)))) :=
    subst_id_fh mItalEnd_fh hsafeB2
  have e16 : ∀ r, subst AdvProc.mFnum r
      (AdvProc.boldStartTok ++ (' ' :: (t ++ (AdvProc.boldEndTok ++ (' ' :: u))))) =
      AdvProc.boldStartTok ++ (' ' :: (t ++ (AdvProc.boldEndTok ++ (' ' :: u)))) :=
    subst_id_fh mFnum_fh hsafeB2
  have e17 : ∀ r, subst AdvProc.mFsNum r
      (AdvProc.boldStartTok ++ (' ' :: (t ++ (AdvProc.boldEndTok ++ (' ' :: u))))) =
      AdvProc.boldStartTok ++ (' ' :: (t ++ (AdvProc.boldEndTok ++ (' ' :: u)))) :=
    subst_id_fh mFsNum_fh hsafeB2
  have e18 : ∀ r, subst AdvProc.mCfNum r
      (AdvProc.boldStartTok ++ (' ' :: (t ++ (AdvProc.boldEndTok ++ (' ' :: u))))) =
      AdvProc.boldStartTok ++ (' ' :: (t ++ (AdvProc.boldEndTok ++ (' ' :: u)))) :=
    subst_id_fh mCfNum_fh hsafeB2
  have e19 : ∀ r, subst AdvProc.mStrokec r
      (AdvProc.boldStartTok ++ (' ' :: (t ++ (AdvProc.boldEndTok ++ (' ' :: u))))) =
      AdvProc.boldStartTok ++ (' ' :: (t ++ (AdvProc.boldEndTok ++ (' ' :: u)))) :=
    subst_id_fh mStrokec_fh hsafeB2
  have e20 : ∀ r, subst AdvProc.mExpnd r
      (AdvProc.boldStartTok ++ (' ' :: (t ++ (AdvProc.boldEndTok ++ (' ' :: u))))) =
      AdvProc.boldStartTok ++ (' ' :: (t ++ (AdvProc.boldEndTok ++ (' ' :: u)))) :=
    subst_id_fh mExpnd_fh hsafeB2
  have e21 : ∀ r, subst AdvProc.mOutl r
      (AdvProc.boldStartTok ++ (' ' :: (t ++ (AdvProc.boldEndTok ++ (' ' :: u))))) =
      AdvProc.boldStartTok ++ (' ' :: (t ++ (AdvProc.boldEndTok ++ (' ' :: u)))) :=
    subst_id_fh mOutl_fh hsafeB2
  have e22 : ∀ r, subst (litLen AdvProc.ucRupee) r
      (AdvProc.boldStartTok ++ (' ' :: (t ++ (AdvProc.boldEndTok ++ (' ' :: u))))) =
      AdvProc.boldStartTok ++ (' ' :: (t ++ (AdvProc.boldEndTok ++ (' ' :: u)))) :=
    subst_id_fh ucRupee_fh hsafeB2
  have e23 : ∀ r, subst (litLen AdvProc.ucLineSep) r
      (AdvProc.boldStartTok ++ (' ' :: (t ++ (AdvProc.boldEndTok ++ (' ' :: u))))) =
      AdvProc.boldStartTok ++ (' ' :: (t ++ (AdvProc.boldEndTok ++ (' ' :: u)))) :=
    subst_id_fh ucLineSep_fh hsafeB2
  have e24 : ∀ r, subst AdvProc.mResidual r
      (AdvProc.boldStartTok ++ (' ' :: (t ++ (AdvProc.boldEndTok ++ (' ' :: u))))) =
      AdvProc.boldStartTok ++ (' ' :: (t ++ (AdvProc.boldEndTok ++ (' ' :: u)))) :=
    subst_id_fh mResidual_fh hsafeB2
  have e25 : ∀ r, subst (litLen ['\x7b']) r
      (AdvProc.boldStartTok ++ (' ' :: (t ++ (AdvProc.boldEndTok ++ (' ' :: u))))) =
      AdvProc.boldStartTok ++ (' ' :: (t ++ (AdvProc.boldEndTok ++ (' ' :: u)))) :=
    subst_id_fh braceOpen_fh hsafeB2
  have e26 : ∀ r, subst (litLen ['\x7d']) r
      (AdvProc.boldStartTok ++ (' ' :: (t ++ (AdvProc.boldEndTok ++ (' ' :: u))))) =
      AdvProc.boldStartTok ++ (' ' :: (t ++ (AdvProc.boldEndTok ++ (' ' :: u)))) :=
    subst_id_fh braceClose_fh hsafeB2
  have e27 : ∀ r, subst (litLen ['\\']) r
      (AdvProc.boldStartTok ++ (' ' :: (t ++ (AdvProc.boldEndTok ++ (' ' :: u))))) =
      AdvProc.boldStartTok ++ (' ' :: (t ++ (AdvProc.boldEndTok ++ (' ' :: u)))) :=
    subst_id_fh bsLit_fh hsafeB2
  have hnlB2 : '\n' ∉ AdvProc.boldStartTok ++
      (' ' :: (t ++ (AdvProc.boldEndTok ++ (' ' :: u)))) := by
    intro hc
    rcases hmemB2 '\n' hc with h | h | h | h | h
    · exact absurd h (by decide)
    · exact absurd h (by decide)
    · exact absurd (ht _ h) (by decide)
    · exact absurd h (by decide)
    · exact absurd (hu _ h) (by decide)
  have hneB2 : AdvProc.boldStartTok ++
      (' ' :: (t ++ (AdvProc.boldEndTok ++ (' ' :: u)))) ≠ [] := by
    show 'B' :: ("OLD_START".toList ++ (' ' :: (t ++ (AdvProc.boldEndTok ++ (' ' :: u)))))
      ≠ []
    simp
  have hedgeB2 : noEdgeWs (AdvProc.boldStartTok ++
      (' ' :: (t ++ (AdvProc.boldEndTok ++ (' ' :: u))))) = true := by
    unfold noEdgeWs
    rw [Bool.and_eq_true]
    refine ⟨?_, ?_⟩
    · rw [headNotWs_append _ (by decide)]
      decide
    · rw [show AdvProc.boldStartTok ++ (' ' :: (t ++ (AdvProc.boldEndTok ++ (' ' :: u)))) =
        (AdvProc.boldStartTok ++ (' ' :: (t ++ (AdvProc.boldEndTok ++ [' '])))) ++ u
        by simp,
        headNotWs_reverse_last _ hune]
      exact (noEdgeWs_parts hedgeu).2
  have hpbf : hasLead AdvProc.pbTok (AdvProc.boldStartTok ++
      (' ' :: (t ++ (AdvProc.boldEndTok ++ (' ' :: u))))) = false :=
    hasLead_false_head (show AdvProc.pbTok.head? = some 'P' by decide)
      (show ('B' == 'P') = false by decide)
  have hlen3B2 : ¬((AdvProc.boldStartTok ++
      (' ' :: (t ++ (AdvProc.boldEndTok ++ (' ' :: u))))).length < 3) := by
    simp only [List.length_append, List.length_cons]
    have h10 : AdvProc.boldStartTok.length = 10 := by decide
    omega
  have hplo : AdvProc.procLineOut (AdvProc.boldStartTok ++
      (' ' :: (t ++ (AdvProc.boldEndTok ++ (' ' :: u))))) =
      AdvProc.strongOpen ++ (' ' :: (t ++ (AdvProc.strongClose ++ (' ' :: u)))) :=
    c3_procLineOut t u ht hu htne hsst hssu hedget hedgeu
  have hmemM2 : ∀ c ∈ AdvProc.strongOpen ++ (' ' :: (t ++ (AdvProc.strongClose ++
      (' ' :: u)))), c ∈ AdvProc.strongOpen ∨ c = ' ' ∨ c ∈ t ∨
      c ∈ AdvProc.strongClose ∨ c ∈ u := by
    intro c hc
    simp only [List.mem_append, List.mem_cons] at hc
    rcases hc with h | h | h | h | h | h
    · exact Or.inl h
    · exact Or.inr (Or.inl h)
    · exact Or.inr (Or.inr (Or.inl h))
    · exact Or.inr (Or.inr (Or.inr (Or.inl h)))
    · exact Or.inr (Or.inl h)
    · exact Or.inr (Or.inr (Or.inr (Or.inr h)))
  have hallM2 : ∀ c ∈ AdvProc.strongOpen ++ (' ' :: (t ++ (AdvProc.strongClose ++
      (' ' :: u)))), plainChar c = true := by
    intro c hc
    rcases hmemM2 c hc with h | rfl | h | h | h
    · exact (show ∀ x ∈ AdvProc.strongOpen, plainChar x = true by decide) c h
    · decide
    · exact textChar_plain (ht c h)
    · exact (show ∀ x ∈ AdvProc.strongClose, plainChar x = true by decide) c h
    · exact textChar_plain (hu c h)
  have hssM2 : singleSpaced (AdvProc.strongOpen ++ (' ' :: (t ++ (AdvProc.strongClose ++
      (' ' :: u))))) = true := by
    have hssSCU : singleSpaced (AdvProc.strongClose ++ (' ' :: u)) = true :=
      singleSpaced_join (by decide) hssu (by decide) (noEdgeWs_parts hedgeu).1
    have hssR : singleSpaced (t ++ (AdvProc.strongClose ++ (' ' :: u))) = true :=
      singleSpaced_append hsst hssSCU (noEdgeWs_parts hedget).2
        (by rw [headNotWs_append _ (by decide)]; decide)
    exact singleSpaced_join (by decide) hssR (by decide)
      (by rw [headNotWs_append _ htne]; exact (noEdgeWs_parts hedget).1)
  have hedgeM2 : noEdgeWs (AdvProc.strongOpen ++ (' ' :: (t ++ (AdvProc.strongClose ++
      (' ' :: u))))) = true := by
    unfold noEdgeWs
    rw [Bool.and_eq_true]
    refine ⟨?_, ?_⟩
    · rw [headNotWs_append _ (by decide)]
      decide
    · rw [show AdvProc.strongOpen ++ (' ' :: (t ++ (AdvProc.strongClose ++ (' ' :: u)))) =
        (AdvProc.strongOpen ++ (' ' :: (t ++ (AdvProc.strongClose ++ [' '])))) ++ u
        by simp,
        headNotWs_reverse_last _ hune]
      exact (noEdgeWs_parts hedgeu).2
  have hneM2 : AdvProc.strongOpen ++ (' ' :: (t ++ (AdvProc.strongClose ++ (' ' :: u))))
      ≠ [] := by
    show '<' :: ("strong>".toList ++ (' ' :: (t ++ (AdvProc.strongClose ++ (' ' :: u)))))
      ≠ []
    simp
  have hnlM2 : '\n' ∉ AdvProc.strongOpen ++ (' ' :: (t ++ (AdvProc.strongClose ++
      (' ' :: u)))) := by
    intro hc
    rcases hmemM2 '\n' hc with h | h | h | h | h
    · exact absurd h (by decide)
    · exact absurd h (by decide)
    · exact absurd (ht _ h) (by decide)
    · exact absurd h (by decide)
    · exact absurd (hu _ h) (by decide)
  constructor
  · unfold AdvProc.clean_rtf_content replaceAll
    simp only [e1, e2, e3, e4, e5, e6, e7, e8, e9, e10, e11, e12, e13, e14, e15, e16,
      e17, e18, e19, e20, e21, e22, e23, e24, e25, e26, e27]
    rw [splitNl_no_nl hnlB2, procLines_cons, pstrip_id hedgeB2,
      if_neg (by simp [ne_nil_beq_false hneB2]),
      if_neg (by rw [hpbf]; exact Bool.false_ne_true),
      if_neg hlen3B2, hplo,
      if_neg (by simp [ne_nil_beq_false hneM2])]
    show AdvProc.structure_legal_document
      (AdvProc.strongOpen ++ (' ' :: (t ++ (AdvProc.strongClose ++ (' ' :: u))))) = _
    unfold AdvProc.structure_legal_document
    rw [splitNl_no_nl hnlM2, asmParas_cons, pstrip_id hedgeM2,
      if_neg (by simp [ne_nil_beq_false hneM2]), if_pos (by rfl)]
    show List.filterMap AdvProc.htmlPara
      (if ((AdvProc.strongOpen ++ (' ' :: (t ++ (AdvProc.strongClose ++ (' ' :: u)))))
          == []) = true then []
        else [pstrip (AdvProc.strongOpen ++
          (' ' :: (t ++ (AdvProc.strongClose ++ (' ' :: u)))))]) = _
    rw [if_neg (by simp [ne_nil_beq_false hneM2]), pstrip_id hedgeM2,
      List.filterMap_cons, htmlPara_plain hallM2 hssM2 hedgeM2 hneM2]
    rfl
  · unfold balancedDoc
    have hds : docStream [AdvProc.strongOpen ++ (' ' :: (t ++ (AdvProc.strongClose ++
        (' ' :: u))))] = AdvProc.strongOpen ++ (' ' :: (t ++ (AdvProc.strongClose ++
        (' ' :: u)))) := by
      simp [docStream]
    rw [hds]
    have hscan : tagScan EmphState.closed (AdvProc.strongOpen ++
        (' ' :: (t ++ (AdvProc.strongClose ++ (' ' :: u))))) =
        some EmphState.closed := by
      rw [tagScan_strongOpen, tagScan_skip (by decide),
        tagScan_skip_run (fun c hc =>
          textChar_ne '<' (ht c hc) (by decide) (by decide) (by decide)),
        tagScan_strongClose, tagScan_skip (by decide)]
      exact tagScan_safe_all (fun c hc =>
        textChar_ne '<' (hu c hc) (by decide) (by decide) (by decide)) _
    rw [show tagScanF (AdvProc.strongOpen ++ (' ' :: (t ++ (AdvProc.strongClose ++
        (' ' :: u))))).length EmphState.closed (AdvProc.strongOpen ++
        (' ' :: (t ++ (AdvProc.strongClose ++ (' ' :: u))))) =
      tagScan EmphState.closed (AdvProc.strongOpen ++
        (' ' :: (t ++ (AdvProc.strongClose ++ (' ' :: u))))) from rfl, hscan]

end RtfSpec

namespace RtfSpec

/-- Witness for claim C3 amended: a paired bold switch around lawyer text
recovers to one strong-tagged paragraph whose emphasis tags are balanced. -/
theorem c3_amended_witness :
    AdvProc.structure_legal_document (AdvProc.clean_rtf_content
      ("\\f0\\b\\fs24 ".toList ++ ("whereas the parties agree".toList ++
        ("\\f1\\b0 ".toList ++ "as follows.".toList)))) =
      [AdvProc.strongOpen ++ (' ' :: ("whereas the parties agree".toList ++
        (AdvProc.strongClose ++ (' ' :: "as follows.".toList))))] ∧
    balancedDoc [AdvProc.strongOpen ++ (' ' :: ("whereas the parties agree".toList ++
      (AdvProc.strongClose ++ (' ' :: "as follows.".toList))))] = true :=
  c3_amended "whereas the parties agree".toList "as follows.".toList (by decide)
    (by decide) (by decide) (by decide) (by decide) (by decide) (by decide) (by decide)

end RtfSpec

namespace RtfSpec

/-! ## HTML escaping of the three generators (claim C10) -/

/-- The paragraph loop of create_clean_legal_html of advanced_rtf_processor.py:
each paragraph with non-whitespace content is emitted verbatim, with no
escaping. -/
def advParasHtml (paras : List (List Char)) : List Char :=
  paras.foldl (fun acc p => if pstrip p == [] then acc
    else acc ++ ExtProc.pOpenTag ++ p ++ ExtProc.pCloseTag) []

/-- Reference escaping of the claim, character by character: the three HTML
special characters become their entities, everything else is kept. -/
def escCharRef (c : Char) : List Char :=
  if c = '&' then "&amp;".toList
  else if c = '<' then "&lt;".toList
  else if c = '>' then "&gt;".toList
  else [c]

theorem replaceAll_char (c0 : Char) (r : List Char) :
    ∀ s : List Char, replaceAll [c0] r s =
      s.flatMap fun c => if c = c0 then r else [c] := by
  intro s
  induction s with
  | nil => rfl
  | cons c cs ih =>
    by_cases hc : c = c0
    · subst hc
      have hm : litLen [c] (c :: cs) = some 1 := by
        unfold litLen
        rw [if_pos (by simp [hasLead])]
        rfl
      unfold replaceAll at ih ⊢
      rw [subst_cons_match _ _ _ _ _ hm]
      simp only [Nat.sub_self, List.drop_zero]
      rw [ih]
      simp
    · have hm : litLen [c0] (c :: cs) = none := by
        unfold litLen
        rw [if_neg]
        intro h
        simp only [hasLead, Bool.and_eq_true, beq_iff_eq] at h
        exact hc h.1.symm
      unfold replaceAll at ih ⊢
      rw [subst_cons_nomatch _ _ _ _ hm, ih]
      simp [hc]

theorem pyHtmlEscape_flatMap (s : List Char) :
    ExtProc.pyHtmlEscape s = s.flatMap escCharRef := by
  unfold ExtProc.pyHtmlEscape
  rw [replaceAll_char, replaceAll_char, replaceAll_char]
  induction s with
  | nil => rfl
  | cons c cs ih =>
    simp only [List.flatMap_cons, List.flatMap_append, ih]
    congr 1
    by_cases h1 : c = '&'
    · subst h1
      rfl
    · by_cases h2 : c = '<'
      · subst h2
        rfl
      · by_cases h3 : c = '>'
        · subst h3
          rfl
        · simp [escCharRef, h1, h2, h3]

theorem flatMap_esc_id {a : List Char} (h : ∀ c ∈ a, escCharRef c = [c]) :
    a.flatMap escCharRef = a := by
  induction a with
  | nil => rfl
  | cons c cs ih =>
    rw [List.flatMap_cons, h c (List.mem_cons_self _ _),
      ih fun d hd => h d (List.mem_cons_of_mem _ hd)]
    rfl

theorem escSafe_not_amp {c : Char} (h : escCharRef c = [c]) : (c == '&') = false := by
  cases hx : c == '&' with
  | false => rfl
  | true =>
    rw [beq_iff_eq] at hx
    subst hx
    simp [escCharRef] at h

theorem escSafe_not_lt {c : Char} (h : escCharRef c = [c]) : (c == '<') = false := by
  cases hx : c == '<' with
  | false => rfl
  | true =>
    rw [beq_iff_eq] at hx
    subst hx
    simp [escCharRef] at h

theorem escSafe_not_gt {c : Char} (h : escCharRef c = [c]) : (c == '>') = false := by
  cases hx : c == '>' with
  | false => rfl
  | true =>
    rw [beq_iff_eq] at hx
    subst hx
    simp [escCharRef] at h

/-- Identity of a substitution when every suffix starts with a character at
which the matcher cannot fire, or is one of finitely many failing sites; the
trigger predicate is arbitrary. -/
theorem subst_eq_self_sites_p {m : List Char → Option Nat} {p : Char → Bool}
    (r : List Char) {i : List Char} {sites : List (List Char)}
    (hclass : ∀ s₀, s₀ <:+ i → s₀ = [] ∨ (∃ c cs, s₀ = c :: cs ∧ p c = false) ∨
      s₀ ∈ sites)
    (fh : FireHead m p) (hsites : ∀ s ∈ sites, m s = none) : subst m r i = i := by
  apply subst_eq_self
  intro c cs hsuf
  rcases hclass _ hsuf with he | ⟨c2, cs2, heq, hct⟩ | hmem
  · cases he
  · rw [heq]
    cases hm : m (c2 :: cs2) with
    | none => rfl
    | some n =>
      rw [fh c2 cs2 n hm] at hct
      cases hct
  · exact hsites _ hmem

theorem class_of_safe_p {p : Char → Bool} {u : List Char} (hu : ∀ c ∈ u, p c = false)
    (sites : List (List Char)) :
    ∀ s₀, s₀ <:+ u → s₀ = [] ∨ (∃ c cs, s₀ = c :: cs ∧ p c = false) ∨ s₀ ∈ sites := by
  intro s₀ hs
  cases hc : s₀ with
  | nil => exact Or.inl rfl
  | cons c cs =>
    subst hc
    exact Or.inr (Or.inl ⟨c, cs, rfl, hu c (hs.subset (List.mem_cons_self _ _))⟩)

theorem class_append_safe_p {p : Char → Bool} {w : List Char}
    (hw : ∀ c ∈ w, p c = false) {X : List Char} {sites : List (List Char)}
    (hX : ∀ s₀, s₀ <:+ X → s₀ = [] ∨ (∃ c cs, s₀ = c :: cs ∧ p c = false) ∨
      s₀ ∈ sites) :
    ∀ s₀, s₀ <:+ w ++ X → s₀ = [] ∨ (∃ c cs, s₀ = c :: cs ∧ p c = false) ∨
      s₀ ∈ sites := by
  intro s₀ hs
  rcases suffix_append_cases hs with h1 | ⟨a', ha1, ha2, ha3⟩
  · exact hX s₀ h1
  · cases a' with
    | nil => exact absurd rfl ha2
    | cons c cs =>
      exact Or.inr (Or.inl ⟨c, cs ++ X, by rw [ha3]; simp,
        hw c (ha1.subset (List.mem_cons_self _ _))⟩)

end RtfSpec

namespace RtfSpec

/-- Classification of the suffixes of the escaped strong-close entity followed
by safe text: the only ampersand sites are the entity itself and its final
entity tail. -/
theorem c10_entsc_class {c : List Char} (hc : ∀ x ∈ c, (x == '&') = false) :
    ∀ s₀, s₀ <:+ ExtProc.entStrongClose ++ c → s₀ = [] ∨
      (∃ d ds, s₀ = d :: ds ∧ (d == '&') = false) ∨
      s₀ ∈ [ExtProc.entStrongClose ++ c, "&gt;".toList ++ c] := by
  intro s₀ hs
  rcases suffix_append_cases hs with h2 | ⟨y', hy1, hy2, hy3⟩
  · exact class_of_safe_p hc _ s₀ h2
  · have hmem : y' ∈ List.tails ExtProc.entStrongClose := (List.mem_tails _ _).mpr hy1
    have htails : List.tails ExtProc.entStrongClose =
        ["&lt;/strong&gt;".toList, "lt;/strong&gt;".toList, "t;/strong&gt;".toList,
         ";/strong&gt;".toList, "/strong&gt;".toList, "strong&gt;".toList,
         "trong&gt;".toList, "rong&gt;".toList, "ong&gt;".toList, "ng&gt;".toList,
         "g&gt;".toList, "&gt;".toList, "gt;".toList, "t;".toList, ";".toList, []] := by
      decide
    rw [htails] at hmem
    simp only [List.mem_cons, List.not_mem_nil, or_false] at hmem
    rcases hmem with he|he|he|he|he|he|he|he|he|he|he|he|he|he|he|he
    · exact Or.inr (Or.inr (by rw [hy3, he]; simp [ExtProc.entStrongClose]))
    · exact Or.inr (Or.inl ⟨'l', "t;/strong&gt;".toList ++ c, by rw [hy3, he]; simp,
        by decide⟩)
    · exact Or.inr (Or.inl ⟨'t', ";/strong&gt;".toList ++ c, by rw [hy3, he]; simp,
        by decide⟩)
    · exact Or.inr (Or.inl ⟨';', "/strong&gt;".toList ++ c, by rw [hy3, he]; simp,
        by decide⟩)
    · exact Or.inr (Or.inl ⟨'/', "strong&gt;".toList ++ c, by rw [hy3, he]; simp,
        by decide⟩)
    · exact Or.inr (Or.inl ⟨'s', "trong&gt;".toList ++ c, by rw [hy3, he]; simp,
        by decide⟩)
    · exact Or.inr (Or.inl ⟨'t', "rong&gt;".toList ++ c, by rw [hy3, he]; simp,
        by decide⟩)
    · exact Or.inr (Or.inl ⟨'r', "ong&gt;".toList ++ c, by rw [hy3, he]; simp,
        by decide⟩)
    · exact Or.inr (Or.inl ⟨'o', "ng&gt;".toList ++ c, by rw [hy3, he]; simp,
        by decide⟩)
    · exact Or.inr (Or.inl ⟨'n', "g&gt;".toList ++ c, by rw [hy3, he]; simp,
        by decide⟩)
    · exact Or.inr (Or.inl ⟨'g', "&gt;".toList ++ c, by rw [hy3, he]; simp,
        by decide⟩)
    · exact Or.inr (Or.inr (by rw [hy3, he]; simp))
    · exact Or.inr (Or.inl ⟨'g', "t;".toList ++ c, by rw [hy3, he]; simp, by decide⟩)
    · exact Or.inr (Or.inl ⟨'t', ";".toList ++ c, by rw [hy3, he]; simp, by decide⟩)
    · exact Or.inr (Or.inl ⟨';', c, by rw [hy3, he]; simp, by decide⟩)
    · exact absurd he hy2

theorem c10_strclose_class {b c : List Char} (hb : ∀ x ∈ b, (x == '&') = false)
    (hc : ∀ x ∈ c, (x == '&') = false) :
    ∀ s₀, s₀ <:+ b ++ (ExtProc.entStrongClose ++ c) → s₀ = [] ∨
      (∃ d ds, s₀ = d :: ds ∧ (d == '&') = false) ∨
      s₀ ∈ [ExtProc.entStrongClose ++ c, "&gt;".toList ++ c] :=
  class_append_safe_p hb (c10_entsc_class hc)

/-- Classification of the suffixes of the escaped em-close entity followed by
safe text. -/
theorem c10_entec_class {c : List Char} (hc : ∀ x ∈ c, (x == '&') = false) :
    ∀ s₀, s₀ <:+ ExtProc.entEmClose ++ c → s₀ = [] ∨
      (∃ d ds, s₀ = d :: ds ∧ (d == '&') = false) ∨
      s₀ ∈ [ExtProc.entEmClose ++ c, "&gt;".toList ++ c] := by
  intro s₀ hs
  rcases suffix_append_cases hs with h2 | ⟨y', hy1, hy2, hy3⟩
  · exact class_of_safe_p hc _ s₀ h2
  · have hmem : y' ∈ List.tails ExtProc.entEmClose := (List.mem_tails _ _).mpr hy1
    have htails : List.tails ExtProc.entEmClose =
        ["&lt;/em&gt;".toList, "lt;/em&gt;".toList, "t;/em&gt;".toList,
         ";/em&gt;".toList, "/em&gt;".toList, "em&gt;".toList, "m&gt;".toList,
         "&gt;".toList, "gt;".toList, "t;".toList, ";".toList, []] := by decide
    rw [htails] at hmem
    simp only [List.mem_cons, List.not_mem_nil, or_false] at hmem
    rcases hmem with he|he|he|he|he|he|he|he|he|he|he|he
    · exact Or.inr (Or.inr (by rw [hy3, he]; simp [ExtProc.entEmClose]))
    · exact Or.inr (Or.inl ⟨'l', "t;/em&gt;".toList ++ c, by rw [hy3, he]; simp,
        by decide⟩)
    · exact Or.inr (Or.inl ⟨'t', ";/em&gt;".toList ++ c, by rw [hy3, he]; simp,
        by decide⟩)
    · exact Or.inr (Or.inl ⟨';', "/em&gt;".toList ++ c, by rw [hy3, he]; simp,
        by decide⟩)
    · exact Or.inr (Or.inl ⟨'/', "em&gt;".toList ++ c, by rw [hy3, he]; simp,
        by decide⟩)
    · exact Or.inr (Or.inl ⟨'e', "m&gt;".toList ++ c, by rw [hy3, he]; simp,
        by decide⟩)
    · exact Or.inr (Or.inl ⟨'m', "&gt;".toList ++ c, by rw [hy3, he]; simp,
        by decide⟩)
    · exact Or.inr (Or.inr (by rw [hy3, he]; simp))
    · exact Or.inr (Or.inl ⟨'g', "t;".toList ++ c, by rw [hy3, he]; simp, by decide⟩)
    · exact Or.inr (Or.inl ⟨'t', ";".toList ++ c, by rw [hy3, he]; simp, by decide⟩)
    · exact Or.inr (Or.inl ⟨';', c, by rw [hy3, he]; simp, by decide⟩)
    · exact absurd he hy2

theorem c10_emclose_class {b c : List Char} (hb : ∀ x ∈ b, (x == '&') = false)
    (hc : ∀ x ∈ c, (x == '&') = false) :
    ∀ s₀, s₀ <:+ b ++ (ExtProc.entEmClose ++ c) → s₀ = [] ∨
      (∃ d ds, s₀ = d :: ds ∧ (d == '&') = false) ∨
      s₀ ∈ [ExtProc.entEmClose ++ c, "&gt;".toList ++ c] :=
  class_append_safe_p hb (c10_entec_class hc)

/-- Classification of the suffixes of the fully escaped em-tagged paragraph:
four ampersand sites. -/
theorem c10_em_class {a b c : List Char} (ha : ∀ x ∈ a, (x == '&') = false)
    (hb : ∀ x ∈ b, (x == '&') = false) (hc : ∀ x ∈ c, (x == '&') = false) :
    ∀ s₀, s₀ <:+ a ++ (ExtProc.entEmOpen ++ (b ++ (ExtProc.entEmClose ++ c))) →
      s₀ = [] ∨ (∃ d ds, s₀ = d :: ds ∧ (d == '&') = false) ∨
      s₀ ∈ [ExtProc.entEmOpen ++ (b ++ (ExtProc.entEmClose ++ c)),
        "&gt;".toList ++ (b ++ (ExtProc.entEmClose ++ c)),
        ExtProc.entEmClose ++ c, "&gt;".toList ++ c] := by
  apply class_append_safe_p ha
  intro s₀ hs
  rcases suffix_append_cases hs with h1 | ⟨y', hy1, hy2, hy3⟩
  · rcases c10_emclose_class hb hc s₀ h1 with he | hsafe | hmem
    · exact Or.inl he
    · exact Or.inr (Or.inl hsafe)
    · simp only [List.mem_cons, List.not_mem_nil, or_false] at hmem
      rcases hmem with rfl | rfl
      · exact Or.inr (Or.inr (by simp))
      · exact Or.inr (Or.inr (by simp))
  · have hmem : y' ∈ List.tails ExtProc.entEmOpen := (List.mem_tails _ _).mpr hy1
    have htails : List.tails ExtProc.entEmOpen =
        ["&lt;em&gt;".toList, "lt;em&gt;".toList, "t;em&gt;".toList, ";em&gt;".toList,
         "em&gt;".toList, "m&gt;".toList, "&gt;".toList, "gt;".toList, "t;".toList,
         ";".toList, []] := by decide
    rw [htails] at hmem
    simp only [List.mem_cons, List.not_mem_nil, or_false] at hmem
    rcases hmem with he|he|he|he|he|he|he|he|he|he|he
    · exact Or.inr (Or.inr (by rw [hy3, he]; simp [ExtProc.entEmOpen]))
    · exact Or.inr (Or.inl ⟨'l', "t;em&gt;".toList ++ (b ++ (ExtProc.entEmClose ++ c)),
        by rw [hy3, he]; simp, by decide⟩)
    · exact Or.inr (Or.inl ⟨'t', ";em&gt;".toList ++ (b ++ (ExtProc.entEmClose ++ c)),
        by rw [hy3, he]; simp, by decide⟩)
    · exact Or.inr (Or.inl ⟨';', "em&gt;".toList ++ (b ++ (ExtProc.entEmClose ++ c)),
        by rw [hy3, he]; simp, by decide⟩)
    · exact Or.inr (Or.inl ⟨'e', "m&gt;".toList ++ (b ++ (ExtProc.entEmClose ++ c)),
        by rw [hy3, he]; simp, by decide⟩)
    · exact Or.inr (Or.inl ⟨'m', "&gt;".toList ++ (b ++ (ExtProc.entEmClose ++ c)),
        by rw [hy3, he]; simp, by decide⟩)
    · exact Or.inr (Or.inr (by rw [hy3, he]; simp))
    · exact Or.inr (Or.inl ⟨'g', "t;".toList ++ (b ++ (ExtProc.entEmClose ++ c)),
        by rw [hy3, he]; simp, by decide⟩)
    · exact Or.inr (Or.inl ⟨'t', ";".toList ++ (b ++ (ExtProc.entEmClose ++ c)),
        by rw [hy3, he]; simp, by decide⟩)
    · exact Or.inr (Or.inl ⟨';', b ++ (ExtProc.entEmClose ++ c),
        by rw [hy3, he]; simp, by decide⟩)
    · exact absurd he hy2

/-- Classification of the single ampersand site of an escaped ampersand. -/
theorem c10_amp_class {a b : List Char} (ha : ∀ x ∈ a, (x == '&') = false)
    (hb : ∀ x ∈ b, (x == '&') = false) :
    ∀ s₀, s₀ <:+ a ++ ('&' :: ("amp;".toList ++ b)) → s₀ = [] ∨
      (∃ d ds, s₀ = d :: ds ∧ (d == '&') = false) ∨
      s₀ ∈ ['&' :: ("amp;".toList ++ b)] := by
  apply class_append_safe_p ha
  intro s₀ hs
  rcases List.suffix_cons_iff.mp hs with h1 | h1
  · exact Or.inr (Or.inr (by rw [h1]; exact List.mem_cons_self _ _))
  · exact class_append_safe_p (by decide) (class_of_safe_p hb _) s₀ h1

end RtfSpec

namespace RtfSpec

theorem sites4_none {m : List Char → Option Nat} {x1 x2 x3 x4 : List Char}
    (h1 : m x1 = none) (h2 : m x2 = none) (h3 : m x3 = none) (h4 : m x4 = none) :
    ∀ s ∈ [x1, x2, x3, x4], m s = none := by
  intro s hs
  simp only [List.mem_cons, List.not_mem_nil, or_false] at hs
  rcases hs with rfl | rfl | rfl | rfl
  · exact h1
  · exact h2
  · exact h3
  · exact h4

/-- create_legal_html restores an escaped strong pair as markup and keeps the
surrounding safe text verbatim. -/
theorem c10_strong_restore (a b c : List Char) (ha : ∀ x ∈ a, escCharRef x = [x])
    (hb : ∀ x ∈ b, escCharRef x = [x]) (hc : ∀ x ∈ c, escCharRef x = [x]) :
    ExtProc.extParaOut (a ++ (AdvProc.strongOpen ++ (b ++ (AdvProc.strongClose ++ c)))) =
      a ++ (AdvProc.strongOpen ++ (b ++ (AdvProc.strongClose ++ c))) := by
  have ha' : ∀ x ∈ a, (x == '&') = false := fun x hx => escSafe_not_amp (ha x hx)
  have hb' : ∀ x ∈ b, (x == '&') = false := fun x hx => escSafe_not_amp (hb x hx)
  have hc' : ∀ x ∈ c, (x == '&') = false := fun x hx => escSafe_not_amp (hc x hx)
  have hfhEO : FireHead (litLen ExtProc.entStrongOpen) (fun ch => ch == '&') :=
    litLen_fireHead _ '&' (by decide)
  have hfhEC : FireHead (litLen ExtProc.entStrongClose) (fun ch => ch == '&') :=
    litLen_fireHead _ '&' (by decide)
  have hesc : ExtProc.pyHtmlEscape
      (a ++ (AdvProc.strongOpen ++ (b ++ (AdvProc.strongClose ++ c)))) =
      a ++ (ExtProc.entStrongOpen ++ (b ++ (ExtProc.entStrongClose ++ c))) := by
    rw [pyHtmlEscape_flatMap]
    simp only [List.flatMap_append]
    rw [flatMap_esc_id ha, flatMap_esc_id hb, flatMap_esc_id hc,
      show AdvProc.strongOpen.flatMap escCharRef = ExtProc.entStrongOpen from rfl,
      show AdvProc.strongClose.flatMap escCharRef = ExtProc.entStrongClose from rfl]
  have hm14 : litLen ExtProc.entStrongOpen
      ('&' :: ("lt;strong&gt;".toList ++ (b ++ (ExtProc.entStrongClose ++ c)))) =
      some 14 := by
    show litLen ExtProc.entStrongOpen
      (ExtProc.entStrongOpen ++ (b ++ (ExtProc.entStrongClose ++ c))) = some 14
    unfold litLen
    rw [if_pos (hasLead_append_self _ _)]
    rfl
  have hp1 : subst (litLen ExtProc.entStrongOpen) AdvProc.strongOpen
      (a ++ (ExtProc.entStrongOpen ++ (b ++ (ExtProc.entStrongClose ++ c)))) =
      a ++ (AdvProc.strongOpen ++ (b ++ (ExtProc.entStrongClose ++ c))) := by
    rw [subst_append_nofire _ _ _ (nofire_of_head hfhEO ha')]
    congr 1
    rw [show ExtProc.entStrongOpen ++ (b ++ (ExtProc.entStrongClose ++ c)) =
        '&' :: ("lt;strong&gt;".toList ++ (b ++ (ExtProc.entStrongClose ++ c)))
        from rfl,
      subst_cons_match _ _ '&'
        ("lt;strong&gt;".toList ++ (b ++ (ExtProc.entStrongClose ++ c))) 14 hm14,
      List.drop_left' (by decide)]
    congr 1
    exact subst_eq_self_sites_p _ (c10_strclose_class hb' hc') hfhEO (sites2_none
      (by simp [litLen, ExtProc.entStrongOpen, ExtProc.entStrongClose, hasLead])
      (by simp [litLen, ExtProc.entStrongOpen, hasLead]))
  have hm15 : litLen ExtProc.entStrongClose
      ('&' :: ("lt;/strong&gt;".toList ++ c)) = some 15 := by
    show litLen ExtProc.entStrongClose (ExtProc.entStrongClose ++ c) = some 15
    unfold litLen
    rw [if_pos (hasLead_append_self _ _)]
    rfl
  have hampASOB : ∀ x ∈ a ++ (AdvProc.strongOpen ++ b), (x == '&') = false := by
    intro x hx
    rcases List.mem_append.mp hx with h | h
    · exact ha' x h
    · rcases List.mem_append.mp h with h2 | h2
      · exact (show ∀ y ∈ AdvProc.strongOpen, (y == '&') = false by decide) x h2
      · exact hb' x h2
  have hp2 : subst (litLen ExtProc.entStrongClose) AdvProc.strongClose
      (a ++ (AdvProc.strongOpen ++ (b ++ (ExtProc.entStrongClose ++ c)))) =
      a ++ (AdvProc.strongOpen ++ (b ++ (AdvProc.strongClose ++ c))) := by
    rw [show a ++ (AdvProc.strongOpen ++ (b ++ (ExtProc.entStrongClose ++ c))) =
        (a ++ (AdvProc.strongOpen ++ b)) ++ (ExtProc.entStrongClose ++ c) by simp,
      subst_append_nofire _ _ _ (nofire_of_head hfhEC hampASOB),
      show ExtProc.entStrongClose ++ c = '&' :: ("lt;/strong&gt;".toList ++ c) from rfl,
      subst_cons_match _ _ '&' ("lt;/strong&gt;".toList ++ c) 15 hm15,
      List.drop_left' (by decide),
      subst_id_of_no_head _ hfhEC hc']
    simp
  have hampFinal : ∀ x ∈ a ++ (AdvProc.strongOpen ++ (b ++ (AdvProc.strongClose ++ c))),
      (x == '&') = false := by
    intro x hx
    rcases List.mem_append.mp hx with h | h
    · exact ha' x h
    · rcases List.mem_append.mp h with h2 | h2
      · exact (show ∀ y ∈ AdvProc.strongOpen, (y == '&') = false by decide) x h2
      · rcases List.mem_append.mp h2 with h3 | h3
        · exact hb' x h3
        · rcases List.mem_append.mp h3 with h4 | h4
          · exact (show ∀ y ∈ AdvProc.strongClose, (y == '&') = false by decide) x h4
          · exact hc' x h4
  have hp3 : subst (litLen ExtProc.entEmOpen) AdvProc.emOpen
      (a ++ (AdvProc.strongOpen ++ (b ++ (AdvProc.strongClose ++ c)))) =
      a ++ (AdvProc.strongOpen ++ (b ++ (AdvProc.strongClose ++ c))) :=
    subst_id_of_no_head _ (litLen_fireHead _ '&' (by decide)) hampFinal
  have hp4 : subst (litLen ExtProc.entEmClose) AdvProc.emClose
      (a ++ (AdvProc.strongOpen ++ (b ++ (AdvProc.strongClose ++ c)))) =
      a ++ (AdvProc.strongOpen ++ (b ++ (AdvProc.strongClose ++ c))) :=
    subst_id_of_no_head _ (litLen_fireHead _ '&' (by decide)) hampFinal
  unfold ExtProc.extParaOut ExtProc.restoreTags replaceAll
  rw [hesc, hp1, hp2, hp3, hp4]

/-- create_legal_html restores an escaped em pair as markup and keeps the
surrounding safe text verbatim. -/
theorem c10_em_restore (a b c : List Char) (ha : ∀ x ∈ a, escCharRef x = [x])
    (hb : ∀ x ∈ b, escCharRef x = [x]) (hc : ∀ x ∈ c, escCharRef x = [x]) :
    ExtProc.extParaOut (a ++ (AdvProc.emOpen ++ (b ++ (AdvProc.emClose ++ c)))) =
      a ++ (AdvProc.emOpen ++ (b ++ (AdvProc.emClose ++ c))) := by
  have ha' : ∀ x ∈ a, (x == '&') = false := fun x hx => escSafe_not_amp (ha x hx)
  have hb' : ∀ x ∈ b, (x == '&') = false := fun x hx => escSafe_not_amp (hb x hx)
  have hc' : ∀ x ∈ c, (x == '&') = false := fun x hx => escSafe_not_amp (hc x hx)
  have hfhEmO : FireHead (litLen ExtProc.entEmOpen) (fun ch => ch == '&') :=
    litLen_fireHead _ '&' (by decide)
  have hfhEmC : FireHead (litLen ExtProc.entEmClose) (fun ch => ch == '&') :=
    litLen_fireHead _ '&' (by decide)
  have hesc : ExtProc.pyHtmlEscape
      (a ++ (AdvProc.emOpen ++ (b ++ (AdvProc.emClose ++ c)))) =
      a ++ (ExtProc.entEmOpen ++ (b ++ (ExtProc.entEmClose ++ c))) := by
    rw [pyHtmlEscape_flatMap]
    simp only [List.flatMap_append]
    rw [flatMap_esc_id ha, flatMap_esc_id hb, flatMap_esc_id hc,
      show AdvProc.emOpen.flatMap escCharRef = ExtProc.entEmOpen from rfl,
      show AdvProc.emClose.flatMap escCharRef = ExtProc.entEmClose from rfl]
  have hclassE := c10_em_class ha' hb' hc'
  have hp1 : subst (litLen ExtProc.entStrongOpen) AdvProc.strongOpen
      (a ++ (ExtProc.entEmOpen ++ (b ++ (ExtProc.entEmClose ++ c)))) =
      a ++ (ExtProc.entEmOpen ++ (b ++ (ExtProc.entEmClose ++ c))) :=
    subst_eq_self_sites_p _ hclassE (litLen_fireHead _ '&' (by decide)) (sites4_none
      (by simp [litLen, ExtProc.entStrongOpen, ExtProc.entEmOpen, hasLead])
      (by simp [litLen, ExtProc.entStrongOpen, hasLead])
      (by simp [litLen, ExtProc.entStrongOpen, ExtProc.entEmClose, hasLead])
      (by simp [litLen, ExtProc.entStrongOpen, hasLead]))
  have hp2 : subst (litLen ExtProc.entStrongClose) AdvProc.strongClose
      (a ++ (ExtProc.entEmOpen ++ (b ++ (ExtProc.entEmClose ++ c)))) =
      a ++ (ExtProc.entEmOpen ++ (b ++ (ExtProc.entEmClose ++ c))) :=
    subst_eq_self_sites_p _ hclassE (litLen_fireHead _ '&' (by decide)) (sites4_none
      (by simp [litLen, ExtProc.entStrongClose, ExtProc.entEmOpen, hasLead])
      (by simp [litLen, ExtProc.entStrongClose, hasLead])
      (by simp [litLen, ExtProc.entStrongClose, ExtProc.entEmClose, hasLead])
      (by simp [litLen, ExtProc.entStrongClose, hasLead]))
  have hmEmO : litLen ExtProc.entEmOpen
      ('&' :: ("lt;em&gt;".toList ++ (b ++ (ExtProc.entEmClose ++ c)))) = some 10 := by
    show litLen ExtProc.entEmOpen
      (ExtProc.entEmOpen ++ (b ++ (ExtProc.entEmClose ++ c))) = some 10
    unfold litLen
    rw [if_pos (hasLead_append_self _ _)]
    rfl
  have hp3 : subst (litLen ExtProc.entEmOpen) AdvProc.emOpen
      (a ++ (ExtProc.entEmOpen ++ (b ++ (ExtProc.entEmClose ++ c)))) =
      a ++ (AdvProc.emOpen ++ (b ++ (ExtProc.entEmClose ++ c))) := by
    rw [subst_append_nofire _ _ _ (nofire_of_head hfhEmO ha')]
    congr 1
    rw [show ExtProc.entEmOpen ++ (b ++ (ExtProc.entEmClose ++ c)) =
        '&' :: ("lt;em&gt;".toList ++ (b ++ (ExtProc.entEmClose ++ c))) from rfl,
      subst_cons_match _ _ '&'
        ("lt;em&gt;".toList ++ (b ++ (ExtProc.entEmClose ++ c))) 10 hmEmO,
      List.drop_left' (by decide)]
    congr 1
    exact subst_eq_self_sites_p _ (c10_emclose_class hb' hc') hfhEmO (sites2_none
      (by simp [litLen, ExtProc.entEmOpen, ExtProc.entEmClose, hasLead])
      (by simp [litLen, ExtProc.entEmOpen, hasLead]))
  have hmEmC : litLen ExtProc.entEmClose ('&' :: ("lt;/em&gt;".toList ++ c)) =
      some 11 := by
    show litLen ExtProc.entEmClose (ExtProc.entEmClose ++ c) = some 11
    unfold litLen
    rw [if_pos (hasLead_append_self _ _)]
    rfl
  have hampAEB : ∀ x ∈ a ++ (AdvProc.emOpen ++ b), (x == '&') = false := by
    intro x hx
    rcases List.mem_append.mp hx with h | h
    · exact ha' x h
    · rcases List.mem_append.mp h with h2 | h2
      · exact (show ∀ y ∈ AdvProc.emOpen, (y == '&') = false by decide) x h2
      · exact hb' x h2
  have hp4 : subst (litLen ExtProc.entEmClose) AdvProc.emClose
      (a ++ (AdvProc.emOpen ++ (b ++ (ExtProc.entEmClose ++ c)))) =
      a ++ (AdvProc.emOpen ++ (b ++ (AdvProc.emClose ++ c))) := by
    rw [show a ++ (AdvProc.emOpen ++ (b ++ (ExtProc.entEmClose ++ c))) =
        (a ++ (AdvProc.emOpen ++ b)) ++ (ExtProc.entEmClose ++ c) by simp,
      subst_append_nofire _ _ _ (nofire_of_head hfhEmC hampAEB),
      show ExtProc.entEmClose ++ c = '&' :: ("lt;/em&gt;".toList ++ c) from rfl,
      subst_cons_match _ _ '&' ("lt;/em&gt;".toList ++ c) 11 hmEmC,
      List.drop_left' (by decide),
      subst_id_of_no_head _ hfhEmC hc']
    simp
  unfold ExtProc.extParaOut ExtProc.restoreTags replaceAll
  rw [hesc, hp1, hp2, hp3, hp4]

/-- An escaped ampersand survives tag restoration: the entity reaches the
output. -/
theorem c10_amp_out (a b : List Char) (ha : ∀ x ∈ a, escCharRef x = [x])
    (hb : ∀ x ∈ b, escCharRef x = [x]) :
    ExtProc.extParaOut (a ++ '&' :: b) = a ++ ("&amp;".toList ++ b) := by
  have ha' : ∀ x ∈ a, (x == '&') = false := fun x hx => escSafe_not_amp (ha x hx)
  have hb' : ∀ x ∈ b, (x == '&') = false := fun x hx => escSafe_not_amp (hb x hx)
  have hesc : ExtProc.pyHtmlEscape (a ++ '&' :: b) =
      a ++ ('&' :: ("amp;".toList ++ b)) := by
    rw [pyHtmlEscape_flatMap, show a ++ '&' :: b = a ++ (['&'] ++ b) from rfl]
    simp only [List.flatMap_append]
    rw [flatMap_esc_id ha, flatMap_esc_id hb]
    rfl
  have hclassA := c10_amp_class ha' hb'
  unfold ExtProc.extParaOut ExtProc.restoreTags replaceAll
  rw [hesc,
    subst_eq_self_sites_p _ hclassA (litLen_fireHead ExtProc.entStrongOpen '&' (by decide))
      (sites1_none (by simp [litLen, ExtProc.entStrongOpen, hasLead])),
    subst_eq_self_sites_p _ hclassA (litLen_fireHead ExtProc.entStrongClose '&' (by decide))
      (sites1_none (by simp [litLen, ExtProc.entStrongClose, hasLead])),
    subst_eq_self_sites_p _ hclassA (litLen_fireHead ExtProc.entEmOpen '&' (by decide))
      (sites1_none (by simp [litLen, ExtProc.entEmOpen, hasLead])),
    subst_eq_self_sites_p _ hclassA (litLen_fireHead ExtProc.entEmClose '&' (by decide))
      (sites1_none (by simp [litLen, ExtProc.entEmClose, hasLead]))]
  rfl

/-- The extract variant emits each kept paragraph through the escape-and-restore
path. -/
theorem c10_ext_emit (p : List Char) (h : pstrip p ≠ []) :
    ExtProc.extParasHtml [p] =
      ExtProc.pOpenTag ++ ExtProc.extParaOut p ++ ExtProc.pCloseTag := by
  unfold ExtProc.extParasHtml
  rw [List.foldl_cons, if_neg (by rw [ne_nil_beq_false h]; exact Bool.false_ne_true)]
  simp

/-- The advanced variant emits paragraph text verbatim, with no escaping. -/
theorem c10_adv_verbatim (p : List Char) (h : pstrip p ≠ []) :
    advParasHtml [p] = ExtProc.pOpenTag ++ p ++ ExtProc.pCloseTag := by
  unfold advParasHtml
  rw [List.foldl_cons, if_neg (by rw [ne_nil_beq_false h]; exact Bool.false_ne_true)]
  simp

/-- The manual variant emits paragraph text verbatim, with no escaping. -/
theorem c10_man_verbatim (p : List Char) (h : pstrip p ≠ [])
    (hn : (ManProc.anyLead ManProc.newParaTok p || AdvProc.numMatch p) = false) :
    ManProc.finalParasHtml [p] =
      ExtProc.pOpenTag ++ pstrip p ++ ExtProc.pCloseTag := by
  simp [ManProc.finalParasHtml, ManProc.finalParaChunks, ManProc.finalChunksGo,
    ne_nil_beq_false h, hn]

end RtfSpec

namespace RtfSpec

/-- Claim C10: only the extract variant escapes HTML.  create_legal_html escapes
every ampersand and angle bracket of a paragraph to its entity (character by
character), restores exactly the four emphasis tag substrings as markup, and
lets an escaped ampersand reach the emitted paragraph; the paragraph loops of
the advanced and manual variants emit paragraph text with no escaping. -/
theorem c10_escaping :
    (∀ s : List Char, ExtProc.pyHtmlEscape s = s.flatMap escCharRef) ∧
    (∀ a b c : List Char, (∀ x ∈ a, escCharRef x = [x]) →
      (∀ x ∈ b, escCharRef x = [x]) → (∀ x ∈ c, escCharRef x = [x]) →
      ExtProc.extParaOut
          (a ++ (AdvProc.strongOpen ++ (b ++ (AdvProc.strongClose ++ c)))) =
        a ++ (AdvProc.strongOpen ++ (b ++ (AdvProc.strongClose ++ c)))) ∧
    (∀ a b c : List Char, (∀ x ∈ a, escCharRef x = [x]) →
      (∀ x ∈ b, escCharRef x = [x]) → (∀ x ∈ c, escCharRef x = [x]) →
      ExtProc.extParaOut (a ++ (AdvProc.emOpen ++ (b ++ (AdvProc.emClose ++ c)))) =
        a ++ (AdvProc.emOpen ++ (b ++ (AdvProc.emClose ++ c)))) ∧
    (∀ a b : List Char, (∀ x ∈ a, escCharRef x = [x]) →
      (∀ x ∈ b, escCharRef x = [x]) →
      ExtProc.extParaOut (a ++ '&' :: b) = a ++ ("&amp;".toList ++ b)) ∧
    (∀ p : List Char, pstrip p ≠ [] → ExtProc.extParasHtml [p] =
      ExtProc.pOpenTag ++ ExtProc.extParaOut p ++ ExtProc.pCloseTag) ∧
    (∀ p : List Char, pstrip p ≠ [] → advParasHtml [p] =
      ExtProc.pOpenTag ++ p ++ ExtProc.pCloseTag) ∧
    (∀ p : List Char, pstrip p ≠ [] →
      (ManProc.anyLead ManProc.newParaTok p || AdvProc.numMatch p) = false →
      ManProc.finalParasHtml [p] =
        ExtProc.pOpenTag ++ pstrip p ++ ExtProc.pCloseTag) :=
  ⟨pyHtmlEscape_flatMap, c10_strong_restore, c10_em_restore, c10_amp_out,
    c10_ext_emit, c10_adv_verbatim, c10_man_verbatim⟩

/-- Witness for claim C10 at concrete paragraphs: an ampersand is escaped by
the extract variant and kept verbatim by the other two, and a strong and an em
pair are restored as markup. -/
theorem c10_witness :
    ExtProc.pyHtmlEscape "fees & taxes".toList =
      "fees & taxes".toList.flatMap escCharRef ∧
    ExtProc.extParaOut ("see ".toList ++ (AdvProc.strongOpen ++
        ("terms".toList ++ (AdvProc.strongClose ++ " now".toList)))) =
      "see ".toList ++ (AdvProc.strongOpen ++
        ("terms".toList ++ (AdvProc.strongClose ++ " now".toList))) ∧
    ExtProc.extParaOut ("see ".toList ++ (AdvProc.emOpen ++
        ("terms".toList ++ (AdvProc.emClose ++ " now".toList)))) =
      "see ".toList ++ (AdvProc.emOpen ++
        ("terms".toList ++ (AdvProc.emClose ++ " now".toList))) ∧
    ExtProc.extParaOut ("fees ".toList ++ '&' :: " taxes".toList) =
      "fees ".toList ++ ("&amp;".toList ++ " taxes".toList) ∧
    ExtProc.extParasHtml ["fees & taxes".toList] =
      ExtProc.pOpenTag ++ ExtProc.extParaOut "fees & taxes".toList ++
        ExtProc.pCloseTag ∧
    advParasHtml ["fees & taxes".toList] =
      ExtProc.pOpenTag ++ "fees & taxes".toList ++ ExtProc.pCloseTag ∧
    ManProc.finalParasHtml ["fees & taxes".toList] =
      ExtProc.pOpenTag ++ pstrip "fees & taxes".toList ++ ExtProc.pCloseTag :=
  ⟨c10_escaping.1 "fees & taxes".toList,
   c10_escaping.2.1 "see ".toList "terms".toList " now".toList (by decide) (by decide)
     (by decide),
   c10_escaping.2.2.1 "see ".toList "terms".toList " now".toList (by decide) (by decide)
     (by decide),
   c10_escaping.2.2.2.1 "fees ".toList " taxes".toList (by decide) (by decide),
   c10_escaping.2.2.2.2.1 "fees & taxes".toList (by decide),
   c10_escaping.2.2.2.2.2.1 "fees & taxes".toList (by decide),
   c10_escaping.2.2.2.2.2.2 "fees & taxes".toList (by decide) (by decide)⟩

end RtfSpec
